import Mathlib

/-!
Verification development for the serde_datalog extraction engine.

This file gives a shallow embedding of the extraction engine (`src/lib.rs`)
and the in-memory vector backend (`src/backend/vector.rs`), together with a
trace model of the Souffle/SQLite backend's `dump_to_db`
(`src/backend/souffle_sqlite.rs`), and proves properties of the embedding.

Conventions of the embedding:
* `ElemId` and `SymbolId` (Rust newtypes over `usize`) are modelled as `Nat`.
* Rust `HashMap`s are modelled as association lists; the uniqueness guards
  (`assert!(....insert(..).is_none())`) become explicit key-membership checks.
* A failed Rust `assert!` or `.unwrap()` aborts the process; this is modelled
  by the distinguished outcome `ExtErr.panicked`, which is distinct from every
  returned `DatalogExtractionError`.
* Fallible operations return `Except ExtErr α`; the extractor's methods take
  and return the whole mutable state (`ExtState`), returning the state
  reached at the point of the error, as Rust's `&mut self` methods do.
* The payload strings of `UnextractableData` are dropped (the source's two
  snapshots disagree on whether the variant carries a payload, and no payload
  is ever inspected); `NonuniqueIdentifier`'s `ElemId` payload is kept.
-/

/-- Error type, from `DatalogExtractionError` in `src/lib.rs`, extended with
`panicked` to model a Rust `assert!`/`unwrap` abort. -/
inductive ExtErr where
  | unextractableData : ExtErr
  | nonuniqueRootElement (file : String) : ExtErr
  | nonuniqueIdentifier (elem : Nat) : ExtErr
  | integerCastOverflow (value : Nat) : ExtErr
  | custom (msg : String) : ExtErr
  | panicked : ExtErr
deriving DecidableEq, Repr

/-- Element types, from `ElemType` in `src/lib.rs`. -/
inductive ElemType where
  | Bool | I8 | I16 | I32 | I64 | U8 | U16 | U32 | U64 | F32 | F64
  | Char | Str | Bytes | Map | NewtypeStruct | NewtypeVariant | Seq
  | Struct | StructVariant | Tuple | TupleStruct | TupleVariant
  | Unit | UnitStruct | UnitVariant
deriving DecidableEq, Repr

/-- The in-memory backend's data, from `BackendData` in `src/backend/vector.rs`.
Hash maps keyed by an element (and optionally a sub-key) become association
lists whose key is the first component.  The `rootElemTable` corresponds to
the `root_elem_table` that `src/backend/souffle_sqlite.rs` reads. -/
structure BackendData where
  symbolTable : List (String × Nat) := []
  typeTable : List (Nat × Nat) := []
  boolTable : List (Nat × Bool) := []
  numberTable : List (Nat × Int) := []
  stringTable : List (Nat × Nat) := []
  mapTable : List ((Nat × Nat) × Nat) := []
  structTypeTable : List (Nat × Nat) := []
  structTable : List ((Nat × Nat) × Nat) := []
  seqTable : List ((Nat × Nat) × Nat) := []
  variantTypeTable : List (Nat × (Nat × Nat)) := []
  tupleTable : List ((Nat × Nat) × Nat) := []
  rootElemTable : List (Nat × Nat) := []
deriving DecidableEq, Repr

/-- The vector backend (`AbstractBackend` in `src/backend/vector.rs`):
the interner's counter plus the data tables. -/
structure Backend where
  curSym : Nat := 1
  data : BackendData := {}
deriving DecidableEq, Repr

/-- Membership of a string key in the symbol table
(`self.data.symbol_table.get(s)` in `src/backend/vector.rs`). -/
def lookupSym (table : List (String × Nat)) (s : String) : Option Nat :=
  (table.find? (fun p => p.1 = s)).map (·.2)

/-- `AbstractBackend::intern_string` from `src/backend/vector.rs`:
return the existing id, or allocate `cur_symbol_id`, record the mapping,
and bump the counter. -/
def internString (b : Backend) (s : String) : Nat × Backend :=
  match lookupSym b.data.symbolTable s with
  | some id => (id, b)
  | none =>
      (b.curSym,
       { b with
           curSym := b.curSym + 1,
           data := { b.data with
                       symbolTable := b.data.symbolTable ++ [(s, b.curSym)] } })

/-- The bootstrap vocabulary interned by `AbstractBackend::default`
(`src/backend/vector.rs`), in source order. -/
def bootstrapNames : List String :=
  ["Bool", "Number", "Str", "Map", "Seq", "Struct", "StructVariant",
   "Tuple", "TupleStruct", "TupleVariant", "Unit", "UnitStruct", "UnitVariant"]

/-- `AbstractBackend::default` from `src/backend/vector.rs`: a fresh backend
with `cur_symbol_id = 1` that has interned the bootstrap vocabulary. -/
def defaultBackend : Backend :=
  bootstrapNames.foldl (fun b s => (internString b s).2) { }

/-- The type-tag name chosen by `AbstractBackend::add_elem` for each element
type (`src/backend/vector.rs`); `none` for the rejected kinds
(`F32`, `F64`, `Bytes`). -/
def elemTypeName : ElemType → Option String
  | .Bool => some "Bool"
  | .I8 | .I16 | .I32 | .I64 | .U8 | .U16 | .U32 | .U64 => some "Number"
  | .Char | .Str => some "Str"
  | .F32 | .F64 | .Bytes => none
  | .Map => some "Map"
  | .Seq => some "Seq"
  | .Struct => some "Struct"
  | .StructVariant => some "StructVariant"
  | .Tuple => some "Tuple"
  | .TupleStruct | .NewtypeStruct => some "TupleStruct"
  | .TupleVariant | .NewtypeVariant => some "TupleVariant"
  | .Unit => some "Unit"
  | .UnitStruct => some "UnitStruct"
  | .UnitVariant => some "UnitVariant"

/-- `AbstractBackend::add_elem` from `src/backend/vector.rs`: reject floats
and byte arrays before touching any table, otherwise intern the type-tag name
and append a row to the type table. -/
def addElem (b : Backend) (elem : Nat) (t : ElemType) : Except ExtErr Backend :=
  match elemTypeName t with
  | none => .error .unextractableData
  | some typeName =>
      let (sym, b1) := internString b typeName
      .ok { b1 with data := { b1.data with typeTable := b1.data.typeTable ++ [(elem, sym)] } }

/-- `AbstractBackend::add_bool`: `assert!(bool_table.insert(elem, value).is_none())`.
A duplicate element key fails the assertion (modelled as `panicked`). -/
def addBool (b : Backend) (elem : Nat) (value : Bool) : Except ExtErr Backend :=
  if (b.data.boolTable.map Prod.fst).contains elem then .error .panicked
  else .ok { b with data := { b.data with boolTable := b.data.boolTable ++ [(elem, value)] } }

/-- `AbstractBackend::add_i64` (also the target of the `add_i8/16/32`
defaults in `src/lib.rs`). -/
def addI64 (b : Backend) (elem : Nat) (value : Int) : Except ExtErr Backend :=
  if (b.data.numberTable.map Prod.fst).contains elem then .error .panicked
  else .ok { b with data := { b.data with numberTable := b.data.numberTable ++ [(elem, value)] } }

/-- `AbstractBackend::add_str`: intern the string, then insert with the
uniqueness assertion. -/
def addStr (b : Backend) (elem : Nat) (value : String) : Except ExtErr Backend :=
  let (sym, b1) := internString b value
  if (b1.data.stringTable.map Prod.fst).contains elem then .error .panicked
  else .ok { b1 with data := { b1.data with stringTable := b1.data.stringTable ++ [(elem, sym)] } }

/-- `AbstractBackend::add_struct_type`. -/
def addStructType (b : Backend) (elem : Nat) (structName : String) : Except ExtErr Backend :=
  let (sym, b1) := internString b structName
  if (b1.data.structTypeTable.map Prod.fst).contains elem then .error .panicked
  else .ok { b1 with data := { b1.data with structTypeTable := b1.data.structTypeTable ++ [(elem, sym)] } }

/-- `AbstractBackend::add_struct_entry`: keyed by `(elem, field_symbol)`. -/
def addStructEntry (b : Backend) (elem : Nat) (key : String) (value : Nat) :
    Except ExtErr Backend :=
  let (sym, b1) := internString b key
  if (b1.data.structTable.map Prod.fst).contains (elem, sym) then .error .panicked
  else .ok { b1 with data := { b1.data with structTable := b1.data.structTable ++ [((elem, sym), value)] } }

/-- `AbstractBackend::add_seq_entry`: keyed by `(elem, pos)`. -/
def addSeqEntry (b : Backend) (elem : Nat) (pos : Nat) (value : Nat) :
    Except ExtErr Backend :=
  if (b.data.seqTable.map Prod.fst).contains (elem, pos) then .error .panicked
  else .ok { b with data := { b.data with seqTable := b.data.seqTable ++ [((elem, pos), value)] } }

/-- `AbstractBackend::add_variant_type`. -/
def addVariantType (b : Backend) (elem : Nat) (typeName variantName : String) :
    Except ExtErr Backend :=
  let (tSym, b1) := internString b typeName
  let (vSym, b2) := internString b1 variantName
  if (b2.data.variantTypeTable.map Prod.fst).contains elem then .error .panicked
  else .ok { b2 with data := { b2.data with variantTypeTable := b2.data.variantTypeTable ++ [(elem, (tSym, vSym))] } }

/-- `AbstractBackend::add_tuple_entry`: keyed by `(elem, pos)`. -/
def addTupleEntry (b : Backend) (elem : Nat) (pos : Nat) (value : Nat) :
    Except ExtErr Backend :=
  if (b.data.tupleTable.map Prod.fst).contains (elem, pos) then .error .panicked
  else .ok { b with data := { b.data with tupleTable := b.data.tupleTable ++ [((elem, pos), value)] } }

/-- Modelled from the spec: the vector backend's `add_root_elem` is absent
from `src/backend/vector.rs` even though the `DatalogExtractorBackend` trait
requires it and `src/backend/souffle_sqlite.rs` reads the resulting
`root_elem_table`.  Following §6 of the spec ("a second root for the same
file is a `NonuniqueRootElement` error") and the souffle backend's use of a
symbol id for the file column: intern the file name, reject a file that
already has a root, otherwise record `(file_symbol, elem)`. -/
def addRootElem (b : Backend) (file : String) (elem : Nat) : Except ExtErr Backend :=
  let (fSym, b1) := internString b file
  if (b1.data.rootElemTable.map Prod.fst).contains fSym then
    .error (.nonuniqueRootElement file)
  else
    .ok { b1 with data := { b1.data with rootElemTable := b1.data.rootElemTable ++ [(fSym, elem)] } }

/-- The two shipped flavours of the vector backend: `vector::Backend`
(map keys are element ids) and `vector::StringKeyBackend` (map keys are
re-filed string symbols).  They differ only in `add_map_entry`. -/
inductive MapMode where
  | elemKey
  | stringKey
deriving DecidableEq, Repr

/-- Remove the row of `string_table` keyed by `key`
(`self.parent.data.string_table.remove(&key)` in `StringKeyBackend::add_map_entry`). -/
def removeStringRow (table : List (Nat × Nat)) (key : Nat) : List (Nat × Nat) :=
  table.filter (fun p => p.1 ≠ key)

/-- `add_map_entry`, by backend flavour (`src/backend/vector.rs`):
* `Backend` inserts `((elem, key), value)` with the uniqueness assertion;
* `StringKeyBackend` requires `key` to have a `string` fact, removes that
  fact and re-files the entry under the string's symbol, and otherwise
  returns `UnextractableData`. -/
def addMapEntry (mode : MapMode) (b : Backend) (elem key value : Nat) :
    Except ExtErr Backend :=
  match mode with
  | .elemKey =>
      if (b.data.mapTable.map Prod.fst).contains (elem, key) then .error .panicked
      else .ok { b with data := { b.data with mapTable := b.data.mapTable ++ [((elem, key), value)] } }
  | .stringKey =>
      match (b.data.stringTable.find? (fun p => p.1 = key)).map (·.2) with
      | some sym =>
          let b1 := { b with data := { b.data with stringTable := removeStringRow b.data.stringTable key } }
          if (b1.data.mapTable.map Prod.fst).contains (elem, sym) then .error .panicked
          else .ok { b1 with data := { b1.data with mapTable := b1.data.mapTable ++ [((elem, sym), value)] } }
      | none => .error .unextractableData

/-- Extractor state, from `DatalogExtractor` in `src/lib.rs`, plus the ghost
history variable `allocTrace` recording, in order, every element id
successfully allocated by `get_fresh_elem_id`. -/
structure ExtState where
  curFile : Option String := none
  cur : Nat := 1
  elemStack : List Nat := []
  parentStack : List (Nat × Nat) := []
  backend : Backend := defaultBackend
  allocTrace : List Nat := []
deriving DecidableEq, Repr

/-- `DatalogExtractor::new` with `backend::vector::Backend::default()`:
`cur_elem_id = 1`, no pending file, empty stacks. -/
def initState : ExtState := {}

/-- `DatalogExtractor::set_file` from `src/lib.rs`. -/
def setFile (s : ExtState) (file : String) : ExtState :=
  { s with curFile := some file }

/-- `DatalogExtractor::get_fresh_elem_id` from `src/lib.rs`: read the counter,
call `add_elem` (propagating its error before any mutation), push the id on
the element stack, bump the counter, then consume the pending file marker by
calling `add_root_elem` once. -/
def getFresh (s : ExtState) (t : ElemType) : ExtState × Except ExtErr Nat :=
  let id := s.cur
  match addElem s.backend id t with
  | .error e => (s, .error e)
  | .ok b1 =>
      let s1 : ExtState :=
        { s with
            backend := b1,
            elemStack := id :: s.elemStack,
            cur := s.cur + 1,
            allocTrace := s.allocTrace ++ [id] }
      match s1.curFile with
      | none => (s1, .ok id)
      | some file =>
          match addRootElem s1.backend file id with
          | .error e => ({ s1 with backend := (internString s1.backend file).2 }, .error e)
          | .ok b2 => ({ s1 with backend := b2, curFile := none }, .ok id)

/-- `DatalogExtractor::end_parent` from `src/lib.rs`:
`self.parent_stack.pop().unwrap()`. -/
def endParent (s : ExtState) : ExtState × Except ExtErr Nat :=
  match s.parentStack with
  | [] => (s, .error .panicked)
  | (parentId, _) :: rest => ({ s with parentStack := rest }, .ok parentId)

mutual
/-- Serde data-model values the extractor is driven with, mirroring the
`serde::Serializer` impl in `src/lib.rs`.  `Option` values are not separate
constructors because `serialize_none`/`serialize_some` literally delegate to
`serialize_unit_variant("Option", 0, "None")` and
`serialize_newtype_variant("Option", 1, "Some", v)`; see `Value.noneV` and
`Value.someV` below. -/
inductive Value where
  | bool (b : Bool)
  | i64 (n : Int)
  | str (u : String)
  | f32
  | f64
  | bytes
  | unit
  | unitStruct (name : String)
  | unitVariant (name variant : String)
  | newtypeStruct (name : String) (v : Value)
  | newtypeVariant (name variant : String) (v : Value)
  | seq (vs : ValueList)
  | tuple (vs : ValueList)
  | tupleStruct (name : String) (vs : ValueList)
  | tupleVariant (name variant : String) (vs : ValueList)
  | map (entries : EntryList)
  | struct (name : String) (fields : FieldList)
  | structVariant (name variant : String) (fields : FieldList)

/-- Children of a sequence/tuple-like container. -/
inductive ValueList where
  | nil
  | cons (v : Value) (rest : ValueList)

/-- Key/value entries of a map. -/
inductive EntryList where
  | nil
  | cons (key value : Value) (rest : EntryList)

/-- Named fields of a struct or struct variant. -/
inductive FieldList where
  | nil
  | cons (field : String) (value : Value) (rest : FieldList)
end

/-- Every `EntryList` has positive size (used for the termination measure of
the serializer). -/
theorem entryListSizeOf_pos (es : EntryList) : 0 < sizeOf es := by
  cases es <;> simp

/-- `serialize_none`: a unit variant of type `Option`, variant `None`. -/
def Value.noneV : Value := .unitVariant "Option" "None"

/-- `serialize_some`: a newtype variant of type `Option`, variant `Some`. -/
def Value.someV (v : Value) : Value := .newtypeVariant "Option" "Some" v

/-- The container-kind dispatch inside
`DatalogExtractor::serialize_tuple_or_seq_element` (`src/lib.rs`): `Seq` goes
to `add_seq_entry`, the tuple-like kinds to `add_tuple_entry`, and anything
else hits the source's `unreachable!`. -/
def entryFor (et : ElemType) (b : Backend) (parentId pos childId : Nat) :
    Except ExtErr Backend :=
  match et with
  | .Seq => addSeqEntry b parentId pos childId
  | .Tuple | .TupleStruct | .TupleVariant => addTupleEntry b parentId pos childId
  | _ => .error .panicked

mutual
/-- One full `value.serialize(&mut extractor)` call against the vector
backend in flavour `mode`, transliterated from the `serde::Serializer` impl
in `src/lib.rs`.  Returns the updated state and, on success, the element id
allocated for `v`'s own node. -/
def ser (mode : MapMode) (v : Value) (s : ExtState) : ExtState × Except ExtErr Nat :=
  match v with
  | .bool value =>
      -- serialize_bool: get_fresh_elem_id, then backend.add_bool
      let (s1, r) := getFresh s .Bool
      match r with
      | .error e => (s1, .error e)
      | .ok id =>
          match addBool s1.backend id value with
          | .error e => (s1, .error e)
          | .ok b => ({ s1 with backend := b }, .ok id)
  | .i64 value =>
      -- serialize_i64: get_fresh_elem_id, then backend.add_i64
      let (s1, r) := getFresh s .I64
      match r with
      | .error e => (s1, .error e)
      | .ok id =>
          match addI64 s1.backend id value with
          | .error e => (s1, .error e)
          | .ok b => ({ s1 with backend := b }, .ok id)
  | .str value =>
      -- serialize_str: get_fresh_elem_id, then backend.add_str
      let (s1, r) := getFresh s .Str
      match r with
      | .error e => (s1, .error e)
      | .ok id =>
          match addStr s1.backend id value with
          | .error e => (s1, .error e)
          | .ok b => ({ s1 with backend := b }, .ok id)
  | .f32 =>
      -- serialize_f32: add_elem rejects F32 before any row is written
      let (s1, r) := getFresh s .F32
      match r with
      | .error e => (s1, .error e)
      | .ok id => (s1, .ok id)
  | .f64 =>
      -- serialize_f64: add_elem rejects F64 before any row is written
      let (s1, r) := getFresh s .F64
      match r with
      | .error e => (s1, .error e)
      | .ok id => (s1, .ok id)
  | .bytes =>
      -- serialize_bytes: add_elem rejects Bytes before any row is written
      let (s1, r) := getFresh s .Bytes
      match r with
      | .error e => (s1, .error e)
      | .ok id => (s1, .ok id)
  | .unit =>
      -- serialize_unit: just get_fresh_elem_id
      getFresh s .Unit
  | .unitStruct name =>
      -- serialize_unit_struct
      let (s1, r) := getFresh s .UnitStruct
      match r with
      | .error e => (s1, .error e)
      | .ok id =>
          match addStructType s1.backend id name with
          | .error e => (s1, .error e)
          | .ok b => ({ s1 with backend := b }, .ok id)
  | .unitVariant name variant =>
      -- serialize_unit_variant: NOTE the source pushes `id` onto the element
      -- stack a second time (get_fresh_elem_id already pushed it)
      let (s1, r) := getFresh s .UnitVariant
      match r with
      | .error e => (s1, .error e)
      | .ok id =>
          let s2 := { s1 with elemStack := id :: s1.elemStack }
          match addVariantType s2.backend id name variant with
          | .error e => (s2, .error e)
          | .ok b => ({ s2 with backend := b }, .ok id)
  | .newtypeStruct name inner =>
      -- serialize_newtype_struct: child first, pop it, then allocate wrapper
      let (s1, r) := ser mode inner s
      match r with
      | .error e => (s1, .error e)
      | .ok _ =>
          match s1.elemStack with
          | [] => (s1, .error .panicked)
          | childId :: restStack =>
              let s2 := { s1 with elemStack := restStack }
              let (s3, r3) := getFresh s2 .NewtypeStruct
              match r3 with
              | .error e => (s3, .error e)
              | .ok id =>
                  match addStructType s3.backend id name with
                  | .error e => (s3, .error e)
                  | .ok b =>
                      let s4 := { s3 with backend := b }
                      match addTupleEntry s4.backend id 0 childId with
                      | .error e => (s4, .error e)
                      | .ok b2 => ({ s4 with backend := b2 }, .ok id)
  | .newtypeVariant name variant inner =>
      -- serialize_newtype_variant: child first, pop it, then allocate wrapper
      let (s1, r) := ser mode inner s
      match r with
      | .error e => (s1, .error e)
      | .ok _ =>
          match s1.elemStack with
          | [] => (s1, .error .panicked)
          | childId :: restStack =>
              let s2 := { s1 with elemStack := restStack }
              let (s3, r3) := getFresh s2 .NewtypeVariant
              match r3 with
              | .error e => (s3, .error e)
              | .ok id =>
                  match addVariantType s3.backend id name variant with
                  | .error e => (s3, .error e)
                  | .ok b =>
                      let s4 := { s3 with backend := b }
                      match addTupleEntry s4.backend id 0 childId with
                      | .error e => (s4, .error e)
                      | .ok b2 => ({ s4 with backend := b2 }, .ok id)
  | .seq vs =>
      -- serialize_seq + SerializeSeq::serialize_element* + end
      let (s1, r) := getFresh s .Seq
      match r with
      | .error e => (s1, .error e)
      | .ok id =>
          let s2 := { s1 with parentStack := (id, 0) :: s1.parentStack }
          let (s3, r3) := serElems mode .Seq vs s2
          match r3 with
          | .error e => (s3, .error e)
          | .ok _ =>
              let (s4, r4) := endParent s3
              match r4 with
              | .error e => (s4, .error e)
              | .ok _ => (s4, .ok id)
  | .tuple vs =>
      -- serialize_tuple + SerializeTuple::serialize_element* + end
      let (s1, r) := getFresh s .Tuple
      match r with
      | .error e => (s1, .error e)
      | .ok id =>
          let s2 := { s1 with parentStack := (id, 0) :: s1.parentStack }
          let (s3, r3) := serElems mode .Tuple vs s2
          match r3 with
          | .error e => (s3, .error e)
          | .ok _ =>
              let (s4, r4) := endParent s3
              match r4 with
              | .error e => (s4, .error e)
              | .ok _ => (s4, .ok id)
  | .tupleStruct name vs =>
      -- serialize_tuple_struct: alloc, push parent, add_struct_type, fields, end
      let (s1, r) := getFresh s .TupleStruct
      match r with
      | .error e => (s1, .error e)
      | .ok id =>
          let s2 := { s1 with parentStack := (id, 0) :: s1.parentStack }
          match addStructType s2.backend id name with
          | .error e => (s2, .error e)
          | .ok b =>
              let s2b := { s2 with backend := b }
              let (s3, r3) := serElems mode .TupleStruct vs s2b
              match r3 with
              | .error e => (s3, .error e)
              | .ok _ =>
                  let (s4, r4) := endParent s3
                  match r4 with
                  | .error e => (s4, .error e)
                  | .ok _ => (s4, .ok id)
  | .tupleVariant name variant vs =>
      -- serialize_tuple_variant: alloc, push parent, add_variant_type, fields, end
      let (s1, r) := getFresh s .TupleVariant
      match r with
      | .error e => (s1, .error e)
      | .ok id =>
          let s2 := { s1 with parentStack := (id, 0) :: s1.parentStack }
          match addVariantType s2.backend id name variant with
          | .error e => (s2, .error e)
          | .ok b =>
              let s2b := { s2 with backend := b }
              let (s3, r3) := serElems mode .TupleVariant vs s2b
              match r3 with
              | .error e => (s3, .error e)
              | .ok _ =>
                  let (s4, r4) := endParent s3
                  match r4 with
                  | .error e => (s4, .error e)
                  | .ok _ => (s4, .ok id)
  | .map entries =>
      -- serialize_map + SerializeMap::{serialize_key,serialize_value}* + end
      let (s1, r) := getFresh s .Map
      match r with
      | .error e => (s1, .error e)
      | .ok id =>
          let s2 := { s1 with parentStack := (id, 0) :: s1.parentStack }
          let (s3, r3) := serMapEntries mode entries s2
          match r3 with
          | .error e => (s3, .error e)
          | .ok _ =>
              let (s4, r4) := endParent s3
              match r4 with
              | .error e => (s4, .error e)
              | .ok _ => (s4, .ok id)
  | .struct name fields =>
      -- serialize_struct: alloc, push parent, add_struct_type, fields, end
      let (s1, r) := getFresh s .Struct
      match r with
      | .error e => (s1, .error e)
      | .ok id =>
          let s2 := { s1 with parentStack := (id, 0) :: s1.parentStack }
          match addStructType s2.backend id name with
          | .error e => (s2, .error e)
          | .ok b =>
              let s2b := { s2 with backend := b }
              let (s3, r3) := serFields mode fields s2b
              match r3 with
              | .error e => (s3, .error e)
              | .ok _ =>
                  let (s4, r4) := endParent s3
                  match r4 with
                  | .error e => (s4, .error e)
                  | .ok _ => (s4, .ok id)
  | .structVariant name variant fields =>
      -- serialize_struct_variant: alloc, push parent, add_variant_type, fields, end
      let (s1, r) := getFresh s .StructVariant
      match r with
      | .error e => (s1, .error e)
      | .ok id =>
          let s2 := { s1 with parentStack := (id, 0) :: s1.parentStack }
          match addVariantType s2.backend id name variant with
          | .error e => (s2, .error e)
          | .ok b =>
              let s2b := { s2 with backend := b }
              let (s3, r3) := serFields mode fields s2b
              match r3 with
              | .error e => (s3, .error e)
              | .ok _ =>
                  let (s4, r4) := endParent s3
                  match r4 with
                  | .error e => (s4, .error e)
                  | .ok _ => (s4, .ok id)
termination_by sizeOf v
decreasing_by all_goals (simp_wf; try omega)

/-- `DatalogExtractor::serialize_tuple_or_seq_element` applied to each child
in turn (`src/lib.rs`): serialize the child, pop its id off the element
stack, read the `(parent, pos)` frame, record a `seq`/`tuple` fact depending
on the container's `ElemType`, and increment the position. -/
def serElems (mode : MapMode) (et : ElemType) (vs : ValueList) (s : ExtState) :
    ExtState × Except ExtErr Unit :=
  match vs with
  | .nil => (s, .ok ())
  | .cons v rest =>
      let (s1, r) := ser mode v s
      match r with
      | .error e => (s1, .error e)
      | .ok _ =>
          match s1.elemStack with
          | [] => (s1, .error .panicked)
          | childId :: restStack =>
              let s2 := { s1 with elemStack := restStack }
              match s2.parentStack with
              | [] => (s2, .error .panicked)
              | (parentId, pos) :: restParents =>
                  match entryFor et s2.backend parentId pos childId with
                  | .error e => (s2, .error e)
                  | .ok b =>
                      let s3 := { s2 with
                                    backend := b,
                                    parentStack := (parentId, pos + 1) :: restParents }
                      serElems mode et rest s3
termination_by sizeOf vs
decreasing_by all_goals (simp_wf; try omega)

/-- `SerializeStruct::serialize_field`/`serialize_struct_element` applied to
each field in turn (`src/lib.rs`): serialize the value, read the parent
frame, pop the value id, record a `struct` fact keyed by the field name.
The position counter is not touched. -/
def serFields (mode : MapMode) (fs : FieldList) (s : ExtState) :
    ExtState × Except ExtErr Unit :=
  match fs with
  | .nil => (s, .ok ())
  | .cons key v rest =>
      let (s1, r) := ser mode v s
      match r with
      | .error e => (s1, .error e)
      | .ok _ =>
          match s1.parentStack with
          | [] => (s1, .error .panicked)
          | (parentId, _) :: _ =>
              match s1.elemStack with
              | [] => (s1, .error .panicked)
              | valId :: restStack =>
                  let s2 := { s1 with elemStack := restStack }
                  match addStructEntry s2.backend parentId key valId with
                  | .error e => (s2, .error e)
                  | .ok b => serFields mode rest { s2 with backend := b }
termination_by sizeOf fs
decreasing_by all_goals (simp_wf; try omega)

/-- One map entry: `SerializeMap::serialize_key` then
`SerializeMap::serialize_value` (`src/lib.rs`): serialize the key, serialize
the value, read the parent frame, pop the value id then the key id, and call
`add_map_entry`.  The position counter is not touched. -/
def serMapEntry (mode : MapMode) (key value : Value) (s : ExtState) :
    ExtState × Except ExtErr Unit :=
  let (s1, r1) := ser mode key s
  match r1 with
  | .error e => (s1, .error e)
  | .ok _ =>
      let (s2, r2) := ser mode value s1
      match r2 with
      | .error e => (s2, .error e)
      | .ok _ =>
          match s2.parentStack with
          | [] => (s2, .error .panicked)
          | (parentId, _) :: _ =>
              match s2.elemStack with
              | [] => (s2, .error .panicked)
              | valId :: afterVal =>
                  match afterVal with
                  | [] => ({ s2 with elemStack := [] }, .error .panicked)
                  | keyId :: restStack =>
                      let s3 := { s2 with elemStack := restStack }
                      match addMapEntry mode s3.backend parentId keyId valId with
                      | .error e => (s3, .error e)
                      | .ok b => ({ s3 with backend := b }, .ok ())
termination_by sizeOf key + sizeOf value + 1
decreasing_by all_goals (simp_wf; try omega)

/-- All map entries in turn. -/
def serMapEntries (mode : MapMode) (es : EntryList) (s : ExtState) :
    ExtState × Except ExtErr Unit :=
  match es with
  | .nil => (s, .ok ())
  | .cons k v rest =>
      let (s1, r) := serMapEntry mode k v s
      match r with
      | .error e => (s1, .error e)
      | .ok _ => serMapEntries mode rest s1
termination_by sizeOf es
decreasing_by all_goals (simp_wf; try (have hp := entryListSizeOf_pos rest); try omega)
end

/-! ## Trace model of the Souffle/SQLite backend's `dump_to_db`
(`src/backend/souffle_sqlite.rs`). -/

/-- One SQL statement issued against the SQLite connection. -/
inductive SqlEvent where
  | beginTx
  | commitTx
  | createTable (name : String)
  | createView (name : String)
  | insertRow (table : String)
deriving DecidableEq, Repr

/-- The single `execute_batch` in `BackendUtil::dump_to_db`: one
`BEGIN; ...; COMMIT;` batch creating the shared schema, statements in
source order. -/
def mainSchemaBatch : List SqlEvent :=
  [.beginTx,
   .createTable "__SymbolTable",
   .createTable "_rootElem", .createView "rootElem",
   .createTable "_type", .createView "type",
   .createTable "_bool", .createView "bool",
   .createTable "_number", .createView "number",
   .createTable "_string", .createView "string",
   .createTable "_struct", .createView "struct",
   .createTable "_seq", .createView "seq",
   .createTable "_tuple", .createView "tuple",
   .createTable "_structType", .createView "structType",
   .createTable "_variantType", .createView "variantType",
   .commitTx]

/-- The prepared-statement insertion loops of `BackendUtil::dump_to_db`,
in source order (symbol table, root elems, types, bools, numbers, strings,
structs, seqs, tuples, struct types, variant types).  Each row of each table
becomes one `INSERT` statement executed on the (auto-committing) connection. -/
def rowInserts (d : BackendData) : List SqlEvent :=
  d.symbolTable.map (fun _ => .insertRow "__SymbolTable") ++
  d.rootElemTable.map (fun _ => .insertRow "_rootElem") ++
  d.typeTable.map (fun _ => .insertRow "_type") ++
  d.boolTable.map (fun _ => .insertRow "_bool") ++
  d.numberTable.map (fun _ => .insertRow "_number") ++
  d.stringTable.map (fun _ => .insertRow "_string") ++
  d.structTable.map (fun _ => .insertRow "_struct") ++
  d.seqTable.map (fun _ => .insertRow "_seq") ++
  d.tupleTable.map (fun _ => .insertRow "_tuple") ++
  d.structTypeTable.map (fun _ => .insertRow "_structType") ++
  d.variantTypeTable.map (fun _ => .insertRow "_variantType")

/-- The second `execute_batch` in `Backend::dump_to_db`: a second
`BEGIN; ...; COMMIT;` batch creating the map table and view. -/
def mapSchemaBatch : List SqlEvent :=
  [.beginTx, .createTable "_map", .createView "map", .commitTx]

/-- The map-table insertion loop at the end of `Backend::dump_to_db`. -/
def mapInserts (d : BackendData) : List SqlEvent :=
  d.mapTable.map (fun _ => .insertRow "_map")

/-- The full statement trace of `souffle_sqlite::Backend::dump_to_db`
(`src/backend/souffle_sqlite.rs`): the shared-schema batch, then the shared
row insertions, then the map-schema batch, then the map row insertions. -/
def dumpToDbEvents (d : BackendData) : List SqlEvent :=
  mainSchemaBatch ++ rowInserts d ++ mapSchemaBatch ++ mapInserts d

/-- Is the event a schema-creation or row-insertion statement? -/
def SqlEvent.isWork : SqlEvent → Bool
  | .createTable _ => true
  | .createView _ => true
  | .insertRow _ => true
  | _ => false

/-- Is the event a row insertion? -/
def SqlEvent.isInsert : SqlEvent → Bool
  | .insertRow _ => true
  | _ => false

/-- The property claimed of `dump_to_db`: the whole statement trace is one
single transaction — a `BEGIN`, then all schema-creation and insertion work,
then a `COMMIT`, with no other transaction-control statements anywhere. -/
def singleTxCovering (evs : List SqlEvent) : Prop :=
  ∃ pre body post,
    evs = pre ++ [.beginTx] ++ body ++ [.commitTx] ++ post ∧
    (∀ e ∈ pre, e.isWork = false ∧ e ≠ .beginTx ∧ e ≠ .commitTx) ∧
    (∀ e ∈ post, e.isWork = false ∧ e ≠ .beginTx ∧ e ≠ .commitTx) ∧
    (∀ e ∈ body, e ≠ .beginTx ∧ e ≠ .commitTx)

/-! ## Effect lemmas for the backend operations -/

/-- `intern_string` touches only the symbol table and the symbol counter. -/
theorem internString_shape (b : Backend) (s : String) :
    (internString b s).2 =
      { b with
          curSym := (internString b s).2.curSym,
          data := { b.data with symbolTable := (internString b s).2.data.symbolTable } } := by
  unfold internString
  split <;> rfl

theorem internString_typeTable (b : Backend) (s : String) :
    (internString b s).2.data.typeTable = b.data.typeTable := by
  conv_lhs => rw [internString_shape]

theorem internString_boolTable (b : Backend) (s : String) :
    (internString b s).2.data.boolTable = b.data.boolTable := by
  conv_lhs => rw [internString_shape]

theorem internString_numberTable (b : Backend) (s : String) :
    (internString b s).2.data.numberTable = b.data.numberTable := by
  conv_lhs => rw [internString_shape]

theorem internString_stringTable (b : Backend) (s : String) :
    (internString b s).2.data.stringTable = b.data.stringTable := by
  conv_lhs => rw [internString_shape]

theorem internString_mapTable (b : Backend) (s : String) :
    (internString b s).2.data.mapTable = b.data.mapTable := by
  conv_lhs => rw [internString_shape]

theorem internString_structTypeTable (b : Backend) (s : String) :
    (internString b s).2.data.structTypeTable = b.data.structTypeTable := by
  conv_lhs => rw [internString_shape]

theorem internString_structTable (b : Backend) (s : String) :
    (internString b s).2.data.structTable = b.data.structTable := by
  conv_lhs => rw [internString_shape]

theorem internString_seqTable (b : Backend) (s : String) :
    (internString b s).2.data.seqTable = b.data.seqTable := by
  conv_lhs => rw [internString_shape]

theorem internString_variantTypeTable (b : Backend) (s : String) :
    (internString b s).2.data.variantTypeTable = b.data.variantTypeTable := by
  conv_lhs => rw [internString_shape]

theorem internString_tupleTable (b : Backend) (s : String) :
    (internString b s).2.data.tupleTable = b.data.tupleTable := by
  conv_lhs => rw [internString_shape]

theorem internString_rootElemTable (b : Backend) (s : String) :
    (internString b s).2.data.rootElemTable = b.data.rootElemTable := by
  conv_lhs => rw [internString_shape]

/-- The element ids recorded in the type relation, in insertion order. -/
def typeIds (b : Backend) : List Nat := b.data.typeTable.map Prod.fst

/-- `add_elem` ok: exactly one `(elem, sym)` row is appended to the type
table; no other fact table changes. -/
theorem addElem_ok {b : Backend} {elem : Nat} {t : ElemType} {b' : Backend}
    (h : addElem b elem t = .ok b') :
    (∃ sym, b'.data.typeTable = b.data.typeTable ++ [(elem, sym)]) ∧
    typeIds b' = typeIds b ++ [elem] ∧
    b'.data.boolTable = b.data.boolTable ∧
    b'.data.numberTable = b.data.numberTable ∧
    b'.data.stringTable = b.data.stringTable ∧
    b'.data.mapTable = b.data.mapTable ∧
    b'.data.structTypeTable = b.data.structTypeTable ∧
    b'.data.structTable = b.data.structTable ∧
    b'.data.seqTable = b.data.seqTable ∧
    b'.data.variantTypeTable = b.data.variantTypeTable ∧
    b'.data.tupleTable = b.data.tupleTable ∧
    b'.data.rootElemTable = b.data.rootElemTable := by
  unfold addElem at h
  split at h
  · exact absurd h (by simp)
  · rename_i typeName hname
    revert h
    cases hI : internString b typeName with
    | mk sym b1 =>
      intro h
      injection h with h
      subst h
      have e2 : (internString b typeName).2 = b1 := congrArg Prod.snd hI
      have h1 := internString_typeTable b typeName
      have h2 := internString_boolTable b typeName
      have h3 := internString_numberTable b typeName
      have h4 := internString_stringTable b typeName
      have h5 := internString_mapTable b typeName
      have h6 := internString_structTypeTable b typeName
      have h7 := internString_structTable b typeName
      have h8 := internString_seqTable b typeName
      have h9 := internString_variantTypeTable b typeName
      have h10 := internString_tupleTable b typeName
      have h11 := internString_rootElemTable b typeName
      rw [e2] at h1 h2 h3 h4 h5 h6 h7 h8 h9 h10 h11
      exact ⟨⟨sym, by simp [h1]⟩, by simp [typeIds, h1], by simp [h2], by simp [h3],
        by simp [h4], by simp [h5], by simp [h6], by simp [h7], by simp [h8],
        by simp [h9], by simp [h10], by simp [h11]⟩

/-- `add_elem` fails exactly on `F32`, `F64` and `Bytes`, with no mutation. -/
theorem addElem_error {b : Backend} {elem : Nat} {t : ElemType} {e : ExtErr}
    (h : addElem b elem t = .error e) :
    e = .unextractableData ∧ elemTypeName t = none := by
  unfold addElem at h
  split at h
  · rename_i hname
    exact ⟨by injection h with h; exact h.symm, hname⟩
  · exact absurd h (by simp)

/-- `add_bool` ok: the key was fresh and exactly one row is appended. -/
theorem addBool_ok {b : Backend} {elem : Nat} {value : Bool} {b' : Backend}
    (h : addBool b elem value = .ok b') :
    elem ∉ b.data.boolTable.map Prod.fst ∧
    b' = { b with data := { b.data with boolTable := b.data.boolTable ++ [(elem, value)] } } := by
  unfold addBool at h
  split at h
  · exact absurd h (by simp)
  · rename_i hc
    refine ⟨by simpa [List.elem_iff] using hc, by injection h with h; exact h.symm⟩

/-- `add_i64` ok: the key was fresh and exactly one row is appended. -/
theorem addI64_ok {b : Backend} {elem : Nat} {value : Int} {b' : Backend}
    (h : addI64 b elem value = .ok b') :
    elem ∉ b.data.numberTable.map Prod.fst ∧
    b' = { b with data := { b.data with numberTable := b.data.numberTable ++ [(elem, value)] } } := by
  unfold addI64 at h
  split at h
  · exact absurd h (by simp)
  · rename_i hc
    refine ⟨by simpa [List.elem_iff] using hc, by injection h with h; exact h.symm⟩

/-- `add_seq_entry` ok. -/
theorem addSeqEntry_ok {b : Backend} {elem pos value : Nat} {b' : Backend}
    (h : addSeqEntry b elem pos value = .ok b') :
    (elem, pos) ∉ b.data.seqTable.map Prod.fst ∧
    b' = { b with data := { b.data with seqTable := b.data.seqTable ++ [((elem, pos), value)] } } := by
  unfold addSeqEntry at h
  split at h
  · exact absurd h (by simp)
  · rename_i hc
    refine ⟨by simpa [List.elem_iff] using hc, by injection h with h; exact h.symm⟩

/-- `add_tuple_entry` ok. -/
theorem addTupleEntry_ok {b : Backend} {elem pos value : Nat} {b' : Backend}
    (h : addTupleEntry b elem pos value = .ok b') :
    (elem, pos) ∉ b.data.tupleTable.map Prod.fst ∧
    b' = { b with data := { b.data with tupleTable := b.data.tupleTable ++ [((elem, pos), value)] } } := by
  unfold addTupleEntry at h
  split at h
  · exact absurd h (by simp)
  · rename_i hc
    refine ⟨by simpa [List.elem_iff] using hc, by injection h with h; exact h.symm⟩

/-- `add_str` ok: one string row appended (with some symbol); every other
fact table unchanged. -/
theorem addStr_ok {b : Backend} {elem : Nat} {value : String} {b' : Backend}
    (h : addStr b elem value = .ok b') :
    elem ∉ b.data.stringTable.map Prod.fst ∧
    (∃ sym, b'.data.stringTable = b.data.stringTable ++ [(elem, sym)]) ∧
    typeIds b' = typeIds b ∧
    b'.data.typeTable = b.data.typeTable ∧
    b'.data.boolTable = b.data.boolTable ∧
    b'.data.numberTable = b.data.numberTable ∧
    b'.data.mapTable = b.data.mapTable ∧
    b'.data.structTypeTable = b.data.structTypeTable ∧
    b'.data.structTable = b.data.structTable ∧
    b'.data.seqTable = b.data.seqTable ∧
    b'.data.variantTypeTable = b.data.variantTypeTable ∧
    b'.data.tupleTable = b.data.tupleTable ∧
    b'.data.rootElemTable = b.data.rootElemTable := by
  unfold addStr at h
  rcases hI : internString b value with ⟨sym, b1⟩
  rw [hI] at h
  dsimp only at h
  · have e2 : (internString b value).2 = b1 := congrArg Prod.snd hI
    have hst := internString_stringTable b value
    rw [e2] at hst
    split at h
    · exact absurd h (by simp)
    · rename_i hc
      injection h with h
      subst h
      rw [hst] at hc
      have h1 := internString_typeTable b value
      have h3 := internString_boolTable b value
      have h4 := internString_numberTable b value
      have h5 := internString_mapTable b value
      have h6 := internString_structTypeTable b value
      have h7 := internString_structTable b value
      have h8 := internString_seqTable b value
      have h9 := internString_variantTypeTable b value
      have h10 := internString_tupleTable b value
      have h11 := internString_rootElemTable b value
      rw [e2] at h1 h3 h4 h5 h6 h7 h8 h9 h10 h11
      exact ⟨by simpa [List.elem_iff] using hc, ⟨sym, by simp [hst]⟩,
        by simp [typeIds, h1], by simp [h1], by simp [h3], by simp [h4],
        by simp [h5], by simp [h6], by simp [h7], by simp [h8],
        by simp [h9], by simp [h10], by simp [h11]⟩

/-- `add_struct_type` ok. -/
theorem addStructType_ok {b : Backend} {elem : Nat} {name : String} {b' : Backend}
    (h : addStructType b elem name = .ok b') :
    elem ∉ b.data.structTypeTable.map Prod.fst ∧
    (∃ sym, b'.data.structTypeTable = b.data.structTypeTable ++ [(elem, sym)]) ∧
    typeIds b' = typeIds b ∧
    b'.data.typeTable = b.data.typeTable ∧
    b'.data.boolTable = b.data.boolTable ∧
    b'.data.numberTable = b.data.numberTable ∧
    b'.data.stringTable = b.data.stringTable ∧
    b'.data.mapTable = b.data.mapTable ∧
    b'.data.structTable = b.data.structTable ∧
    b'.data.seqTable = b.data.seqTable ∧
    b'.data.variantTypeTable = b.data.variantTypeTable ∧
    b'.data.tupleTable = b.data.tupleTable ∧
    b'.data.rootElemTable = b.data.rootElemTable := by
  unfold addStructType at h
  rcases hI : internString b name with ⟨sym, b1⟩
  rw [hI] at h
  dsimp only at h
  · have e2 : (internString b name).2 = b1 := congrArg Prod.snd hI
    have hst := internString_structTypeTable b name
    rw [e2] at hst
    split at h
    · exact absurd h (by simp)
    · rename_i hc
      injection h with h
      subst h
      rw [hst] at hc
      have h1 := internString_typeTable b name
      have h3 := internString_boolTable b name
      have h4 := internString_numberTable b name
      have h5 := internString_mapTable b name
      have h6 := internString_stringTable b name
      have h7 := internString_structTable b name
      have h8 := internString_seqTable b name
      have h9 := internString_variantTypeTable b name
      have h10 := internString_tupleTable b name
      have h11 := internString_rootElemTable b name
      rw [e2] at h1 h3 h4 h5 h6 h7 h8 h9 h10 h11
      exact ⟨by simpa [List.elem_iff] using hc, ⟨sym, by simp [hst]⟩,
        by simp [typeIds, h1], by simp [h1], by simp [h3], by simp [h4],
        by simp [h6], by simp [h5], by simp [h7], by simp [h8],
        by simp [h9], by simp [h10], by simp [h11]⟩

/-- `add_struct_entry` ok: one struct row appended, keyed by `(elem, sym)`
for some field symbol; everything else unchanged. -/
theorem addStructEntry_ok {b : Backend} {elem : Nat} {key : String} {value : Nat} {b' : Backend}
    (h : addStructEntry b elem key value = .ok b') :
    (∃ sym, b'.data.structTable = b.data.structTable ++ [((elem, sym), value)]) ∧
    typeIds b' = typeIds b ∧
    b'.data.typeTable = b.data.typeTable ∧
    b'.data.boolTable = b.data.boolTable ∧
    b'.data.numberTable = b.data.numberTable ∧
    b'.data.stringTable = b.data.stringTable ∧
    b'.data.mapTable = b.data.mapTable ∧
    b'.data.structTypeTable = b.data.structTypeTable ∧
    b'.data.seqTable = b.data.seqTable ∧
    b'.data.variantTypeTable = b.data.variantTypeTable ∧
    b'.data.tupleTable = b.data.tupleTable ∧
    b'.data.rootElemTable = b.data.rootElemTable := by
  unfold addStructEntry at h
  rcases hI : internString b key with ⟨sym, b1⟩
  rw [hI] at h
  dsimp only at h
  · have e2 : (internString b key).2 = b1 := congrArg Prod.snd hI
    have hst := internString_structTable b key
    rw [e2] at hst
    split at h
    · exact absurd h (by simp)
    · injection h with h
      subst h
      have h1 := internString_typeTable b key
      have h3 := internString_boolTable b key
      have h4 := internString_numberTable b key
      have h5 := internString_mapTable b key
      have h6 := internString_stringTable b key
      have h7 := internString_structTypeTable b key
      have h8 := internString_seqTable b key
      have h9 := internString_variantTypeTable b key
      have h10 := internString_tupleTable b key
      have h11 := internString_rootElemTable b key
      rw [e2] at h1 h3 h4 h5 h6 h7 h8 h9 h10 h11
      exact ⟨⟨sym, by simp [hst]⟩,
        by simp [typeIds, h1], by simp [h1], by simp [h3], by simp [h4],
        by simp [h6], by simp [h5], by simp [h7], by simp [h8],
        by simp [h9], by simp [h10], by simp [h11]⟩

/-- `add_variant_type` ok. -/
theorem addVariantType_ok {b : Backend} {elem : Nat} {typeName variantName : String} {b' : Backend}
    (h : addVariantType b elem typeName variantName = .ok b') :
    (∃ syms, b'.data.variantTypeTable = b.data.variantTypeTable ++ [(elem, syms)]) ∧
    typeIds b' = typeIds b ∧
    b'.data.typeTable = b.data.typeTable ∧
    b'.data.boolTable = b.data.boolTable ∧
    b'.data.numberTable = b.data.numberTable ∧
    b'.data.stringTable = b.data.stringTable ∧
    b'.data.mapTable = b.data.mapTable ∧
    b'.data.structTypeTable = b.data.structTypeTable ∧
    b'.data.structTable = b.data.structTable ∧
    b'.data.seqTable = b.data.seqTable ∧
    b'.data.tupleTable = b.data.tupleTable ∧
    b'.data.rootElemTable = b.data.rootElemTable := by
  unfold addVariantType at h
  rcases hI : internString b typeName with ⟨tSym, b1⟩
  rw [hI] at h
  dsimp only at h
  · have e2 : (internString b typeName).2 = b1 := congrArg Prod.snd hI
    rcases hJ : internString b1 variantName with ⟨vSym, b2⟩
    rw [hJ] at h
    dsimp only at h
    · have e3 : (internString b1 variantName).2 = b2 := congrArg Prod.snd hJ
      split at h
      · exact absurd h (by simp)
      · injection h with h
        subst h
        have j1 := internString_typeTable b1 variantName
        have j3 := internString_boolTable b1 variantName
        have j4 := internString_numberTable b1 variantName
        have j5 := internString_mapTable b1 variantName
        have j6 := internString_stringTable b1 variantName
        have j7 := internString_structTypeTable b1 variantName
        have j8 := internString_structTable b1 variantName
        have j9 := internString_seqTable b1 variantName
        have j10 := internString_variantTypeTable b1 variantName
        have j11 := internString_tupleTable b1 variantName
        have j12 := internString_rootElemTable b1 variantName
        rw [e3] at j1 j3 j4 j5 j6 j7 j8 j9 j10 j11 j12
        have h1 := internString_typeTable b typeName
        have h3 := internString_boolTable b typeName
        have h4 := internString_numberTable b typeName
        have h5 := internString_mapTable b typeName
        have h6 := internString_stringTable b typeName
        have h7 := internString_structTypeTable b typeName
        have h8 := internString_structTable b typeName
        have h9 := internString_seqTable b typeName
        have h10 := internString_variantTypeTable b typeName
        have h11 := internString_tupleTable b typeName
        have h12 := internString_rootElemTable b typeName
        rw [e2] at h1 h3 h4 h5 h6 h7 h8 h9 h10 h11 h12
        exact ⟨⟨(tSym, vSym), by simp [j10, h10]⟩,
          by simp [typeIds, j1, h1], by simp [j1, h1], by simp [j3, h3],
          by simp [j4, h4], by simp [j6, h6], by simp [j5, h5],
          by simp [j7, h7], by simp [j8, h8], by simp [j9, h9],
          by simp [j11, h11], by simp [j12, h12]⟩

/-- `add_root_elem` ok: one root row appended for the interned file symbol;
every fact table other than `rootElem` unchanged. -/
theorem addRootElem_ok {b : Backend} {file : String} {elem : Nat} {b' : Backend}
    (h : addRootElem b file elem = .ok b') :
    (∃ fsym, b'.data.rootElemTable = b.data.rootElemTable ++ [(fsym, elem)]) ∧
    typeIds b' = typeIds b ∧
    b'.data.typeTable = b.data.typeTable ∧
    b'.data.boolTable = b.data.boolTable ∧
    b'.data.numberTable = b.data.numberTable ∧
    b'.data.stringTable = b.data.stringTable ∧
    b'.data.mapTable = b.data.mapTable ∧
    b'.data.structTypeTable = b.data.structTypeTable ∧
    b'.data.structTable = b.data.structTable ∧
    b'.data.seqTable = b.data.seqTable ∧
    b'.data.variantTypeTable = b.data.variantTypeTable ∧
    b'.data.tupleTable = b.data.tupleTable := by
  unfold addRootElem at h
  rcases hI : internString b file with ⟨fSym, b1⟩
  rw [hI] at h
  dsimp only at h
  · have e2 : (internString b file).2 = b1 := congrArg Prod.snd hI
    split at h
    · exact absurd h (by simp)
    · injection h with h
      subst h
      have h1 := internString_typeTable b file
      have h3 := internString_boolTable b file
      have h4 := internString_numberTable b file
      have h5 := internString_mapTable b file
      have h6 := internString_stringTable b file
      have h7 := internString_structTypeTable b file
      have h8 := internString_structTable b file
      have h9 := internString_seqTable b file
      have h10 := internString_variantTypeTable b file
      have h11 := internString_tupleTable b file
      have h12 := internString_rootElemTable b file
      rw [e2] at h1 h3 h4 h5 h6 h7 h8 h9 h10 h11 h12
      exact ⟨⟨fSym, by simp [h12]⟩,
        by simp [typeIds, h1], by simp [h1], by simp [h3], by simp [h4],
        by simp [h6], by simp [h5], by simp [h7], by simp [h8],
        by simp [h9], by simp [h10], by simp [h11]⟩

/-- `Backend::add_map_entry` (element-keyed flavour) ok. -/
theorem addMapEntry_elemKey_ok {b : Backend} {p k v : Nat} {b' : Backend}
    (h : addMapEntry .elemKey b p k v = .ok b') :
    (p, k) ∉ b.data.mapTable.map Prod.fst ∧
    b' = { b with data := { b.data with mapTable := b.data.mapTable ++ [((p, k), v)] } } := by
  unfold addMapEntry at h
  dsimp only at h
  split at h
  · exact absurd h (by simp)
  · rename_i hc
    refine ⟨by simpa [List.elem_iff] using hc, by injection h with h; exact h.symm⟩

/-- `StringKeyBackend::add_map_entry` ok: the key element had a string fact,
whose symbol becomes the map key; the string fact is removed. -/
theorem addMapEntry_stringKey_ok {b : Backend} {p k v : Nat} {b' : Backend}
    (h : addMapEntry .stringKey b p k v = .ok b') :
    (∃ sym, ((b.data.stringTable.find? (fun q => q.1 = k)).map (·.2) = some sym) ∧
      b'.data.mapTable = b.data.mapTable ++ [((p, sym), v)]) ∧
    b'.data.stringTable = removeStringRow b.data.stringTable k ∧
    typeIds b' = typeIds b ∧
    b'.data.typeTable = b.data.typeTable ∧
    b'.data.boolTable = b.data.boolTable ∧
    b'.data.numberTable = b.data.numberTable ∧
    b'.data.structTypeTable = b.data.structTypeTable ∧
    b'.data.structTable = b.data.structTable ∧
    b'.data.seqTable = b.data.seqTable ∧
    b'.data.variantTypeTable = b.data.variantTypeTable ∧
    b'.data.tupleTable = b.data.tupleTable ∧
    b'.data.rootElemTable = b.data.rootElemTable := by
  unfold addMapEntry at h
  dsimp only at h
  split at h
  · rename_i sym hfind
    split at h
    · exact absurd h (by simp)
    · injection h with h
      subst h
      exact ⟨⟨sym, hfind, by simp⟩, by simp, by simp [typeIds], by simp, by simp,
        by simp, by simp, by simp, by simp, by simp, by simp, by simp⟩
  · exact absurd h (by simp)

/-- `end_parent` ok: the parent stack was nonempty and its head is popped. -/
theorem endParent_ok {s : ExtState} {s' : ExtState} {pid : Nat}
    (h : endParent s = (s', .ok pid)) :
    ∃ pos rest, s.parentStack = (pid, pos) :: rest ∧
      s' = { s with parentStack := rest } := by
  unfold endParent at h
  split at h
  · exact absurd h (by simp)
  · rename_i p pos rest heq
    injection h with h1 h2
    injection h2 with h2
    subst h2
    exact ⟨pos, rest, heq, h1.symm⟩

/-- `get_fresh_elem_id` ok: allocates exactly `cur`, bumps the counter,
pushes once, appends one type row and one ghost-trace entry, consumes the
pending file marker. -/
theorem getFresh_ok {s : ExtState} {t : ElemType} {s' : ExtState} {id : Nat}
    (h : getFresh s t = (s', .ok id)) :
    id = s.cur ∧
    s'.cur = s.cur + 1 ∧
    s'.allocTrace = s.allocTrace ++ [s.cur] ∧
    s'.elemStack = s.cur :: s.elemStack ∧
    s'.parentStack = s.parentStack ∧
    s'.curFile = none ∧
    typeIds s'.backend = typeIds s.backend ++ [s.cur] ∧
    s'.backend.data.boolTable = s.backend.data.boolTable ∧
    s'.backend.data.numberTable = s.backend.data.numberTable ∧
    s'.backend.data.stringTable = s.backend.data.stringTable ∧
    s'.backend.data.mapTable = s.backend.data.mapTable ∧
    s'.backend.data.structTypeTable = s.backend.data.structTypeTable ∧
    s'.backend.data.structTable = s.backend.data.structTable ∧
    s'.backend.data.seqTable = s.backend.data.seqTable ∧
    s'.backend.data.variantTypeTable = s.backend.data.variantTypeTable ∧
    s'.backend.data.tupleTable = s.backend.data.tupleTable ∧
    (s.curFile = none → s'.backend.data.rootElemTable = s.backend.data.rootElemTable) ∧
    (∀ f, s.curFile = some f →
      ∃ fsym, s'.backend.data.rootElemTable = s.backend.data.rootElemTable ++ [(fsym, s.cur)]) := by
  unfold getFresh at h
  dsimp only at h
  split at h
  · exact absurd h (by simp)
  · rename_i b1 hadd
    have ha := addElem_ok hadd
    split at h
    · rename_i hfile
      injection h with h1 h2
      injection h2 with h2
      subst h1
      subst h2
      refine ⟨rfl, rfl, rfl, rfl, rfl, hfile, ha.2.1, ha.2.2.1, ha.2.2.2.1,
        ha.2.2.2.2.1, ha.2.2.2.2.2.1, ha.2.2.2.2.2.2.1, ha.2.2.2.2.2.2.2.1,
        ha.2.2.2.2.2.2.2.2.1, ha.2.2.2.2.2.2.2.2.2.1, ha.2.2.2.2.2.2.2.2.2.2.1,
        fun _ => ha.2.2.2.2.2.2.2.2.2.2.2, fun f hf => ?_⟩
      rw [hfile] at hf
      exact absurd hf (by simp)
    · rename_i file hfile
      split at h
      · exact absurd h (by simp)
      · rename_i b2 hroot
        have hr := addRootElem_ok hroot
        injection h with h1 h2
        injection h2 with h2
        subst h1
        subst h2
        refine ⟨rfl, rfl, rfl, rfl, rfl, rfl, ?_, ?_, ?_, ?_, ?_, ?_, ?_, ?_, ?_, ?_, ?_, ?_⟩
        · rw [hr.2.1]; exact ha.2.1
        · rw [hr.2.2.2.1]; exact ha.2.2.1
        · rw [hr.2.2.2.2.1]; exact ha.2.2.2.1
        · rw [hr.2.2.2.2.2.1]; exact ha.2.2.2.2.1
        · rw [hr.2.2.2.2.2.2.1]; exact ha.2.2.2.2.2.1
        · rw [hr.2.2.2.2.2.2.2.1]; exact ha.2.2.2.2.2.2.1
        · rw [hr.2.2.2.2.2.2.2.2.1]; exact ha.2.2.2.2.2.2.2.1
        · rw [hr.2.2.2.2.2.2.2.2.2.1]; exact ha.2.2.2.2.2.2.2.2.1
        · rw [hr.2.2.2.2.2.2.2.2.2.2.1]; exact ha.2.2.2.2.2.2.2.2.2.1
        · rw [hr.2.2.2.2.2.2.2.2.2.2.2]; exact ha.2.2.2.2.2.2.2.2.2.2.1
        · intro hnone; rw [hfile] at hnone; exact absurd hnone (by simp)
        · intro f hf
          rw [hfile] at hf
          injection hf with hf
          subst hf
          obtain ⟨fsym, hfs⟩ := hr.1
          exact ⟨fsym, by rw [hfs, ha.2.2.2.2.2.2.2.2.2.2.2]⟩

/-- `get_fresh_elem_id` error: either nothing changed (`add_elem` rejected
the element type) or the allocation went through and only the root-elem
registration failed. -/
theorem getFresh_err {s : ExtState} {t : ElemType} {s' : ExtState} {e : ExtErr}
    (h : getFresh s t = (s', .error e)) :
    s' = s ∨
    (s'.cur = s.cur + 1 ∧
     s'.allocTrace = s.allocTrace ++ [s.cur] ∧
     typeIds s'.backend = typeIds s.backend ++ [s.cur] ∧
     s'.elemStack = s.cur :: s.elemStack ∧
     s'.parentStack = s.parentStack) := by
  unfold getFresh at h
  dsimp only at h
  split at h
  · left
    injection h with h1 h2
    exact h1.symm
  · rename_i b1 hadd
    have ha := addElem_ok hadd
    split at h
    · exact absurd h (by simp)
    · rename_i file hfile
      split at h
      · injection h with h1 h2
        subst h1
        refine Or.inr ⟨rfl, rfl, ?_, rfl, rfl⟩
        show typeIds (internString b1 file).2 = _
        rw [typeIds, internString_typeTable b1 file]
        exact ha.2.1
      · exact absurd h (by simp)

/-! ## The allocation-trace relation -/

/-- The ids allocated strictly between two states of one run. -/
def addsOf (s s' : ExtState) : List Nat := s'.allocTrace.drop s.allocTrace.length

/-- `Steps s s'`: `s'` is reachable from `s` by engine steps — the counter
is monotone, the ghost allocation trace grows by ids in `[s.cur, s'.cur)` in
strictly increasing order, and the type relation records exactly those ids. -/
def Steps (s s' : ExtState) : Prop :=
  s.cur ≤ s'.cur ∧
  s'.allocTrace = s.allocTrace ++ addsOf s s' ∧
  (∀ e ∈ addsOf s s', s.cur ≤ e ∧ e < s'.cur) ∧
  (addsOf s s').Pairwise (· < ·) ∧
  typeIds s'.backend = typeIds s.backend ++ addsOf s s'

theorem steps_refl (s : ExtState) : Steps s s := by
  refine ⟨le_refl _, ?_, ?_, ?_, ?_⟩ <;> simp [addsOf]

/-- A step that does not allocate. -/
theorem steps_same {s s' : ExtState} (hc : s'.cur = s.cur)
    (ha : s'.allocTrace = s.allocTrace)
    (ht : typeIds s'.backend = typeIds s.backend) : Steps s s' := by
  have hadds : addsOf s s' = [] := by simp [addsOf, ha]
  exact ⟨le_of_eq hc.symm, by simp [hadds, ha], by simp [hadds], by simp [hadds],
    by simp [hadds, ht]⟩

/-- A step that allocates exactly the id `s.cur`. -/
theorem steps_one {s s' : ExtState} (hc : s'.cur = s.cur + 1)
    (ha : s'.allocTrace = s.allocTrace ++ [s.cur])
    (ht : typeIds s'.backend = typeIds s.backend ++ [s.cur]) : Steps s s' := by
  have hadds : addsOf s s' = [s.cur] := by simp [addsOf, ha]
  refine ⟨by omega, by simp [hadds, ha], ?_, by simp [hadds], by simp [hadds, ht]⟩
  intro e he
  rw [hadds] at he
  simp at he
  omega

theorem steps_trans {s s1 s2 : ExtState} (h1 : Steps s s1) (h2 : Steps s1 s2) :
    Steps s s2 := by
  obtain ⟨c1, a1, r1, p1, t1⟩ := h1
  obtain ⟨c2, a2, r2, p2, t2⟩ := h2
  have hadds : addsOf s s2 = addsOf s s1 ++ addsOf s1 s2 := by
    have hflat : s2.allocTrace = s.allocTrace ++ (addsOf s s1 ++ addsOf s1 s2) := by
      rw [a2, a1]; simp
    show s2.allocTrace.drop s.allocTrace.length = _
    rw [hflat, List.drop_left]
  refine ⟨le_trans c1 c2, by rw [hadds]; rw [a2, a1]; simp, ?_, ?_, ?_⟩
  · intro e he
    rw [hadds] at he
    rcases List.mem_append.mp he with h | h
    · have := r1 e h; omega
    · have := r2 e h; omega
  · rw [hadds]
    refine List.pairwise_append.mpr ⟨p1, p2, ?_⟩
    intro a hA b hB
    have hA' := r1 a hA
    have hB' := r2 b hB
    omega
  · rw [hadds, t2, t1]; simp

/-! ## Steps lemmas for the primitive operations -/

theorem typeIds_addBool {b : Backend} {id : Nat} {v : Bool} {b2 : Backend}
    (h : addBool b id v = .ok b2) : typeIds b2 = typeIds b := by
  obtain ⟨-, rfl⟩ := addBool_ok h; simp [typeIds]

theorem typeIds_addI64 {b : Backend} {id : Nat} {v : Int} {b2 : Backend}
    (h : addI64 b id v = .ok b2) : typeIds b2 = typeIds b := by
  obtain ⟨-, rfl⟩ := addI64_ok h; simp [typeIds]

theorem typeIds_addStr {b : Backend} {id : Nat} {v : String} {b2 : Backend}
    (h : addStr b id v = .ok b2) : typeIds b2 = typeIds b :=
  (addStr_ok h).2.2.1

theorem typeIds_addStructType {b : Backend} {id : Nat} {v : String} {b2 : Backend}
    (h : addStructType b id v = .ok b2) : typeIds b2 = typeIds b :=
  (addStructType_ok h).2.2.1

theorem typeIds_addStructEntry {b : Backend} {id : Nat} {k : String} {v : Nat} {b2 : Backend}
    (h : addStructEntry b id k v = .ok b2) : typeIds b2 = typeIds b :=
  (addStructEntry_ok h).2.1

theorem typeIds_addVariantType {b : Backend} {id : Nat} {t v : String} {b2 : Backend}
    (h : addVariantType b id t v = .ok b2) : typeIds b2 = typeIds b :=
  (addVariantType_ok h).2.1

theorem typeIds_addSeqEntry {b : Backend} {id p v : Nat} {b2 : Backend}
    (h : addSeqEntry b id p v = .ok b2) : typeIds b2 = typeIds b := by
  obtain ⟨-, rfl⟩ := addSeqEntry_ok h; simp [typeIds]

theorem typeIds_addTupleEntry {b : Backend} {id p v : Nat} {b2 : Backend}
    (h : addTupleEntry b id p v = .ok b2) : typeIds b2 = typeIds b := by
  obtain ⟨-, rfl⟩ := addTupleEntry_ok h; simp [typeIds]

theorem typeIds_entryFor {et : ElemType} {b : Backend} {id p v : Nat} {b2 : Backend}
    (h : entryFor et b id p v = .ok b2) : typeIds b2 = typeIds b := by
  unfold entryFor at h
  split at h
  all_goals first
    | exact typeIds_addSeqEntry h
    | exact typeIds_addTupleEntry h
    | exact absurd h (by simp)

theorem typeIds_addMapEntry {mode : MapMode} {b : Backend} {p k v : Nat} {b2 : Backend}
    (h : addMapEntry mode b p k v = .ok b2) : typeIds b2 = typeIds b := by
  cases mode with
  | elemKey => obtain ⟨-, rfl⟩ := addMapEntry_elemKey_ok h; simp [typeIds]
  | stringKey => exact (addMapEntry_stringKey_ok h).2.2.1

/-- Any call to `get_fresh_elem_id` is a legal trace step. -/
theorem steps_getFresh {s : ExtState} {t : ElemType} {s1 : ExtState} {r : Except ExtErr Nat}
    (h : getFresh s t = (s1, r)) : Steps s s1 := by
  cases r with
  | error e =>
      rcases getFresh_err h with rfl | ⟨hc, ha, ht, -, -⟩
      · exact steps_refl _
      · exact steps_one hc ha ht
  | ok id =>
      obtain ⟨-, hc, ha, -, -, -, ht, -⟩ := getFresh_ok h
      exact steps_one hc ha ht

/-- Any call to `end_parent` is a legal (allocation-free) trace step. -/
theorem steps_endParent {s s1 : ExtState} {r : Except ExtErr Nat}
    (h : endParent s = (s1, r)) : Steps s s1 := by
  unfold endParent at h
  split at h <;> (injection h with h1 h2; subst h1)
  · exact steps_refl s
  · exact steps_same rfl rfl rfl

/-- Rebuild a pair equation from an equation on its second component. -/
theorem pairEq {α β : Type _} {p : α × β} {b : β} (h : p.2 = b) : p = (p.1, b) := by
  rw [← h]

/-- Every value has positive size (used for measure arithmetic). -/
theorem valueSizeOf_pos (v : Value) : 0 < sizeOf v := by
  cases v <;> simp

/-- Stack-only updates are allocation-free steps. -/
theorem steps_stack {s : ExtState} (l : List Nat) :
    Steps s { s with elemStack := l } := steps_same rfl rfl rfl

theorem steps_parent {s : ExtState} (p : List (Nat × Nat)) :
    Steps s { s with parentStack := p } := steps_same rfl rfl rfl

theorem steps_backend {s : ExtState} {b : Backend}
    (h : typeIds b = typeIds s.backend) :
    Steps s { s with backend := b } := steps_same rfl rfl h

theorem steps_update {s : ExtState} {b : Backend}
    (h : typeIds b = typeIds s.backend) (l : List Nat) (p : List (Nat × Nat)) :
    Steps s { s with elemStack := l, parentStack := p, backend := b } :=
  steps_same rfl rfl h

/-- Master trace lemma: every run of the serializer or one of its helpers —
successful or not — is a legal trace step (`Steps`): the id counter is
monotone, allocated ids are fresh, strictly increasing, lie in `[cur, cur')`,
and are exactly the ids appended to the type relation, in order. -/
theorem stepsOfSer (mode : MapMode) : ∀ n : Nat,
    (∀ v s s' r, sizeOf v ≤ n → ser mode v s = (s', r) → Steps s s') ∧
    (∀ fs s s' r, sizeOf fs ≤ n → serFields mode fs s = (s', r) → Steps s s') ∧
    (∀ es s s' r, sizeOf es ≤ n → serMapEntries mode es s = (s', r) → Steps s s') ∧
    (∀ k v s s' r, sizeOf k + sizeOf v ≤ n → serMapEntry mode k v s = (s', r) → Steps s s') ∧
    (∀ et vs s s' r, sizeOf vs ≤ n → serElems mode et vs s = (s', r) → Steps s s') := by
  intro n
  induction n using Nat.strong_induction_on with
  | _ n ih =>
    have ihV : ∀ (v : Value), sizeOf v < n →
        ∀ s s' r, ser mode v s = (s', r) → Steps s s' :=
      fun v hv s s' r h => (ih (sizeOf v) hv).1 v s s' r (le_refl _) h
    have ihF : ∀ (fs : FieldList), sizeOf fs < n →
        ∀ s s' r, serFields mode fs s = (s', r) → Steps s s' :=
      fun fs hf s s' r h => (ih (sizeOf fs) hf).2.1 fs s s' r (le_refl _) h
    have ihE : ∀ (es : EntryList), sizeOf es < n →
        ∀ s s' r, serMapEntries mode es s = (s', r) → Steps s s' :=
      fun es he s s' r h => (ih (sizeOf es) he).2.2.1 es s s' r (le_refl _) h
    have ihME : ∀ (k v : Value), sizeOf k + sizeOf v < n →
        ∀ s s' r, serMapEntry mode k v s = (s', r) → Steps s s' :=
      fun k v hkv s s' r h => (ih (sizeOf k + sizeOf v) hkv).2.2.2.1 k v s s' r (le_refl _) h
    have ihL : ∀ (et : ElemType) (vs : ValueList), sizeOf vs < n →
        ∀ s s' r, serElems mode et vs s = (s', r) → Steps s s' :=
      fun et vs hvs s s' r h => (ih (sizeOf vs) hvs).2.2.2.2 et vs s s' r (le_refl _) h
    refine ⟨?_, ?_, ?_, ?_, ?_⟩
    · -- ser
      intro v s s' r hsz h
      cases v with
      | bool value =>
        rw [ser.eq_def] at h
        dsimp only at h
        rcases hg : getFresh s ElemType.Bool with ⟨s1, r1⟩
        rw [hg] at h
        have hstep1 : Steps s s1 := steps_getFresh hg
        cases r1 with
        | error e => dsimp only at h; cases h; exact hstep1
        | ok id =>
          dsimp only at h
          rcases ha : addBool s1.backend id value with e | b2 <;> rw [ha] at h <;>
            dsimp only at h <;> cases h
          · exact hstep1
          · exact steps_trans hstep1 (steps_backend (typeIds_addBool ha))
      | i64 value =>
        rw [ser.eq_def] at h
        dsimp only at h
        rcases hg : getFresh s ElemType.I64 with ⟨s1, r1⟩
        rw [hg] at h
        have hstep1 : Steps s s1 := steps_getFresh hg
        cases r1 with
        | error e => dsimp only at h; cases h; exact hstep1
        | ok id =>
          dsimp only at h
          rcases ha : addI64 s1.backend id value with e | b2 <;> rw [ha] at h <;>
            dsimp only at h <;> cases h
          · exact hstep1
          · exact steps_trans hstep1 (steps_backend (typeIds_addI64 ha))
      | str value =>
        rw [ser.eq_def] at h
        dsimp only at h
        rcases hg : getFresh s ElemType.Str with ⟨s1, r1⟩
        rw [hg] at h
        have hstep1 : Steps s s1 := steps_getFresh hg
        cases r1 with
        | error e => dsimp only at h; cases h; exact hstep1
        | ok id =>
          dsimp only at h
          rcases ha : addStr s1.backend id value with e | b2 <;> rw [ha] at h <;>
            dsimp only at h <;> cases h
          · exact hstep1
          · exact steps_trans hstep1 (steps_backend (typeIds_addStr ha))
      | f32 =>
        rw [ser.eq_def] at h
        dsimp only at h
        rcases hg : getFresh s ElemType.F32 with ⟨s1, r1⟩
        rw [hg] at h
        cases r1 <;> dsimp only at h <;> cases h <;> exact steps_getFresh hg
      | f64 =>
        rw [ser.eq_def] at h
        dsimp only at h
        rcases hg : getFresh s ElemType.F64 with ⟨s1, r1⟩
        rw [hg] at h
        cases r1 <;> dsimp only at h <;> cases h <;> exact steps_getFresh hg
      | bytes =>
        rw [ser.eq_def] at h
        dsimp only at h
        rcases hg : getFresh s ElemType.Bytes with ⟨s1, r1⟩
        rw [hg] at h
        cases r1 <;> dsimp only at h <;> cases h <;> exact steps_getFresh hg
      | unit =>
        rw [ser.eq_def] at h
        dsimp only at h
        exact steps_getFresh h
      | unitStruct name =>
        rw [ser.eq_def] at h
        dsimp only at h
        rcases hg : getFresh s ElemType.UnitStruct with ⟨s1, r1⟩
        rw [hg] at h
        have hstep1 : Steps s s1 := steps_getFresh hg
        cases r1 with
        | error e => dsimp only at h; cases h; exact hstep1
        | ok id =>
          dsimp only at h
          rcases ha : addStructType s1.backend id name with e | b2 <;> rw [ha] at h <;>
            dsimp only at h <;> cases h
          · exact hstep1
          · exact steps_trans hstep1 (steps_backend (typeIds_addStructType ha))
      | unitVariant name variant =>
        rw [ser.eq_def] at h
        dsimp only at h
        rcases hg : getFresh s ElemType.UnitVariant with ⟨s1, r1⟩
        rw [hg] at h
        have hstep1 : Steps s s1 := steps_getFresh hg
        cases r1 with
        | error e => dsimp only at h; cases h; exact hstep1
        | ok id =>
          dsimp only at h
          rcases ha : addVariantType s1.backend id name variant with e | b2 <;> rw [ha] at h <;>
            dsimp only at h <;> cases h
          · exact steps_trans hstep1 (steps_stack (id :: s1.elemStack))
          · exact steps_trans hstep1
              (steps_update (typeIds_addVariantType ha) (id :: s1.elemStack) s1.parentStack)
      | newtypeStruct name inner =>
        have hlt : sizeOf inner < n := by simp at hsz; omega
        rw [ser.eq_def] at h
        dsimp only at h
        rcases hinner : ser mode inner s with ⟨s1, r1⟩
        rw [hinner] at h
        have hstep1 : Steps s s1 := ihV inner hlt _ _ _ hinner
        cases r1 with
        | error e => dsimp only at h; cases h; exact hstep1
        | ok cid =>
          dsimp only at h
          cases hstack : s1.elemStack with
          | nil => rw [hstack] at h; dsimp only at h; cases h; exact hstep1
          | cons childId restStack =>
            rw [hstack] at h
            dsimp only at h
            rcases hg : getFresh { s1 with elemStack := restStack } ElemType.NewtypeStruct
              with ⟨s3, r3⟩
            rw [hg] at h
            have hstep2 : Steps s s3 :=
              steps_trans hstep1 (steps_trans (steps_stack restStack) (steps_getFresh hg))
            cases r3 with
            | error e => dsimp only at h; cases h; exact hstep2
            | ok id3 =>
              dsimp only at h
              rcases ha : addStructType s3.backend id3 name with e | b4 <;> rw [ha] at h <;>
                dsimp only at h
              · cases h; exact hstep2
              · rcases ht : addTupleEntry b4 id3 0 childId with e | b5 <;> rw [ht] at h <;>
                  dsimp only at h <;> cases h
                · exact steps_trans hstep2 (steps_backend (typeIds_addStructType ha))
                · exact steps_trans hstep2 (steps_backend
                    (by rw [typeIds_addTupleEntry ht, typeIds_addStructType ha]))
      | newtypeVariant name variant inner =>
        have hlt : sizeOf inner < n := by simp at hsz; omega
        rw [ser.eq_def] at h
        dsimp only at h
        rcases hinner : ser mode inner s with ⟨s1, r1⟩
        rw [hinner] at h
        have hstep1 : Steps s s1 := ihV inner hlt _ _ _ hinner
        cases r1 with
        | error e => dsimp only at h; cases h; exact hstep1
        | ok cid =>
          dsimp only at h
          cases hstack : s1.elemStack with
          | nil => rw [hstack] at h; dsimp only at h; cases h; exact hstep1
          | cons childId restStack =>
            rw [hstack] at h
            dsimp only at h
            rcases hg : getFresh { s1 with elemStack := restStack } ElemType.NewtypeVariant
              with ⟨s3, r3⟩
            rw [hg] at h
            have hstep2 : Steps s s3 :=
              steps_trans hstep1 (steps_trans (steps_stack restStack) (steps_getFresh hg))
            cases r3 with
            | error e => dsimp only at h; cases h; exact hstep2
            | ok id3 =>
              dsimp only at h
              rcases ha : addVariantType s3.backend id3 name variant with e | b4 <;>
                rw [ha] at h <;> dsimp only at h
              · cases h; exact hstep2
              · rcases ht : addTupleEntry b4 id3 0 childId with e | b5 <;> rw [ht] at h <;>
                  dsimp only at h <;> cases h
                · exact steps_trans hstep2 (steps_backend (typeIds_addVariantType ha))
                · exact steps_trans hstep2 (steps_backend
                    (by rw [typeIds_addTupleEntry ht, typeIds_addVariantType ha]))
      | seq vs =>
        have hlt : sizeOf vs < n := by simp at hsz; omega
        rw [ser.eq_def] at h
        dsimp only at h
        rcases hg : getFresh s ElemType.Seq with ⟨s1, r1⟩
        rw [hg] at h
        have hstep1 : Steps s s1 := steps_getFresh hg
        cases r1 with
        | error e => dsimp only at h; cases h; exact hstep1
        | ok id =>
          dsimp only at h
          rcases hl : serElems mode ElemType.Seq vs
              { s1 with parentStack := (id, 0) :: s1.parentStack } with ⟨s3, r3⟩
          rw [hl] at h
          have hstep2 : Steps s s3 :=
            steps_trans hstep1 (steps_trans (steps_parent ((id, 0) :: s1.parentStack))
              (ihL ElemType.Seq vs hlt _ _ _ hl))
          cases r3 with
          | error e => dsimp only at h; cases h; exact hstep2
          | ok u =>
            dsimp only at h
            rcases hp : endParent s3 with ⟨s4, r4⟩
            rw [hp] at h
            have hstep3 : Steps s s4 := steps_trans hstep2 (steps_endParent hp)
            cases r4 <;> dsimp only at h <;> cases h <;> exact hstep3
      | tuple vs =>
        have hlt : sizeOf vs < n := by simp at hsz; omega
        rw [ser.eq_def] at h
        dsimp only at h
        rcases hg : getFresh s ElemType.Tuple with ⟨s1, r1⟩
        rw [hg] at h
        have hstep1 : Steps s s1 := steps_getFresh hg
        cases r1 with
        | error e => dsimp only at h; cases h; exact hstep1
        | ok id =>
          dsimp only at h
          rcases hl : serElems mode ElemType.Tuple vs
              { s1 with parentStack := (id, 0) :: s1.parentStack } with ⟨s3, r3⟩
          rw [hl] at h
          have hstep2 : Steps s s3 :=
            steps_trans hstep1 (steps_trans (steps_parent ((id, 0) :: s1.parentStack))
              (ihL ElemType.Tuple vs hlt _ _ _ hl))
          cases r3 with
          | error e => dsimp only at h; cases h; exact hstep2
          | ok u =>
            dsimp only at h
            rcases hp : endParent s3 with ⟨s4, r4⟩
            rw [hp] at h
            have hstep3 : Steps s s4 := steps_trans hstep2 (steps_endParent hp)
            cases r4 <;> dsimp only at h <;> cases h <;> exact hstep3
      | tupleStruct name vs =>
        have hlt : sizeOf vs < n := by simp at hsz; omega
        rw [ser.eq_def] at h
        dsimp only at h
        rcases hg : getFresh s ElemType.TupleStruct with ⟨s1, r1⟩
        rw [hg] at h
        have hstep1 : Steps s s1 := steps_getFresh hg
        cases r1 with
        | error e => dsimp only at h; cases h; exact hstep1
        | ok id =>
          dsimp only at h
          rcases ha : addStructType s1.backend id name with e | b2 <;> rw [ha] at h <;>
            dsimp only at h
          · cases h; exact steps_trans hstep1 (steps_parent ((id, 0) :: s1.parentStack))
          · rcases hl : serElems mode ElemType.TupleStruct vs
                { s1 with parentStack := (id, 0) :: s1.parentStack, backend := b2 }
              with ⟨s3, r3⟩
            rw [hl] at h
            have hstep2 : Steps s s3 :=
              steps_trans hstep1 (steps_trans
                (steps_update (typeIds_addStructType ha) s1.elemStack
                  ((id, 0) :: s1.parentStack))
                (ihL ElemType.TupleStruct vs hlt _ _ _ hl))
            cases r3 with
            | error e => dsimp only at h; cases h; exact hstep2
            | ok u =>
              dsimp only at h
              rcases hp : endParent s3 with ⟨s4, r4⟩
              rw [hp] at h
              have hstep3 : Steps s s4 := steps_trans hstep2 (steps_endParent hp)
              cases r4 <;> dsimp only at h <;> cases h <;> exact hstep3
      | tupleVariant name variant vs =>
        have hlt : sizeOf vs < n := by simp at hsz; omega
        rw [ser.eq_def] at h
        dsimp only at h
        rcases hg : getFresh s ElemType.TupleVariant with ⟨s1, r1⟩
        rw [hg] at h
        have hstep1 : Steps s s1 := steps_getFresh hg
        cases r1 with
        | error e => dsimp only at h; cases h; exact hstep1
        | ok id =>
          dsimp only at h
          rcases ha : addVariantType s1.backend id name variant with e | b2 <;> rw [ha] at h <;>
            dsimp only at h
          · cases h; exact steps_trans hstep1 (steps_parent ((id, 0) :: s1.parentStack))
          · rcases hl : serElems mode ElemType.TupleVariant vs
                { s1 with parentStack := (id, 0) :: s1.parentStack, backend := b2 }
              with ⟨s3, r3⟩
            rw [hl] at h
            have hstep2 : Steps s s3 :=
              steps_trans hstep1 (steps_trans
                (steps_update (typeIds_addVariantType ha) s1.elemStack
                  ((id, 0) :: s1.parentStack))
                (ihL ElemType.TupleVariant vs hlt _ _ _ hl))
            cases r3 with
            | error e => dsimp only at h; cases h; exact hstep2
            | ok u =>
              dsimp only at h
              rcases hp : endParent s3 with ⟨s4, r4⟩
              rw [hp] at h
              have hstep3 : Steps s s4 := steps_trans hstep2 (steps_endParent hp)
              cases r4 <;> dsimp only at h <;> cases h <;> exact hstep3
      | map entries =>
        have hlt : sizeOf entries < n := by simp at hsz; omega
        rw [ser.eq_def] at h
        dsimp only at h
        rcases hg : getFresh s ElemType.Map with ⟨s1, r1⟩
        rw [hg] at h
        have hstep1 : Steps s s1 := steps_getFresh hg
        cases r1 with
        | error e => dsimp only at h; cases h; exact hstep1
        | ok id =>
          dsimp only at h
          rcases hl : serMapEntries mode entries
              { s1 with parentStack := (id, 0) :: s1.parentStack } with ⟨s3, r3⟩
          rw [hl] at h
          have hstep2 : Steps s s3 :=
            steps_trans hstep1 (steps_trans (steps_parent ((id, 0) :: s1.parentStack))
              (ihE entries hlt _ _ _ hl))
          cases r3 with
          | error e => dsimp only at h; cases h; exact hstep2
          | ok u =>
            dsimp only at h
            rcases hp : endParent s3 with ⟨s4, r4⟩
            rw [hp] at h
            have hstep3 : Steps s s4 := steps_trans hstep2 (steps_endParent hp)
            cases r4 <;> dsimp only at h <;> cases h <;> exact hstep3
      | struct name fields =>
        have hlt : sizeOf fields < n := by simp at hsz; omega
        rw [ser.eq_def] at h
        dsimp only at h
        rcases hg : getFresh s ElemType.Struct with ⟨s1, r1⟩
        rw [hg] at h
        have hstep1 : Steps s s1 := steps_getFresh hg
        cases r1 with
        | error e => dsimp only at h; cases h; exact hstep1
        | ok id =>
          dsimp only at h
          rcases ha : addStructType s1.backend id name with e | b2 <;> rw [ha] at h <;>
            dsimp only at h
          · cases h; exact steps_trans hstep1 (steps_parent ((id, 0) :: s1.parentStack))
          · rcases hl : serFields mode fields
                { s1 with parentStack := (id, 0) :: s1.parentStack, backend := b2 }
              with ⟨s3, r3⟩
            rw [hl] at h
            have hstep2 : Steps s s3 :=
              steps_trans hstep1 (steps_trans
                (steps_update (typeIds_addStructType ha) s1.elemStack
                  ((id, 0) :: s1.parentStack))
                (ihF fields hlt _ _ _ hl))
            cases r3 with
            | error e => dsimp only at h; cases h; exact hstep2
            | ok u =>
              dsimp only at h
              rcases hp : endParent s3 with ⟨s4, r4⟩
              rw [hp] at h
              have hstep3 : Steps s s4 := steps_trans hstep2 (steps_endParent hp)
              cases r4 <;> dsimp only at h <;> cases h <;> exact hstep3
      | structVariant name variant fields =>
        have hlt : sizeOf fields < n := by simp at hsz; omega
        rw [ser.eq_def] at h
        dsimp only at h
        rcases hg : getFresh s ElemType.StructVariant with ⟨s1, r1⟩
        rw [hg] at h
        have hstep1 : Steps s s1 := steps_getFresh hg
        cases r1 with
        | error e => dsimp only at h; cases h; exact hstep1
        | ok id =>
          dsimp only at h
          rcases ha : addVariantType s1.backend id name variant with e | b2 <;> rw [ha] at h <;>
            dsimp only at h
          · cases h; exact steps_trans hstep1 (steps_parent ((id, 0) :: s1.parentStack))
          · rcases hl : serFields mode fields
                { s1 with parentStack := (id, 0) :: s1.parentStack, backend := b2 }
              with ⟨s3, r3⟩
            rw [hl] at h
            have hstep2 : Steps s s3 :=
              steps_trans hstep1 (steps_trans
                (steps_update (typeIds_addVariantType ha) s1.elemStack
                  ((id, 0) :: s1.parentStack))
                (ihF fields hlt _ _ _ hl))
            cases r3 with
            | error e => dsimp only at h; cases h; exact hstep2
            | ok u =>
              dsimp only at h
              rcases hp : endParent s3 with ⟨s4, r4⟩
              rw [hp] at h
              have hstep3 : Steps s s4 := steps_trans hstep2 (steps_endParent hp)
              cases r4 <;> dsimp only at h <;> cases h <;> exact hstep3
    · -- serFields
      intro fs s s' r hsz h
      cases fs with
      | nil =>
        rw [serFields.eq_def] at h
        dsimp only at h
        cases h
        exact steps_refl _
      | cons key v rest =>
        have hvlt : sizeOf v < n := by simp at hsz; omega
        have hrlt : sizeOf rest < n := by simp at hsz; omega
        rw [serFields.eq_def] at h
        dsimp only at h
        rcases hv : ser mode v s with ⟨s1, r1⟩
        rw [hv] at h
        have hstep1 : Steps s s1 := ihV v hvlt _ _ _ hv
        cases r1 with
        | error e => dsimp only at h; cases h; exact hstep1
        | ok id =>
          dsimp only at h
          cases hp : s1.parentStack with
          | nil => rw [hp] at h; dsimp only at h; cases h; exact hstep1
          | cons pr restParents =>
            obtain ⟨parentId, pos⟩ := pr
            rw [hp] at h
            dsimp only at h
            cases hst : s1.elemStack with
            | nil => rw [hst] at h; dsimp only at h; cases h; exact hstep1
            | cons valId restStack =>
              rw [hst] at h
              dsimp only at h
              rcases ha : addStructEntry s1.backend parentId key valId with e | b2 <;>
                rw [ha] at h <;> dsimp only at h
              · cases h; exact steps_trans hstep1 (steps_stack restStack)
              · exact steps_trans hstep1 (steps_trans
                  (steps_update (typeIds_addStructEntry ha) restStack
                    ((parentId, pos) :: restParents))
                  (ihF rest hrlt _ _ _ h))
    · -- serMapEntries
      intro es s s' r hsz h
      cases es with
      | nil =>
        rw [serMapEntries.eq_def] at h
        dsimp only at h
        cases h
        exact steps_refl _
      | cons k v rest =>
        have hklt : sizeOf k + sizeOf v < n := by simp at hsz; omega
        have hrlt : sizeOf rest < n := by simp at hsz; omega
        rw [serMapEntries.eq_def] at h
        dsimp only at h
        rcases hme : serMapEntry mode k v s with ⟨s1, r1⟩
        rw [hme] at h
        have hstep1 : Steps s s1 := ihME k v hklt _ _ _ hme
        cases r1 with
        | error e => dsimp only at h; cases h; exact hstep1
        | ok u => exact steps_trans hstep1 (ihE rest hrlt _ _ _ h)
    · -- serMapEntry
      intro k v s s' r hsz h
      have hklt : sizeOf k < n := by
        have := valueSizeOf_pos v; omega
      have hvlt : sizeOf v < n := by
        have := valueSizeOf_pos k; omega
      rw [serMapEntry.eq_def] at h
      dsimp only at h
      rcases hk : ser mode k s with ⟨s1, r1⟩
      rw [hk] at h
      have hstep1 : Steps s s1 := ihV k hklt _ _ _ hk
      cases r1 with
      | error e => dsimp only at h; cases h; exact hstep1
      | ok idk =>
        dsimp only at h
        rcases hv : ser mode v s1 with ⟨s2, r2⟩
        rw [hv] at h
        have hstep2 : Steps s s2 := steps_trans hstep1 (ihV v hvlt _ _ _ hv)
        cases r2 with
        | error e => dsimp only at h; cases h; exact hstep2
        | ok idv =>
          dsimp only at h
          cases hp : s2.parentStack with
          | nil => rw [hp] at h; dsimp only at h; cases h; exact hstep2
          | cons pr restParents =>
            obtain ⟨parentId, pos⟩ := pr
            rw [hp] at h
            dsimp only at h
            cases hst : s2.elemStack with
            | nil => rw [hst] at h; dsimp only at h; cases h; exact hstep2
            | cons valId afterVal =>
              rw [hst] at h
              dsimp only at h
              cases hav : afterVal with
              | nil => rw [hav] at h; dsimp only at h; cases h
                       exact steps_trans hstep2 (steps_stack [])
              | cons keyId restStack =>
                rw [hav] at h
                dsimp only at h
                rcases hm : addMapEntry mode s2.backend parentId keyId valId with e | b2 <;>
                  rw [hm] at h <;> dsimp only at h <;> cases h
                · exact steps_trans hstep2 (steps_stack restStack)
                · exact steps_trans hstep2
                    (steps_update (typeIds_addMapEntry hm) restStack s2.parentStack)
    · -- serElems
      intro et vs s s' r hsz h
      cases vs with
      | nil =>
        rw [serElems.eq_def] at h
        dsimp only at h
        cases h
        exact steps_refl _
      | cons v rest =>
        have hvlt : sizeOf v < n := by simp at hsz; omega
        have hrlt : sizeOf rest < n := by simp at hsz; omega
        rw [serElems.eq_def] at h
        dsimp only at h
        rcases hv : ser mode v s with ⟨s1, r1⟩
        rw [hv] at h
        have hstep1 : Steps s s1 := ihV v hvlt _ _ _ hv
        cases r1 with
        | error e => dsimp only at h; cases h; exact hstep1
        | ok id =>
          dsimp only at h
          cases hst : s1.elemStack with
          | nil => rw [hst] at h; dsimp only at h; cases h; exact hstep1
          | cons childId restStack =>
            rw [hst] at h
            dsimp only at h
            cases hp : s1.parentStack with
            | nil => rw [hp] at h; dsimp only at h; cases h
                     exact steps_trans hstep1 (steps_stack restStack)
            | cons pr restParents =>
              obtain ⟨parentId, pos⟩ := pr
              rw [hp] at h
              dsimp only at h
              rcases hent : entryFor et s1.backend parentId pos childId with e | b2 <;>
                rw [hent] at h <;> dsimp only at h
              · cases h; exact steps_trans hstep1 (steps_stack restStack)
              · exact steps_trans hstep1 (steps_trans
                  (steps_update (typeIds_entryFor hent) restStack
                    ((parentId, pos + 1) :: restParents))
                  (ihL et rest hrlt _ _ _ h))

/-! ## Success-shape of a serializer run -/

/-- Container kinds: the element id is allocated before any child
(map, sequence, tuple, tuple struct, tuple variant, struct, struct variant). -/
def Value.isContainer : Value → Bool
  | .seq _ | .tuple _ | .tupleStruct _ _ | .tupleVariant _ _ _
  | .map _ | .struct _ _ | .structVariant _ _ _ => true
  | _ => false

/-- Single-child wrapper kinds: the child is fully serialized before the
wrapper's id is allocated (newtype struct, newtype variant — which includes
`Some`, see `Value.someV`). -/
def Value.isWrapper : Value → Bool
  | .newtypeStruct _ _ | .newtypeVariant _ _ _ => true
  | _ => false

/-- All element-id columns of the fact relations other than `type`
(and other than `rootElem`): the keys of `bool`/`number`/`string`/
`structType`/`variantType`, the element and value columns of
`struct`/`seq`/`tuple`/`map`, and — only for the element-keyed backend —
the key column of `map` (in the string-keyed backend that column holds
symbols, not element ids). -/
def relIds (mode : MapMode) (b : Backend) : List Nat :=
  b.data.boolTable.map Prod.fst ++ b.data.numberTable.map Prod.fst ++
  b.data.stringTable.map Prod.fst ++ b.data.structTypeTable.map Prod.fst ++
  b.data.variantTypeTable.map Prod.fst ++
  b.data.structTable.map (fun q => q.1.1) ++ b.data.structTable.map (·.2) ++
  b.data.seqTable.map (fun q => q.1.1) ++ b.data.seqTable.map (·.2) ++
  b.data.tupleTable.map (fun q => q.1.1) ++ b.data.tupleTable.map (·.2) ++
  b.data.mapTable.map (fun q => q.1.1) ++ b.data.mapTable.map (·.2) ++
  (match mode with
   | .elemKey => b.data.mapTable.map (fun q => q.1.2)
   | .stringKey => [])

/-- Table-wise containment: every element id stored in a fact relation other
than `type` is itself recorded in the type relation.  (In the string-keyed
flavour the `map` key column holds symbols, so it is exempt there.) -/
def TableSub (mode : MapMode) (b : Backend) : Prop :=
  (∀ e ∈ b.data.boolTable.map Prod.fst, e ∈ typeIds b) ∧
  (∀ e ∈ b.data.numberTable.map Prod.fst, e ∈ typeIds b) ∧
  (∀ e ∈ b.data.stringTable.map Prod.fst, e ∈ typeIds b) ∧
  (∀ e ∈ b.data.structTypeTable.map Prod.fst, e ∈ typeIds b) ∧
  (∀ e ∈ b.data.variantTypeTable.map Prod.fst, e ∈ typeIds b) ∧
  (∀ q ∈ b.data.structTable, q.1.1 ∈ typeIds b ∧ q.2 ∈ typeIds b) ∧
  (∀ q ∈ b.data.seqTable, q.1.1 ∈ typeIds b ∧ q.2 ∈ typeIds b) ∧
  (∀ q ∈ b.data.tupleTable, q.1.1 ∈ typeIds b ∧ q.2 ∈ typeIds b) ∧
  (∀ q ∈ b.data.mapTable, q.1.1 ∈ typeIds b ∧ q.2 ∈ typeIds b) ∧
  (mode = .elemKey → ∀ q ∈ b.data.mapTable, q.1.2 ∈ typeIds b)

/-- Backend part of the run invariant: all recorded element ids are positive
and below the counter, the type relation's ids are strictly increasing (hence
each id appears at most once), and every id in any other relation is present
in the type relation. -/
def BInv (mode : MapMode) (b : Backend) (cur : Nat) : Prop :=
  (∀ e ∈ typeIds b, 1 ≤ e ∧ e < cur) ∧
  (typeIds b).Pairwise (· < ·) ∧
  TableSub mode b

/-- The full run invariant: the backend invariant plus: every id on the
element stack and every parent id on the parent stack is a recorded element,
and the counter is positive. -/
def RunInv (mode : MapMode) (s : ExtState) : Prop :=
  BInv mode s.backend s.cur ∧
  (∀ e ∈ s.elemStack, e ∈ typeIds s.backend) ∧
  (∀ p ∈ s.parentStack, p.1 ∈ typeIds s.backend) ∧
  1 ≤ s.cur

/-- Shape of a successful `ser` run. -/
def SerOk (mode : MapMode) (v : Value) (s s' : ExtState) (top : Nat) : Prop :=
  s.cur ≤ top ∧ top < s'.cur ∧
  s'.parentStack = s.parentStack ∧
  (∃ junk, s'.elemStack = junk ++ s.elemStack ∧ junk ≠ [] ∧
    ∀ e ∈ junk, e ∈ addsOf s s') ∧
  s'.curFile = none ∧
  (s.curFile = none → s'.backend.data.rootElemTable = s.backend.data.rootElemTable) ∧
  (∀ f, s.curFile = some f → ∃ fsym,
      s'.backend.data.rootElemTable = s.backend.data.rootElemTable ++ [(fsym, s.cur)]) ∧
  (v.isContainer = true → top = s.cur) ∧
  (v.isWrapper = true → ∀ e ∈ addsOf s s', e ≤ top) ∧
  (∀ name inner, v = .newtypeStruct name inner →
      ∃ s1 ctop, ser mode inner s = (s1, .ok ctop) ∧ ctop < top) ∧
  (∀ name variant inner, v = .newtypeVariant name variant inner →
      ∃ s1 ctop, ser mode inner s = (s1, .ok ctop) ∧ ctop < top) ∧
  (RunInv mode s → RunInv mode s')

/-- Shape of a successful helper run (fields, map entries, single map entry):
the element stack may only grow by freshly allocated ids, the parent stack is
untouched, a clear pending-file marker stays clear, and the invariant is
preserved. -/
def HelpOk (mode : MapMode) (s s' : ExtState) : Prop :=
  (∃ junk, s'.elemStack = junk ++ s.elemStack ∧ ∀ e ∈ junk, e ∈ addsOf s s') ∧
  (s.curFile = none → s'.curFile = none ∧
    s'.backend.data.rootElemTable = s.backend.data.rootElemTable) ∧
  (RunInv mode s → RunInv mode s')

/-- Parent-stack clause for `serElems`: the head frame keeps its id and its
position only grows; everything deeper is untouched. -/
def ElemsParent (s s' : ExtState) : Prop :=
  (s.parentStack = [] → s'.parentStack = []) ∧
  (∀ p q ps, s.parentStack = (p, q) :: ps → ∃ m, s'.parentStack = (p, q + m) :: ps)

/-- `TableSub` implies the flat statement over `relIds`. -/
theorem TableSub.relIds_sub {mode : MapMode} {b : Backend} (h : TableSub mode b) :
    ∀ e ∈ relIds mode b, e ∈ typeIds b := by
  obtain ⟨h1, h2, h3, h4, h5, h6, h7, h8, h9, h10⟩ := h
  intro e he
  simp only [relIds, List.mem_append] at he
  rcases he with ((((((((((((he | he) | he) | he) | he) | he) | he) | he) | he) | he) | he) | he) | he) | he
  · exact h1 e he
  · exact h2 e he
  · exact h3 e he
  · exact h4 e he
  · exact h5 e he
  · obtain ⟨q, hq, rfl⟩ := List.mem_map.mp he
    exact (h6 q hq).1
  · obtain ⟨q, hq, rfl⟩ := List.mem_map.mp he
    exact (h6 q hq).2
  · obtain ⟨q, hq, rfl⟩ := List.mem_map.mp he
    exact (h7 q hq).1
  · obtain ⟨q, hq, rfl⟩ := List.mem_map.mp he
    exact (h7 q hq).2
  · obtain ⟨q, hq, rfl⟩ := List.mem_map.mp he
    exact (h8 q hq).1
  · obtain ⟨q, hq, rfl⟩ := List.mem_map.mp he
    exact (h8 q hq).2
  · obtain ⟨q, hq, rfl⟩ := List.mem_map.mp he
    exact (h9 q hq).1
  · obtain ⟨q, hq, rfl⟩ := List.mem_map.mp he
    exact (h9 q hq).2
  · cases mode with
    | elemKey =>
        simp at he
        obtain ⟨a, x, hq⟩ := he
        exact h10 rfl ((a, e), x) hq
    | stringKey => simp at he

/-! ## Invariant preservation for the primitive operations -/

theorem BInv_addElem {mode : MapMode} {b : Backend} {cur : Nat} {t : ElemType} {b' : Backend}
    (hb : BInv mode b cur) (hcur : 1 ≤ cur) (h : addElem b cur t = .ok b') :
    BInv mode b' (cur + 1) := by
  obtain ⟨hbnd, hpw, t1, t2, t3, t4, t5, t6, t7, t8, t9, t10⟩ := hb
  obtain ⟨⟨sym, hty⟩, htyIds, h1, h2, h3, h4, h5, h6, h7, h8, h9, h10⟩ := addElem_ok h
  have hmono : ∀ e ∈ typeIds b, e ∈ typeIds b' := by
    intro e he; rw [htyIds]; exact List.mem_append_left _ he
  refine ⟨?_, ?_, ?_, ?_, ?_, ?_, ?_, ?_, ?_, ?_, ?_, ?_⟩
  · intro e he
    rw [htyIds] at he
    rcases List.mem_append.mp he with he | he
    · have := hbnd e he; omega
    · simp at he; omega
  · rw [htyIds]
    refine List.pairwise_append.mpr ⟨hpw, by simp, ?_⟩
    intro a ha c hc
    simp at hc
    subst hc
    exact (hbnd a ha).2
  · rw [h1]; intro e he; exact hmono e (t1 e he)
  · rw [h2]; intro e he; exact hmono e (t2 e he)
  · rw [h3]; intro e he; exact hmono e (t3 e he)
  · rw [h5]; intro e he; exact hmono e (t4 e he)
  · rw [h8]; intro e he; exact hmono e (t5 e he)
  · rw [h6]; intro q hq; exact ⟨hmono _ (t6 q hq).1, hmono _ (t6 q hq).2⟩
  · rw [h7]; intro q hq; exact ⟨hmono _ (t7 q hq).1, hmono _ (t7 q hq).2⟩
  · rw [h9]; intro q hq; exact ⟨hmono _ (t8 q hq).1, hmono _ (t8 q hq).2⟩
  · rw [h4]; intro q hq; exact ⟨hmono _ (t9 q hq).1, hmono _ (t9 q hq).2⟩
  · rw [h4]; intro hmode q hq; exact hmono _ (t10 hmode q hq)

theorem BInv_addRootElem {mode : MapMode} {b : Backend} {cur : Nat} {f : String} {elem : Nat}
    {b' : Backend} (hb : BInv mode b cur) (h : addRootElem b f elem = .ok b') :
    BInv mode b' cur := by
  obtain ⟨hbnd, hpw, t1, t2, t3, t4, t5, t6, t7, t8, t9, t10⟩ := hb
  obtain ⟨-, htyIds, -, h1, h2, h3, h4, h5, h6, h7, h8, h9⟩ := addRootElem_ok h
  have hmono : ∀ e ∈ typeIds b, e ∈ typeIds b' := by intro e he; rw [htyIds]; exact he
  refine ⟨by rw [htyIds]; exact hbnd, by rw [htyIds]; exact hpw,
    ?_, ?_, ?_, ?_, ?_, ?_, ?_, ?_, ?_, ?_⟩
  · rw [h1]; intro e he; exact hmono e (t1 e he)
  · rw [h2]; intro e he; exact hmono e (t2 e he)
  · rw [h3]; intro e he; exact hmono e (t3 e he)
  · rw [h5]; intro e he; exact hmono e (t4 e he)
  · rw [h8]; intro e he; exact hmono e (t5 e he)
  · rw [h6]; intro q hq; exact ⟨hmono _ (t6 q hq).1, hmono _ (t6 q hq).2⟩
  · rw [h7]; intro q hq; exact ⟨hmono _ (t7 q hq).1, hmono _ (t7 q hq).2⟩
  · rw [h9]; intro q hq; exact ⟨hmono _ (t8 q hq).1, hmono _ (t8 q hq).2⟩
  · rw [h4]; intro q hq; exact ⟨hmono _ (t9 q hq).1, hmono _ (t9 q hq).2⟩
  · rw [h4]; intro hmode q hq; exact hmono _ (t10 hmode q hq)

theorem BInv_addBool {mode : MapMode} {b : Backend} {cur elem : Nat} {v : Bool} {b' : Backend}
    (hb : BInv mode b cur) (hm : elem ∈ typeIds b) (h : addBool b elem v = .ok b') :
    BInv mode b' cur := by
  obtain ⟨-, rfl⟩ := addBool_ok h
  obtain ⟨hbnd, hpw, t1, t2, t3, t4, t5, t6, t7, t8, t9, t10⟩ := hb
  refine ⟨hbnd, hpw, ?_, t2, t3, t4, t5, t6, t7, t8, t9, t10⟩
  intro e he
  simp only [List.map_append, List.mem_append] at he
  rcases he with he | he
  · exact t1 e he
  · simp at he; subst he; exact hm

theorem BInv_addI64 {mode : MapMode} {b : Backend} {cur elem : Nat} {v : Int} {b' : Backend}
    (hb : BInv mode b cur) (hm : elem ∈ typeIds b) (h : addI64 b elem v = .ok b') :
    BInv mode b' cur := by
  obtain ⟨-, rfl⟩ := addI64_ok h
  obtain ⟨hbnd, hpw, t1, t2, t3, t4, t5, t6, t7, t8, t9, t10⟩ := hb
  refine ⟨hbnd, hpw, t1, ?_, t3, t4, t5, t6, t7, t8, t9, t10⟩
  intro e he
  simp only [List.map_append, List.mem_append] at he
  rcases he with he | he
  · exact t2 e he
  · simp at he; subst he; exact hm

theorem BInv_addStr {mode : MapMode} {b : Backend} {cur elem : Nat} {v : String} {b' : Backend}
    (hb : BInv mode b cur) (hm : elem ∈ typeIds b) (h : addStr b elem v = .ok b') :
    BInv mode b' cur := by
  obtain ⟨hbnd, hpw, t1, t2, t3, t4, t5, t6, t7, t8, t9, t10⟩ := hb
  obtain ⟨-, ⟨sym, hstr⟩, htyIds, -, h1, h2, h3, h4, h5, h6, h7, h8, h9⟩ := addStr_ok h
  have hmono : ∀ e ∈ typeIds b, e ∈ typeIds b' := by intro e he; rw [htyIds]; exact he
  refine ⟨by rw [htyIds]; exact hbnd, by rw [htyIds]; exact hpw,
    ?_, ?_, ?_, ?_, ?_, ?_, ?_, ?_, ?_, ?_⟩
  · rw [h1]; intro e he; exact hmono e (t1 e he)
  · rw [h2]; intro e he; exact hmono e (t2 e he)
  · rw [hstr]
    intro e he
    simp only [List.map_append, List.mem_append] at he
    rcases he with he | he
    · exact hmono e (t3 e he)
    · simp at he; subst he; exact hmono _ hm
  · rw [h4]; intro e he; exact hmono e (t4 e he)
  · rw [h7]; intro e he; exact hmono e (t5 e he)
  · rw [h5]; intro q hq; exact ⟨hmono _ (t6 q hq).1, hmono _ (t6 q hq).2⟩
  · rw [h6]; intro q hq; exact ⟨hmono _ (t7 q hq).1, hmono _ (t7 q hq).2⟩
  · rw [h8]; intro q hq; exact ⟨hmono _ (t8 q hq).1, hmono _ (t8 q hq).2⟩
  · rw [h3]; intro q hq; exact ⟨hmono _ (t9 q hq).1, hmono _ (t9 q hq).2⟩
  · rw [h3]; intro hmode q hq; exact hmono _ (t10 hmode q hq)

theorem BInv_addStructType {mode : MapMode} {b : Backend} {cur elem : Nat} {v : String}
    {b' : Backend} (hb : BInv mode b cur) (hm : elem ∈ typeIds b)
    (h : addStructType b elem v = .ok b') : BInv mode b' cur := by
  obtain ⟨hbnd, hpw, t1, t2, t3, t4, t5, t6, t7, t8, t9, t10⟩ := hb
  obtain ⟨-, ⟨sym, hstr⟩, htyIds, -, h1, h2, h3, h4, h5, h6, h7, h8, h9⟩ := addStructType_ok h
  have hmono : ∀ e ∈ typeIds b, e ∈ typeIds b' := by intro e he; rw [htyIds]; exact he
  refine ⟨by rw [htyIds]; exact hbnd, by rw [htyIds]; exact hpw,
    ?_, ?_, ?_, ?_, ?_, ?_, ?_, ?_, ?_, ?_⟩
  · rw [h1]; intro e he; exact hmono e (t1 e he)
  · rw [h2]; intro e he; exact hmono e (t2 e he)
  · rw [h3]; intro e he; exact hmono e (t3 e he)
  · rw [hstr]
    intro e he
    simp only [List.map_append, List.mem_append] at he
    rcases he with he | he
    · exact hmono e (t4 e he)
    · simp at he; subst he; exact hmono _ hm
  · rw [h7]; intro e he; exact hmono e (t5 e he)
  · rw [h5]; intro q hq; exact ⟨hmono _ (t6 q hq).1, hmono _ (t6 q hq).2⟩
  · rw [h6]; intro q hq; exact ⟨hmono _ (t7 q hq).1, hmono _ (t7 q hq).2⟩
  · rw [h8]; intro q hq; exact ⟨hmono _ (t8 q hq).1, hmono _ (t8 q hq).2⟩
  · rw [h4]; intro q hq; exact ⟨hmono _ (t9 q hq).1, hmono _ (t9 q hq).2⟩
  · rw [h4]; intro hmode q hq; exact hmono _ (t10 hmode q hq)

theorem BInv_addVariantType {mode : MapMode} {b : Backend} {cur elem : Nat} {t v : String}
    {b' : Backend} (hb : BInv mode b cur) (hm : elem ∈ typeIds b)
    (h : addVariantType b elem t v = .ok b') : BInv mode b' cur := by
  obtain ⟨hbnd, hpw, t1, t2, t3, t4, t5, t6, t7, t8, t9, t10⟩ := hb
  obtain ⟨⟨syms, hvar⟩, htyIds, -, h1, h2, h3, h4, h5, h6, h7, h8, h9⟩ := addVariantType_ok h
  have hmono : ∀ e ∈ typeIds b, e ∈ typeIds b' := by intro e he; rw [htyIds]; exact he
  refine ⟨by rw [htyIds]; exact hbnd, by rw [htyIds]; exact hpw,
    ?_, ?_, ?_, ?_, ?_, ?_, ?_, ?_, ?_, ?_⟩
  · rw [h1]; intro e he; exact hmono e (t1 e he)
  · rw [h2]; intro e he; exact hmono e (t2 e he)
  · rw [h3]; intro e he; exact hmono e (t3 e he)
  · rw [h5]; intro e he; exact hmono e (t4 e he)
  · rw [hvar]
    intro e he
    simp only [List.map_append, List.mem_append] at he
    rcases he with he | he
    · exact hmono e (t5 e he)
    · simp at he; subst he; exact hmono _ hm
  · rw [h6]; intro q hq; exact ⟨hmono _ (t6 q hq).1, hmono _ (t6 q hq).2⟩
  · rw [h7]; intro q hq; exact ⟨hmono _ (t7 q hq).1, hmono _ (t7 q hq).2⟩
  · rw [h8]; intro q hq; exact ⟨hmono _ (t8 q hq).1, hmono _ (t8 q hq).2⟩
  · rw [h4]; intro q hq; exact ⟨hmono _ (t9 q hq).1, hmono _ (t9 q hq).2⟩
  · rw [h4]; intro hmode q hq; exact hmono _ (t10 hmode q hq)

theorem BInv_addStructEntry {mode : MapMode} {b : Backend} {cur elem : Nat} {k : String}
    {v : Nat} {b' : Backend} (hb : BInv mode b cur) (hm : elem ∈ typeIds b)
    (hv : v ∈ typeIds b) (h : addStructEntry b elem k v = .ok b') : BInv mode b' cur := by
  obtain ⟨hbnd, hpw, t1, t2, t3, t4, t5, t6, t7, t8, t9, t10⟩ := hb
  obtain ⟨⟨sym, hstr⟩, htyIds, -, h1, h2, h3, h4, h5, h6, h7, h8, h9⟩ := addStructEntry_ok h
  have hmono : ∀ e ∈ typeIds b, e ∈ typeIds b' := by intro e he; rw [htyIds]; exact he
  refine ⟨by rw [htyIds]; exact hbnd, by rw [htyIds]; exact hpw,
    ?_, ?_, ?_, ?_, ?_, ?_, ?_, ?_, ?_, ?_⟩
  · rw [h1]; intro e he; exact hmono e (t1 e he)
  · rw [h2]; intro e he; exact hmono e (t2 e he)
  · rw [h3]; intro e he; exact hmono e (t3 e he)
  · rw [h5]; intro e he; exact hmono e (t4 e he)
  · rw [h7]; intro e he; exact hmono e (t5 e he)
  · rw [hstr]
    intro q hq
    rcases List.mem_append.mp hq with hq | hq
    · exact ⟨hmono _ (t6 q hq).1, hmono _ (t6 q hq).2⟩
    · simp at hq; subst hq; exact ⟨hmono _ hm, hmono _ hv⟩
  · rw [h6]; intro q hq; exact ⟨hmono _ (t7 q hq).1, hmono _ (t7 q hq).2⟩
  · rw [h8]; intro q hq; exact ⟨hmono _ (t8 q hq).1, hmono _ (t8 q hq).2⟩
  · rw [h4]; intro q hq; exact ⟨hmono _ (t9 q hq).1, hmono _ (t9 q hq).2⟩
  · rw [h4]; intro hmode q hq; exact hmono _ (t10 hmode q hq)

theorem BInv_addSeqEntry {mode : MapMode} {b : Backend} {cur elem p v : Nat} {b' : Backend}
    (hb : BInv mode b cur) (hm : elem ∈ typeIds b) (hv : v ∈ typeIds b)
    (h : addSeqEntry b elem p v = .ok b') : BInv mode b' cur := by
  obtain ⟨-, rfl⟩ := addSeqEntry_ok h
  obtain ⟨hbnd, hpw, t1, t2, t3, t4, t5, t6, t7, t8, t9, t10⟩ := hb
  refine ⟨hbnd, hpw, t1, t2, t3, t4, t5, t6, ?_, t8, t9, t10⟩
  intro q hq
  rcases List.mem_append.mp hq with hq | hq
  · exact t7 q hq
  · simp at hq; subst hq; exact ⟨hm, hv⟩

theorem BInv_addTupleEntry {mode : MapMode} {b : Backend} {cur elem p v : Nat} {b' : Backend}
    (hb : BInv mode b cur) (hm : elem ∈ typeIds b) (hv : v ∈ typeIds b)
    (h : addTupleEntry b elem p v = .ok b') : BInv mode b' cur := by
  obtain ⟨-, rfl⟩ := addTupleEntry_ok h
  obtain ⟨hbnd, hpw, t1, t2, t3, t4, t5, t6, t7, t8, t9, t10⟩ := hb
  refine ⟨hbnd, hpw, t1, t2, t3, t4, t5, t6, t7, ?_, t9, t10⟩
  intro q hq
  rcases List.mem_append.mp hq with hq | hq
  · exact t8 q hq
  · simp at hq; subst hq; exact ⟨hm, hv⟩

theorem BInv_entryFor {mode : MapMode} {et : ElemType} {b : Backend} {cur elem p v : Nat}
    {b' : Backend} (hb : BInv mode b cur) (hm : elem ∈ typeIds b) (hv : v ∈ typeIds b)
    (h : entryFor et b elem p v = .ok b') : BInv mode b' cur := by
  unfold entryFor at h
  split at h
  all_goals first
    | exact BInv_addSeqEntry hb hm hv h
    | exact BInv_addTupleEntry hb hm hv h
    | exact absurd h (by simp)

theorem BInv_addMapEntry {mode : MapMode} {b : Backend} {cur elem k v : Nat} {b' : Backend}
    (hb : BInv mode b cur) (hm : elem ∈ typeIds b) (hv : v ∈ typeIds b)
    (hk : mode = .elemKey → k ∈ typeIds b)
    (h : addMapEntry mode b elem k v = .ok b') : BInv mode b' cur := by
  obtain ⟨hbnd, hpw, t1, t2, t3, t4, t5, t6, t7, t8, t9, t10⟩ := hb
  cases mode with
  | elemKey =>
      obtain ⟨-, rfl⟩ := addMapEntry_elemKey_ok h
      refine ⟨hbnd, hpw, t1, t2, t3, t4, t5, t6, t7, t8, ?_, ?_⟩
      · intro q hq
        rcases List.mem_append.mp hq with hq | hq
        · exact t9 q hq
        · simp at hq; subst hq; exact ⟨hm, hv⟩
      · intro hmode q hq
        rcases List.mem_append.mp hq with hq | hq
        · exact t10 hmode q hq
        · simp at hq; subst hq; exact hk rfl
  | stringKey =>
      obtain ⟨⟨sym, -, hmap⟩, hstr, htyIds, -, h1, h2, h4, h5, h6, h7, h8, h9⟩ :=
        addMapEntry_stringKey_ok h
      have hmono : ∀ e ∈ typeIds b, e ∈ typeIds b' := by intro e he; rw [htyIds]; exact he
      refine ⟨by rw [htyIds]; exact hbnd, by rw [htyIds]; exact hpw,
        ?_, ?_, ?_, ?_, ?_, ?_, ?_, ?_, ?_, ?_⟩
      · rw [h1]; intro e he; exact hmono e (t1 e he)
      · rw [h2]; intro e he; exact hmono e (t2 e he)
      · rw [hstr]
        intro e he
        have : e ∈ b.data.stringTable.map Prod.fst := by
          obtain ⟨q, hq, rfl⟩ := List.mem_map.mp he
          exact List.mem_map_of_mem _ (List.mem_of_mem_filter hq)
        exact hmono e (t3 e this)
      · rw [h4]; intro e he; exact hmono e (t4 e he)
      · rw [h7]; intro e he; exact hmono e (t5 e he)
      · rw [h5]; intro q hq; exact ⟨hmono _ (t6 q hq).1, hmono _ (t6 q hq).2⟩
      · rw [h6]; intro q hq; exact ⟨hmono _ (t7 q hq).1, hmono _ (t7 q hq).2⟩
      · rw [h8]; intro q hq; exact ⟨hmono _ (t8 q hq).1, hmono _ (t8 q hq).2⟩
      · rw [hmap]
        intro q hq
        rcases List.mem_append.mp hq with hq | hq
        · exact ⟨hmono _ (t9 q hq).1, hmono _ (t9 q hq).2⟩
        · simp at hq; subst hq; exact ⟨hmono _ hm, hmono _ hv⟩
      · intro hmode; cases hmode

/-! ## Utilities for allocation windows and invariant transport -/

theorem addsOf_of_trace {s s' : ExtState} {l : List Nat}
    (h : s'.allocTrace = s.allocTrace ++ l) : addsOf s s' = l := by
  show s'.allocTrace.drop s.allocTrace.length = l
  rw [h, List.drop_left]

theorem addsOf_split {s s1 s2 : ExtState} (h1 : Steps s s1) (h2 : Steps s1 s2) :
    addsOf s s2 = addsOf s s1 ++ addsOf s1 s2 := by
  refine addsOf_of_trace ?_
  rw [h2.2.1, h1.2.1]
  simp

theorem mem_addsOf_left {s s1 s2 : ExtState} {e : Nat} (h1 : Steps s s1) (h2 : Steps s1 s2)
    (he : e ∈ addsOf s s1) : e ∈ addsOf s s2 := by
  rw [addsOf_split h1 h2]
  exact List.mem_append_left _ he

theorem mem_addsOf_right {s s1 s2 : ExtState} {e : Nat} (h1 : Steps s s1) (h2 : Steps s1 s2)
    (he : e ∈ addsOf s1 s2) : e ∈ addsOf s s2 := by
  rw [addsOf_split h1 h2]
  exact List.mem_append_right _ he

theorem mem_typeIds_steps {s s' : ExtState} {e : Nat} (h : Steps s s')
    (he : e ∈ typeIds s.backend) : e ∈ typeIds s'.backend := by
  rw [h.2.2.2.2]
  exact List.mem_append_left _ he

/-- `Steps` for arbitrary sub-runs, packaged from the master trace lemma. -/
theorem steps_ser {mode : MapMode} {v : Value} {s s' : ExtState} {r : Except ExtErr Nat}
    (h : ser mode v s = (s', r)) : Steps s s' :=
  (stepsOfSer mode (sizeOf v)).1 v s s' r (le_refl _) h

theorem steps_serFields {mode : MapMode} {fs : FieldList} {s s' : ExtState}
    {r : Except ExtErr Unit} (h : serFields mode fs s = (s', r)) : Steps s s' :=
  (stepsOfSer mode (sizeOf fs)).2.1 fs s s' r (le_refl _) h

theorem steps_serMapEntries {mode : MapMode} {es : EntryList} {s s' : ExtState}
    {r : Except ExtErr Unit} (h : serMapEntries mode es s = (s', r)) : Steps s s' :=
  (stepsOfSer mode (sizeOf es)).2.2.1 es s s' r (le_refl _) h

theorem steps_serMapEntry {mode : MapMode} {k v : Value} {s s' : ExtState}
    {r : Except ExtErr Unit} (h : serMapEntry mode k v s = (s', r)) : Steps s s' :=
  (stepsOfSer mode (sizeOf k + sizeOf v)).2.2.2.1 k v s s' r (le_refl _) h

theorem steps_serElems {mode : MapMode} {et : ElemType} {vs : ValueList} {s s' : ExtState}
    {r : Except ExtErr Unit} (h : serElems mode et vs s = (s', r)) : Steps s s' :=
  (stepsOfSer mode (sizeOf vs)).2.2.2.2 et vs s s' r (le_refl _) h

/-- Rebuild the invariant after a state update whose backend satisfies the
backend invariant and records the same type ids. -/
theorem RunInv_update {mode : MapMode} {s : ExtState} {b2 : Backend} {l : List Nat}
    {p : List (Nat × Nat)} (h : RunInv mode s) (hb : BInv mode b2 s.cur)
    (ht : typeIds b2 = typeIds s.backend)
    (hl : ∀ e ∈ l, e ∈ typeIds s.backend)
    (hp : ∀ q ∈ p, q.1 ∈ typeIds s.backend) :
    RunInv mode { s with elemStack := l, parentStack := p, backend := b2 } := by
  refine ⟨hb, ?_, ?_, h.2.2.2⟩
  · intro e he; rw [ht]; exact hl e he
  · intro q hq; rw [ht]; exact hp q hq

/-- `get_fresh_elem_id` preserves the run invariant. -/
theorem RunInv_getFresh {mode : MapMode} {s : ExtState} {t : ElemType} {s1 : ExtState}
    {id : Nat} (h : getFresh s t = (s1, .ok id)) (hinv : RunInv mode s) :
    RunInv mode s1 := by
  obtain ⟨hid, hcur, htr, hst, hps, hcf, hty, -⟩ := getFresh_ok h
  obtain ⟨hb, hstk, hpar, hone⟩ := hinv
  have hmem : ∀ e ∈ typeIds s.backend, e ∈ typeIds s1.backend := by
    intro e he; rw [hty]; exact List.mem_append_left _ he
  have hmemcur : s.cur ∈ typeIds s1.backend := by rw [hty]; simp
  refine ⟨?_, ?_, ?_, by omega⟩
  · -- backend invariant: replay the branches of get_fresh_elem_id
    unfold getFresh at h
    dsimp only at h
    split at h
    · exact absurd h (by simp)
    · rename_i b1 hadd
      have hb1 : BInv mode b1 (s.cur + 1) := BInv_addElem hb hone hadd
      split at h
      · injection h with h1 h2
        subst h1
        exact hb1
      · split at h
        · exact absurd h (by simp)
        · rename_i b2 hroot
          injection h with h1 h2
          subst h1
          exact BInv_addRootElem hb1 hroot
  · intro e he
    rw [hst] at he
    rcases List.mem_cons.mp he with rfl | he
    · exact hmemcur
    · exact hmem e (hstk e he)
  · intro q hq
    rw [hps] at hq
    exact hmem _ (hpar q hq)

/-- Popping one pushed id off a grown stack. -/
theorem junk_pop {J st : List Nat} {x : Nat} {rest : List Nat}
    (hne : J ≠ []) (heq : J ++ st = x :: rest) :
    ∃ T, J = x :: T ∧ rest = T ++ st := by
  cases J with
  | nil => exact absurd rfl hne
  | cons a t =>
      injection heq with h1 h2
      subst h1
      exact ⟨t, rfl, h2.symm⟩

/-- Popping two pushed ids off a stack grown by two nonempty layers. -/
theorem junk_pop2 {J1 J2 st : List Nat} {x y : Nat} {rest : List Nat}
    (h1 : J1 ≠ []) (h2 : J2 ≠ []) (heq : J1 ++ (J2 ++ st) = x :: y :: rest) :
    ∃ T, rest = T ++ st ∧ ∀ e ∈ T, e ∈ J1 ∨ e ∈ J2 := by
  cases J1 with
  | nil => exact absurd rfl h1
  | cons a t1 =>
      injection heq with ha hrest
      cases t1 with
      | nil =>
          obtain ⟨T, hJ2, hr⟩ := junk_pop h2 (by simpa using hrest)
          exact ⟨T, hr, fun e he => Or.inr (by rw [hJ2]; exact List.mem_cons_of_mem _ he)⟩
      | cons b t1' =>
          injection hrest with hb hrest2
          refine ⟨t1' ++ J2, by rw [← hrest2]; simp, fun e he => ?_⟩
          rcases List.mem_append.mp he with he | he
          · exact Or.inl (by simp [he])
          · exact Or.inr he

/-- `entryFor` never touches the root-elem relation. -/
theorem entryFor_rootElem {et : ElemType} {b : Backend} {p q c : Nat} {b2 : Backend}
    (h : entryFor et b p q c = .ok b2) :
    b2.data.rootElemTable = b.data.rootElemTable := by
  unfold entryFor at h
  split at h
  all_goals first
    | rw [(addSeqEntry_ok h).2]
    | rw [(addTupleEntry_ok h).2]
    | exact absurd h (by simp)

/-- `add_map_entry` never touches the root-elem relation (either flavour). -/
theorem addMapEntry_rootElem {mode : MapMode} {b : Backend} {p k v : Nat} {b2 : Backend}
    (h : addMapEntry mode b p k v = .ok b2) :
    b2.data.rootElemTable = b.data.rootElemTable := by
  cases mode with
  | elemKey => rw [(addMapEntry_elemKey_ok h).2]
  | stringKey => exact (addMapEntry_stringKey_ok h).2.2.2.2.2.2.2.2.2.2.2

/-- Master success-shape lemma: a successful serializer run allocates the
node's own id inside its allocation window, restores the parent stack, grows
the element stack only by freshly allocated ids, consumes the pending file
marker exactly once, orders wrapper and container ids as the allocation
discipline dictates, and preserves the run invariant. -/
theorem serOkOfSer (mode : MapMode) : ∀ n : Nat,
    (∀ v s s' top, sizeOf v ≤ n → ser mode v s = (s', .ok top) → SerOk mode v s s' top) ∧
    (∀ fs s s' u, sizeOf fs ≤ n → serFields mode fs s = (s', .ok u) →
      HelpOk mode s s' ∧ s'.parentStack = s.parentStack) ∧
    (∀ es s s' u, sizeOf es ≤ n → serMapEntries mode es s = (s', .ok u) →
      HelpOk mode s s' ∧ s'.parentStack = s.parentStack) ∧
    (∀ k v s s' u, sizeOf k + sizeOf v ≤ n → serMapEntry mode k v s = (s', .ok u) →
      HelpOk mode s s' ∧ s'.parentStack = s.parentStack) ∧
    (∀ et vs s s' u, sizeOf vs ≤ n → serElems mode et vs s = (s', .ok u) →
      HelpOk mode s s' ∧ ElemsParent s s') := by
  intro n
  induction n using Nat.strong_induction_on with
  | _ n ih =>
    have ihV : ∀ (v : Value), sizeOf v < n →
        ∀ s s' top, ser mode v s = (s', .ok top) → SerOk mode v s s' top :=
      fun v hv s s' top h => (ih (sizeOf v) hv).1 v s s' top (le_refl _) h
    have ihF : ∀ (fs : FieldList), sizeOf fs < n → ∀ s s' u,
        serFields mode fs s = (s', .ok u) →
        HelpOk mode s s' ∧ s'.parentStack = s.parentStack :=
      fun fs hf s s' u h => (ih (sizeOf fs) hf).2.1 fs s s' u (le_refl _) h
    have ihE : ∀ (es : EntryList), sizeOf es < n → ∀ s s' u,
        serMapEntries mode es s = (s', .ok u) →
        HelpOk mode s s' ∧ s'.parentStack = s.parentStack :=
      fun es he s s' u h => (ih (sizeOf es) he).2.2.1 es s s' u (le_refl _) h
    have ihME : ∀ (k v : Value), sizeOf k + sizeOf v < n → ∀ s s' u,
        serMapEntry mode k v s = (s', .ok u) →
        HelpOk mode s s' ∧ s'.parentStack = s.parentStack :=
      fun k v hkv s s' u h => (ih (sizeOf k + sizeOf v) hkv).2.2.2.1 k v s s' u (le_refl _) h
    have ihL : ∀ (et : ElemType) (vs : ValueList), sizeOf vs < n → ∀ s s' u,
        serElems mode et vs s = (s', .ok u) →
        HelpOk mode s s' ∧ ElemsParent s s' :=
      fun et vs hvs s s' u h => (ih (sizeOf vs) hvs).2.2.2.2 et vs s s' u (le_refl _) h
    refine ⟨?_, ?_, ?_, ?_, ?_⟩
    · -- ser
      intro v s s' top hsz h
      cases v with
      | bool value =>
        rw [ser.eq_def] at h
        dsimp only at h
        rcases hg : getFresh s ElemType.Bool with ⟨s1, r1⟩
        rw [hg] at h
        cases r1 with
        | error e => dsimp only at h; cases h
        | ok id =>
          dsimp only at h
          rcases ha : addBool s1.backend id value with e | b2 <;> rw [ha] at h <;>
            dsimp only at h <;> cases h
          obtain ⟨hid, hcur, htr, hst, hps, hcf, hty, -, -, -, -, -, -, -, -, -,
            hrootn, hroots⟩ := getFresh_ok hg
          subst hid
          have hro : b2.data.rootElemTable = s1.backend.data.rootElemTable := by rw [(addBool_ok ha).2]
          have hadds : addsOf s ({ s1 with backend := b2 } : ExtState) = [s.cur] :=
            addsOf_of_trace (by dsimp only; rw [htr])
          refine ⟨le_refl _, by dsimp only; omega, by dsimp only; rw [hps],
            ⟨[s.cur], by dsimp only; rw [hst]; rfl, by simp, ?_⟩,
            by dsimp only; rw [hcf], ?_, ?_, ?_, ?_, ?_, ?_, ?_⟩
          · intro e he
            simp at he
            subst he
            rw [hadds]
            simp
          · intro hnone
            dsimp only
            rw [hro]
            exact hrootn hnone
          · intro f hf
            dsimp only
            rw [hro]
            obtain ⟨fsym, hr⟩ := hroots f hf
            exact ⟨fsym, hr⟩
          · intro hx; simp [Value.isContainer] at hx
          · intro hx; simp [Value.isWrapper] at hx
          · intro a b heq; exact absurd heq (by simp)
          · intro a b c heq; exact absurd heq (by simp)
          · intro hinv
            have h1 := RunInv_getFresh hg hinv
            have hmem : s.cur ∈ typeIds s1.backend := by rw [hty]; simp
            exact RunInv_update h1 (BInv_addBool h1.1 hmem ha) (typeIds_addBool ha)
              h1.2.1 h1.2.2.1
      | i64 value =>
        rw [ser.eq_def] at h
        dsimp only at h
        rcases hg : getFresh s ElemType.I64 with ⟨s1, r1⟩
        rw [hg] at h
        cases r1 with
        | error e => dsimp only at h; cases h
        | ok id =>
          dsimp only at h
          rcases ha : addI64 s1.backend id value with e | b2 <;> rw [ha] at h <;>
            dsimp only at h <;> cases h
          obtain ⟨hid, hcur, htr, hst, hps, hcf, hty, -, -, -, -, -, -, -, -, -,
            hrootn, hroots⟩ := getFresh_ok hg
          subst hid
          have hro : b2.data.rootElemTable = s1.backend.data.rootElemTable := by rw [(addI64_ok ha).2]
          have hadds : addsOf s ({ s1 with backend := b2 } : ExtState) = [s.cur] :=
            addsOf_of_trace (by dsimp only; rw [htr])
          refine ⟨le_refl _, by dsimp only; omega, by dsimp only; rw [hps],
            ⟨[s.cur], by dsimp only; rw [hst]; rfl, by simp, ?_⟩,
            by dsimp only; rw [hcf], ?_, ?_, ?_, ?_, ?_, ?_, ?_⟩
          · intro e he
            simp at he
            subst he
            rw [hadds]
            simp
          · intro hnone
            dsimp only
            rw [hro]
            exact hrootn hnone
          · intro f hf
            dsimp only
            rw [hro]
            obtain ⟨fsym, hr⟩ := hroots f hf
            exact ⟨fsym, hr⟩
          · intro hx; simp [Value.isContainer] at hx
          · intro hx; simp [Value.isWrapper] at hx
          · intro a b heq; exact absurd heq (by simp)
          · intro a b c heq; exact absurd heq (by simp)
          · intro hinv
            have h1 := RunInv_getFresh hg hinv
            have hmem : s.cur ∈ typeIds s1.backend := by rw [hty]; simp
            exact RunInv_update h1 (BInv_addI64 h1.1 hmem ha) (typeIds_addI64 ha)
              h1.2.1 h1.2.2.1
      | str value =>
        rw [ser.eq_def] at h
        dsimp only at h
        rcases hg : getFresh s ElemType.Str with ⟨s1, r1⟩
        rw [hg] at h
        cases r1 with
        | error e => dsimp only at h; cases h
        | ok id =>
          dsimp only at h
          rcases ha : addStr s1.backend id value with e | b2 <;> rw [ha] at h <;>
            dsimp only at h <;> cases h
          obtain ⟨hid, hcur, htr, hst, hps, hcf, hty, -, -, -, -, -, -, -, -, -,
            hrootn, hroots⟩ := getFresh_ok hg
          subst hid
          have hro : b2.data.rootElemTable = s1.backend.data.rootElemTable := (addStr_ok ha).2.2.2.2.2.2.2.2.2.2.2.2
          have hadds : addsOf s ({ s1 with backend := b2 } : ExtState) = [s.cur] :=
            addsOf_of_trace (by dsimp only; rw [htr])
          refine ⟨le_refl _, by dsimp only; omega, by dsimp only; rw [hps],
            ⟨[s.cur], by dsimp only; rw [hst]; rfl, by simp, ?_⟩,
            by dsimp only; rw [hcf], ?_, ?_, ?_, ?_, ?_, ?_, ?_⟩
          · intro e he
            simp at he
            subst he
            rw [hadds]
            simp
          · intro hnone
            dsimp only
            rw [hro]
            exact hrootn hnone
          · intro f hf
            dsimp only
            rw [hro]
            obtain ⟨fsym, hr⟩ := hroots f hf
            exact ⟨fsym, hr⟩
          · intro hx; simp [Value.isContainer] at hx
          · intro hx; simp [Value.isWrapper] at hx
          · intro a b heq; exact absurd heq (by simp)
          · intro a b c heq; exact absurd heq (by simp)
          · intro hinv
            have h1 := RunInv_getFresh hg hinv
            have hmem : s.cur ∈ typeIds s1.backend := by rw [hty]; simp
            exact RunInv_update h1 (BInv_addStr h1.1 hmem ha) (typeIds_addStr ha)
              h1.2.1 h1.2.2.1
      | f32 =>
        rw [ser.eq_def] at h
        dsimp only at h
        rcases hg : getFresh s ElemType.F32 with ⟨s1, r1⟩
        rw [hg] at h
        cases r1 with
        | error e => dsimp only at h; cases h
        | ok id =>
          exact absurd hg (by
            unfold getFresh addElem
            dsimp only
            simp [elemTypeName])
      | f64 =>
        rw [ser.eq_def] at h
        dsimp only at h
        rcases hg : getFresh s ElemType.F64 with ⟨s1, r1⟩
        rw [hg] at h
        cases r1 with
        | error e => dsimp only at h; cases h
        | ok id =>
          exact absurd hg (by
            unfold getFresh addElem
            dsimp only
            simp [elemTypeName])
      | bytes =>
        rw [ser.eq_def] at h
        dsimp only at h
        rcases hg : getFresh s ElemType.Bytes with ⟨s1, r1⟩
        rw [hg] at h
        cases r1 with
        | error e => dsimp only at h; cases h
        | ok id =>
          exact absurd hg (by
            unfold getFresh addElem
            dsimp only
            simp [elemTypeName])
      | unit =>
        rw [ser.eq_def] at h
        dsimp only at h
        obtain ⟨hid, hcur, htr, hst, hps, hcf, hty, -, -, -, -, -, -, -, -, -,
          hrootn, hroots⟩ := getFresh_ok h
        subst hid
        have hadds : addsOf s s' = [s.cur] := addsOf_of_trace htr
        refine ⟨le_refl _, by omega, hps, ⟨[s.cur], by rw [hst]; rfl, by simp, ?_⟩,
          hcf, hrootn, hroots, ?_, ?_, ?_, ?_, ?_⟩
        · intro e he
          simp at he
          subst he
          rw [hadds]
          simp
        · intro hx; simp [Value.isContainer] at hx
        · intro hx; simp [Value.isWrapper] at hx
        · intro a b heq; exact absurd heq (by simp)
        · intro a b c heq; exact absurd heq (by simp)
        · intro hinv
          exact RunInv_getFresh h hinv
      | unitStruct name =>
        rw [ser.eq_def] at h
        dsimp only at h
        rcases hg : getFresh s ElemType.UnitStruct with ⟨s1, r1⟩
        rw [hg] at h
        cases r1 with
        | error e => dsimp only at h; cases h
        | ok id =>
          dsimp only at h
          rcases ha : addStructType s1.backend id name with e | b2 <;> rw [ha] at h <;>
            dsimp only at h <;> cases h
          obtain ⟨hid, hcur, htr, hst, hps, hcf, hty, -, -, -, -, -, -, -, -, -,
            hrootn, hroots⟩ := getFresh_ok hg
          subst hid
          have hro : b2.data.rootElemTable = s1.backend.data.rootElemTable := (addStructType_ok ha).2.2.2.2.2.2.2.2.2.2.2.2
          have hadds : addsOf s ({ s1 with backend := b2 } : ExtState) = [s.cur] :=
            addsOf_of_trace (by dsimp only; rw [htr])
          refine ⟨le_refl _, by dsimp only; omega, by dsimp only; rw [hps],
            ⟨[s.cur], by dsimp only; rw [hst]; rfl, by simp, ?_⟩,
            by dsimp only; rw [hcf], ?_, ?_, ?_, ?_, ?_, ?_, ?_⟩
          · intro e he
            simp at he
            subst he
            rw [hadds]
            simp
          · intro hnone
            dsimp only
            rw [hro]
            exact hrootn hnone
          · intro f hf
            dsimp only
            rw [hro]
            obtain ⟨fsym, hr⟩ := hroots f hf
            exact ⟨fsym, hr⟩
          · intro hx; simp [Value.isContainer] at hx
          · intro hx; simp [Value.isWrapper] at hx
          · intro a b heq; exact absurd heq (by simp)
          · intro a b c heq; exact absurd heq (by simp)
          · intro hinv
            have h1 := RunInv_getFresh hg hinv
            have hmem : s.cur ∈ typeIds s1.backend := by rw [hty]; simp
            exact RunInv_update h1 (BInv_addStructType h1.1 hmem ha) (typeIds_addStructType ha)
              h1.2.1 h1.2.2.1
      | unitVariant name variant =>
        rw [ser.eq_def] at h
        dsimp only at h
        rcases hg : getFresh s ElemType.UnitVariant with ⟨s1, r1⟩
        rw [hg] at h
        cases r1 with
        | error e => dsimp only at h; cases h
        | ok id =>
          dsimp only at h
          rcases ha : addVariantType s1.backend id name variant with e | b2 <;> rw [ha] at h <;>
            dsimp only at h <;> cases h
          obtain ⟨hid, hcur, htr, hst, hps, hcf, hty, -, -, -, -, -, -, -, -, -,
            hrootn, hroots⟩ := getFresh_ok hg
          subst hid
          have hro : b2.data.rootElemTable = s1.backend.data.rootElemTable :=
            (addVariantType_ok ha).2.2.2.2.2.2.2.2.2.2.2
          have hadds :
              addsOf s ({ s1 with elemStack := s.cur :: s1.elemStack, backend := b2 } : ExtState) = [s.cur] :=
            addsOf_of_trace (by dsimp only; rw [htr])
          refine ⟨le_refl _, by dsimp only; omega, by dsimp only; rw [hps],
            ⟨[s.cur, s.cur], by dsimp only; rw [hst]; rfl, by simp, ?_⟩,
            by dsimp only; rw [hcf], ?_, ?_, ?_, ?_, ?_, ?_, ?_⟩
          · intro e he
            simp at he
            subst he
            rw [hadds]
            simp
          · intro hnone
            dsimp only
            rw [hro]
            exact hrootn hnone
          · intro f hf
            dsimp only
            rw [hro]
            obtain ⟨fsym, hr⟩ := hroots f hf
            exact ⟨fsym, hr⟩
          · intro hx; simp [Value.isContainer] at hx
          · intro hx; simp [Value.isWrapper] at hx
          · intro a b heq; exact absurd heq (by simp)
          · intro a b c heq; exact absurd heq (by simp)
          · intro hinv
            have h1 := RunInv_getFresh hg hinv
            have hmem : s.cur ∈ typeIds s1.backend := by rw [hty]; simp
            have hsub : ∀ e ∈ s.cur :: s1.elemStack, e ∈ typeIds s1.backend := by
              intro e he
              rcases List.mem_cons.mp he with rfl | he
              · exact hmem
              · exact h1.2.1 e he
            exact RunInv_update h1 (BInv_addVariantType h1.1 hmem ha)
              (typeIds_addVariantType ha) hsub h1.2.2.1
      | newtypeStruct name inner =>
        have hlt : sizeOf inner < n := by simp at hsz; omega
        rw [ser.eq_def] at h
        dsimp only at h
        rcases hinner : ser mode inner s with ⟨s1, r1⟩
        rw [hinner] at h
        cases r1 with
        | error e => dsimp only at h; cases h
        | ok cid =>
          dsimp only at h
          cases hstack : s1.elemStack with
          | nil => rw [hstack] at h; dsimp only at h; cases h
          | cons childId restStack =>
            rw [hstack] at h
            dsimp only at h
            rcases hg : getFresh { s1 with elemStack := restStack } ElemType.NewtypeStruct
              with ⟨s3, r3⟩
            rw [hg] at h
            cases r3 with
            | error e => dsimp only at h; cases h
            | ok id3 =>
              dsimp only at h
              rcases ha : addStructType s3.backend id3 name with e | b4 <;> rw [ha] at h <;>
                dsimp only at h
              · cases h
              · rcases ht : addTupleEntry b4 id3 0 childId with e | b5 <;> rw [ht] at h <;>
                  dsimp only at h <;> cases h
                obtain ⟨hc1, hc2, hcps, ⟨Jc, hJc, hJcne, hJcmem⟩, hccf, hcrn, hcrs,
                  -, -, -, -, hcinv⟩ := ihV inner hlt _ _ _ hinner
                obtain ⟨hid3, hcur3, htr3, hst3, hps3, hcf3, hty3, -, -, -, -, -, -, -, -, -,
                  hrn3, hrs3⟩ := getFresh_ok hg
                dsimp only at hid3 hcur3 htr3 hst3 hps3 hty3 hrn3 hrs3
                subst hid3
                have st1 : Steps s s1 := steps_ser hinner
                have st2 : Steps s1 ({ s1 with elemStack := restStack } : ExtState) :=
                  steps_stack restStack
                have st3 : Steps ({ s1 with elemStack := restStack } : ExtState) s3 :=
                  steps_getFresh hg
                have st4 : Steps s3 ({ s3 with backend := b5 } : ExtState) :=
                  steps_backend (by rw [typeIds_addTupleEntry ht, typeIds_addStructType ha])
                have stR : Steps s1 ({ s3 with backend := b5 } : ExtState) :=
                  steps_trans st2 (steps_trans st3 st4)
                have haddsR : addsOf s1 ({ s3 with backend := b5 } : ExtState) = [s1.cur] :=
                  addsOf_of_trace (by dsimp only; rw [htr3])
                obtain ⟨Jc2, hJchead, hrest⟩ := junk_pop hJcne (by rw [← hJc, hstack])
                have hrootb : b5.data.rootElemTable = s3.backend.data.rootElemTable := by
                  rw [(addTupleEntry_ok ht).2]
                  exact (addStructType_ok ha).2.2.2.2.2.2.2.2.2.2.2.2
                refine ⟨le_trans st1.1 (by (try dsimp only at hcur3 ⊢); omega),
                  by dsimp only; omega, by dsimp only; rw [hps3]; exact hcps,
                  ⟨s1.cur :: Jc2, by (try dsimp only); rw [hst3, hrest]; try simp, by simp, ?_⟩,
                  by dsimp only; exact hcf3, ?_, ?_, ?_, ?_, ?_, ?_, ?_⟩
                · intro e he
                  rcases List.mem_cons.mp he with rfl | he
                  · exact mem_addsOf_right st1 stR (by rw [haddsR]; simp)
                  · refine mem_addsOf_left st1 stR (hJcmem e ?_)
                    rw [hJchead]
                    exact List.mem_cons_of_mem _ he
                · intro hnone
                  try dsimp only
                  rw [hrootb, hrn3 (by (try dsimp only); exact hccf)]
                  try dsimp only
                  exact hcrn hnone
                · intro f hf
                  try dsimp only
                  rw [hrootb, hrn3 (by (try dsimp only); exact hccf)]
                  try dsimp only
                  exact hcrs f hf
                · intro hx; simp [Value.isContainer] at hx
                · intro hx
                  intro e he
                  rw [addsOf_split st1 stR, haddsR] at he
                  rcases List.mem_append.mp he with he | he
                  · have := st1.2.2.1 e he
                    try dsimp only at hcur3
                    omega
                  · simp at he
                    omega
                · intro a b heq
                  injection heq with h1 h2
                  subst h1
                  subst h2
                  exact ⟨s1, cid, hinner, by (try dsimp only at hcur3); omega⟩
                · intro a b c heq; exact absurd heq (by simp)
                · intro hinv
                  have h1 := hcinv hinv
                  have hrsub : ∀ e ∈ restStack, e ∈ typeIds s1.backend := by
                    intro e he
                    exact h1.2.1 e (by rw [hstack]; exact List.mem_cons_of_mem _ he)
                  have h2 : RunInv mode ({ s1 with elemStack := restStack } : ExtState) :=
                    RunInv_update h1 h1.1 rfl hrsub h1.2.2.1
                  have h3 := RunInv_getFresh hg h2
                  have hchild : childId ∈ typeIds s3.backend := by
                    rw [hty3]
                    exact List.mem_append_left _
                      (h1.2.1 childId (by rw [hstack]; simp))
                  have hid3mem : s1.cur ∈ typeIds s3.backend := by rw [hty3]; simp
                  have hb4 := BInv_addStructType h3.1 hid3mem ha
                  have hb5 := BInv_addTupleEntry hb4
                    (by rw [typeIds_addStructType ha]; exact hid3mem)
                    (by rw [typeIds_addStructType ha]; exact hchild) ht
                  exact RunInv_update h3
                    (by first
                        | exact hb5
                        | (rw [show ({ s1 with elemStack := restStack } : ExtState).cur = s1.cur
                              from rfl] at hb5 ⊢
                           exact hb5))
                    (by rw [typeIds_addTupleEntry ht, typeIds_addStructType ha]) h3.2.1 h3.2.2.1
      | newtypeVariant name variant inner =>
        have hlt : sizeOf inner < n := by simp at hsz; omega
        rw [ser.eq_def] at h
        dsimp only at h
        rcases hinner : ser mode inner s with ⟨s1, r1⟩
        rw [hinner] at h
        cases r1 with
        | error e => dsimp only at h; cases h
        | ok cid =>
          dsimp only at h
          cases hstack : s1.elemStack with
          | nil => rw [hstack] at h; dsimp only at h; cases h
          | cons childId restStack =>
            rw [hstack] at h
            dsimp only at h
            rcases hg : getFresh { s1 with elemStack := restStack } ElemType.NewtypeVariant
              with ⟨s3, r3⟩
            rw [hg] at h
            cases r3 with
            | error e => dsimp only at h; cases h
            | ok id3 =>
              dsimp only at h
              rcases ha : addVariantType s3.backend id3 name variant with e | b4 <;> rw [ha] at h <;>
                dsimp only at h
              · cases h
              · rcases ht : addTupleEntry b4 id3 0 childId with e | b5 <;> rw [ht] at h <;>
                  dsimp only at h <;> cases h
                obtain ⟨hc1, hc2, hcps, ⟨Jc, hJc, hJcne, hJcmem⟩, hccf, hcrn, hcrs,
                  -, -, -, -, hcinv⟩ := ihV inner hlt _ _ _ hinner
                obtain ⟨hid3, hcur3, htr3, hst3, hps3, hcf3, hty3, -, -, -, -, -, -, -, -, -,
                  hrn3, hrs3⟩ := getFresh_ok hg
                dsimp only at hid3 hcur3 htr3 hst3 hps3 hty3 hrn3 hrs3
                subst hid3
                have st1 : Steps s s1 := steps_ser hinner
                have st2 : Steps s1 ({ s1 with elemStack := restStack } : ExtState) :=
                  steps_stack restStack
                have st3 : Steps ({ s1 with elemStack := restStack } : ExtState) s3 :=
                  steps_getFresh hg
                have st4 : Steps s3 ({ s3 with backend := b5 } : ExtState) :=
                  steps_backend (by rw [typeIds_addTupleEntry ht, typeIds_addVariantType ha])
                have stR : Steps s1 ({ s3 with backend := b5 } : ExtState) :=
                  steps_trans st2 (steps_trans st3 st4)
                have haddsR : addsOf s1 ({ s3 with backend := b5 } : ExtState) = [s1.cur] :=
                  addsOf_of_trace (by dsimp only; rw [htr3])
                obtain ⟨Jc2, hJchead, hrest⟩ := junk_pop hJcne (by rw [← hJc, hstack])
                have hrootb : b5.data.rootElemTable = s3.backend.data.rootElemTable := by
                  rw [(addTupleEntry_ok ht).2]
                  exact (addVariantType_ok ha).2.2.2.2.2.2.2.2.2.2.2
                refine ⟨le_trans st1.1 (by (try dsimp only at hcur3 ⊢); omega),
                  by dsimp only; omega, by dsimp only; rw [hps3]; exact hcps,
                  ⟨s1.cur :: Jc2, by (try dsimp only); rw [hst3, hrest]; try simp, by simp, ?_⟩,
                  by dsimp only; exact hcf3, ?_, ?_, ?_, ?_, ?_, ?_, ?_⟩
                · intro e he
                  rcases List.mem_cons.mp he with rfl | he
                  · exact mem_addsOf_right st1 stR (by rw [haddsR]; simp)
                  · refine mem_addsOf_left st1 stR (hJcmem e ?_)
                    rw [hJchead]
                    exact List.mem_cons_of_mem _ he
                · intro hnone
                  try dsimp only
                  rw [hrootb, hrn3 (by (try dsimp only); exact hccf)]
                  try dsimp only
                  exact hcrn hnone
                · intro f hf
                  try dsimp only
                  rw [hrootb, hrn3 (by (try dsimp only); exact hccf)]
                  try dsimp only
                  exact hcrs f hf
                · intro hx; simp [Value.isContainer] at hx
                · intro hx
                  intro e he
                  rw [addsOf_split st1 stR, haddsR] at he
                  rcases List.mem_append.mp he with he | he
                  · have := st1.2.2.1 e he
                    try dsimp only at hcur3
                    omega
                  · simp at he
                    omega
                · intro a b heq; exact absurd heq (by simp)
                · intro a b c heq
                  injection heq with h1 h2 h3
                  subst h1
                  subst h2
                  subst h3
                  exact ⟨s1, cid, hinner, by (try dsimp only at hcur3); omega⟩
                · intro hinv
                  have h1 := hcinv hinv
                  have hrsub : ∀ e ∈ restStack, e ∈ typeIds s1.backend := by
                    intro e he
                    exact h1.2.1 e (by rw [hstack]; exact List.mem_cons_of_mem _ he)
                  have h2 : RunInv mode ({ s1 with elemStack := restStack } : ExtState) :=
                    RunInv_update h1 h1.1 rfl hrsub h1.2.2.1
                  have h3 := RunInv_getFresh hg h2
                  have hchild : childId ∈ typeIds s3.backend := by
                    rw [hty3]
                    exact List.mem_append_left _
                      (h1.2.1 childId (by rw [hstack]; simp))
                  have hid3mem : s1.cur ∈ typeIds s3.backend := by rw [hty3]; simp
                  have hb4 := BInv_addVariantType h3.1 hid3mem ha
                  have hb5 := BInv_addTupleEntry hb4
                    (by rw [typeIds_addVariantType ha]; exact hid3mem)
                    (by rw [typeIds_addVariantType ha]; exact hchild) ht
                  exact RunInv_update h3
                    (by first
                        | exact hb5
                        | (rw [show ({ s1 with elemStack := restStack } : ExtState).cur = s1.cur
                              from rfl] at hb5 ⊢
                           exact hb5))
                    (by rw [typeIds_addTupleEntry ht, typeIds_addVariantType ha]) h3.2.1 h3.2.2.1
      | seq vs =>
        have hlt : sizeOf vs < n := by simp at hsz; omega
        rw [ser.eq_def] at h
        dsimp only at h
        rcases hg : getFresh s ElemType.Seq with ⟨s1, r1⟩
        rw [hg] at h
        cases r1 with
        | error e => dsimp only at h; cases h
        | ok id =>
          dsimp only at h
          rcases hl : serElems mode ElemType.Seq vs
              { s1 with parentStack := (id, 0) :: s1.parentStack } with ⟨s3, r3⟩
          rw [hl] at h
          cases r3 with
          | error e => dsimp only at h; cases h
          | ok u =>
            dsimp only at h
            rcases hp : endParent s3 with ⟨s4, r4⟩
            rw [hp] at h
            cases r4 with
            | error e => dsimp only at h; cases h
            | ok pid =>
              dsimp only at h
              cases h
              obtain ⟨hid, hcur1, htr1, hst1, hps1, hcf1, hty1, -, -, -, -, -, -, -, -, -,
                hrootn, hroots⟩ := getFresh_ok hg
              subst hid
              obtain ⟨⟨⟨junkH, hJH, hJHmem⟩, hcfH, hinvH⟩, hpar⟩ := ihL ElemType.Seq vs hlt _ _ _ hl
              obtain ⟨m, hp3⟩ := hpar.2 s.cur 0 s1.parentStack rfl
              obtain ⟨pos, rest, hpeq, hs4⟩ := endParent_ok hp
              subst hs4
              rw [hp3] at hpeq
              injection hpeq with hh1 hh2
              subst hh2
              have st1 : Steps s s1 := steps_getFresh hg
              have st2 : Steps s1 ({ s1 with parentStack := (s.cur, 0) :: s1.parentStack } : ExtState) :=
                steps_parent _
              have stH : Steps ({ s1 with parentStack := (s.cur, 0) :: s1.parentStack } : ExtState) s3 :=
                steps_serElems hl
              have st4 : Steps s3 ({ s3 with parentStack := s1.parentStack } : ExtState) :=
                steps_parent _
              have stA : Steps s ({ s1 with parentStack := (s.cur, 0) :: s1.parentStack } : ExtState) :=
                steps_trans st1 st2
              have stB : Steps s s3 := steps_trans stA stH
              have haddsG : addsOf s s1 = [s.cur] := addsOf_of_trace htr1
              have hJH2 : s3.elemStack = junkH ++ (s.cur :: s.elemStack) := by
                rw [← hst1]; exact hJH
              refine ⟨le_refl _, ?_, by dsimp only; rw [hps1],
                ⟨junkH ++ [s.cur], ?_, by simp, ?_⟩,
                by dsimp only; exact (hcfH hcf1).1, ?_, ?_, fun hx => rfl, ?_, ?_, ?_, ?_⟩
              · have hx := stH.1
                (try dsimp only at hx)
                (try dsimp only)
                omega
              · dsimp only
                rw [hJH2]
                simp
              · intro e he
                rcases List.mem_append.mp he with he | he
                · exact mem_addsOf_left stB st4 (mem_addsOf_right stA stH (hJHmem e he))
                · simp at he
                  subst he
                  exact mem_addsOf_left st1 (steps_trans st2 (steps_trans stH st4))
                    (by rw [haddsG]; simp)
              · intro hnone
                dsimp only
                rw [(hcfH hcf1).2]
                (try dsimp only)
                exact hrootn hnone
              · intro f hf
                dsimp only
                rw [(hcfH hcf1).2]
                (try dsimp only)
                exact hroots f hf
              · intro hx; simp [Value.isWrapper] at hx
              · intro a b heq; exact absurd heq (by simp)
              · intro a b c heq; exact absurd heq (by simp)
              · intro hinv
                have h1 := RunInv_getFresh hg hinv
                have hcurmem : s.cur ∈ typeIds s1.backend := by rw [hty1]; simp
                have hppush : ∀ q ∈ ((s.cur, 0) :: s1.parentStack), q.1 ∈ typeIds s1.backend := by
                  intro q hq
                  rcases List.mem_cons.mp hq with rfl | hq
                  · exact hcurmem
                  · exact h1.2.2.1 q hq
                have h2 : RunInv mode ({ s1 with parentStack := (s.cur, 0) :: s1.parentStack } : ExtState) :=
                  RunInv_update h1 h1.1 rfl h1.2.1 hppush
                have h3 := hinvH h2
                refine RunInv_update h3 h3.1 rfl h3.2.1 ?_
                intro q hq
                exact h3.2.2.1 q (by rw [hp3]; exact List.mem_cons_of_mem _ hq)
      | tuple vs =>
        have hlt : sizeOf vs < n := by simp at hsz; omega
        rw [ser.eq_def] at h
        dsimp only at h
        rcases hg : getFresh s ElemType.Tuple with ⟨s1, r1⟩
        rw [hg] at h
        cases r1 with
        | error e => dsimp only at h; cases h
        | ok id =>
          dsimp only at h
          rcases hl : serElems mode ElemType.Tuple vs
              { s1 with parentStack := (id, 0) :: s1.parentStack } with ⟨s3, r3⟩
          rw [hl] at h
          cases r3 with
          | error e => dsimp only at h; cases h
          | ok u =>
            dsimp only at h
            rcases hp : endParent s3 with ⟨s4, r4⟩
            rw [hp] at h
            cases r4 with
            | error e => dsimp only at h; cases h
            | ok pid =>
              dsimp only at h
              cases h
              obtain ⟨hid, hcur1, htr1, hst1, hps1, hcf1, hty1, -, -, -, -, -, -, -, -, -,
                hrootn, hroots⟩ := getFresh_ok hg
              subst hid
              obtain ⟨⟨⟨junkH, hJH, hJHmem⟩, hcfH, hinvH⟩, hpar⟩ := ihL ElemType.Tuple vs hlt _ _ _ hl
              obtain ⟨m, hp3⟩ := hpar.2 s.cur 0 s1.parentStack rfl
              obtain ⟨pos, rest, hpeq, hs4⟩ := endParent_ok hp
              subst hs4
              rw [hp3] at hpeq
              injection hpeq with hh1 hh2
              subst hh2
              have st1 : Steps s s1 := steps_getFresh hg
              have st2 : Steps s1 ({ s1 with parentStack := (s.cur, 0) :: s1.parentStack } : ExtState) :=
                steps_parent _
              have stH : Steps ({ s1 with parentStack := (s.cur, 0) :: s1.parentStack } : ExtState) s3 :=
                steps_serElems hl
              have st4 : Steps s3 ({ s3 with parentStack := s1.parentStack } : ExtState) :=
                steps_parent _
              have stA : Steps s ({ s1 with parentStack := (s.cur, 0) :: s1.parentStack } : ExtState) :=
                steps_trans st1 st2
              have stB : Steps s s3 := steps_trans stA stH
              have haddsG : addsOf s s1 = [s.cur] := addsOf_of_trace htr1
              have hJH2 : s3.elemStack = junkH ++ (s.cur :: s.elemStack) := by
                rw [← hst1]; exact hJH
              refine ⟨le_refl _, ?_, by dsimp only; rw [hps1],
                ⟨junkH ++ [s.cur], ?_, by simp, ?_⟩,
                by dsimp only; exact (hcfH hcf1).1, ?_, ?_, fun hx => rfl, ?_, ?_, ?_, ?_⟩
              · have hx := stH.1
                (try dsimp only at hx)
                (try dsimp only)
                omega
              · dsimp only
                rw [hJH2]
                simp
              · intro e he
                rcases List.mem_append.mp he with he | he
                · exact mem_addsOf_left stB st4 (mem_addsOf_right stA stH (hJHmem e he))
                · simp at he
                  subst he
                  exact mem_addsOf_left st1 (steps_trans st2 (steps_trans stH st4))
                    (by rw [haddsG]; simp)
              · intro hnone
                dsimp only
                rw [(hcfH hcf1).2]
                (try dsimp only)
                exact hrootn hnone
              · intro f hf
                dsimp only
                rw [(hcfH hcf1).2]
                (try dsimp only)
                exact hroots f hf
              · intro hx; simp [Value.isWrapper] at hx
              · intro a b heq; exact absurd heq (by simp)
              · intro a b c heq; exact absurd heq (by simp)
              · intro hinv
                have h1 := RunInv_getFresh hg hinv
                have hcurmem : s.cur ∈ typeIds s1.backend := by rw [hty1]; simp
                have hppush : ∀ q ∈ ((s.cur, 0) :: s1.parentStack), q.1 ∈ typeIds s1.backend := by
                  intro q hq
                  rcases List.mem_cons.mp hq with rfl | hq
                  · exact hcurmem
                  · exact h1.2.2.1 q hq
                have h2 : RunInv mode ({ s1 with parentStack := (s.cur, 0) :: s1.parentStack } : ExtState) :=
                  RunInv_update h1 h1.1 rfl h1.2.1 hppush
                have h3 := hinvH h2
                refine RunInv_update h3 h3.1 rfl h3.2.1 ?_
                intro q hq
                exact h3.2.2.1 q (by rw [hp3]; exact List.mem_cons_of_mem _ hq)
      | tupleStruct name vs =>
        have hlt : sizeOf vs < n := by simp at hsz; omega
        rw [ser.eq_def] at h
        dsimp only at h
        rcases hg : getFresh s ElemType.TupleStruct with ⟨s1, r1⟩
        rw [hg] at h
        cases r1 with
        | error e => dsimp only at h; cases h
        | ok id =>
          dsimp only at h
          rcases ha : addStructType s1.backend id name with e | b2 <;> rw [ha] at h <;>
            dsimp only at h
          · cases h
          · -- typed container body
            rcases hl : serElems mode ElemType.TupleStruct vs
                { s1 with parentStack := (id, 0) :: s1.parentStack, backend := b2 } with ⟨s3, r3⟩
            rw [hl] at h
            cases r3 with
            | error e => dsimp only at h; cases h
            | ok u =>
              dsimp only at h
              rcases hp : endParent s3 with ⟨s4, r4⟩
              rw [hp] at h
              cases r4 with
              | error e => dsimp only at h; cases h
              | ok pid =>
                dsimp only at h
                cases h
                obtain ⟨hid, hcur1, htr1, hst1, hps1, hcf1, hty1, -, -, -, -, -, -, -, -, -,
                  hrootn, hroots⟩ := getFresh_ok hg
                subst hid
                obtain ⟨⟨⟨junkH, hJH, hJHmem⟩, hcfH, hinvH⟩, hpar⟩ := ihL ElemType.TupleStruct vs hlt _ _ _ hl
                obtain ⟨m, hp3⟩ := hpar.2 s.cur 0 s1.parentStack rfl
                obtain ⟨pos, rest, hpeq, hs4⟩ := endParent_ok hp
                subst hs4
                rw [hp3] at hpeq
                injection hpeq with hh1 hh2
                subst hh2
                have st1 : Steps s s1 := steps_getFresh hg
                have st2 : Steps s1 ({ s1 with parentStack := (s.cur, 0) :: s1.parentStack, backend := b2 } : ExtState) :=
                  steps_update (typeIds_addStructType ha) s1.elemStack ((s.cur, 0) :: s1.parentStack)
                have stH : Steps ({ s1 with parentStack := (s.cur, 0) :: s1.parentStack, backend := b2 } : ExtState) s3 :=
                  steps_serElems hl
                have st4 : Steps s3 ({ s3 with parentStack := s1.parentStack } : ExtState) :=
                  steps_parent _
                have stA : Steps s ({ s1 with parentStack := (s.cur, 0) :: s1.parentStack, backend := b2 } : ExtState) :=
                  steps_trans st1 st2
                have stB : Steps s s3 := steps_trans stA stH
                have haddsG : addsOf s s1 = [s.cur] := addsOf_of_trace htr1
                have hJH2 : s3.elemStack = junkH ++ (s.cur :: s.elemStack) := by
                  rw [← hst1]; exact hJH
                have hroA : b2.data.rootElemTable = s1.backend.data.rootElemTable :=
                  (addStructType_ok ha).2.2.2.2.2.2.2.2.2.2.2.2
                refine ⟨le_refl _, ?_, by dsimp only; rw [hps1],
                  ⟨junkH ++ [s.cur], ?_, by simp, ?_⟩,
                  by dsimp only; exact (hcfH hcf1).1, ?_, ?_, fun hx => rfl, ?_, ?_, ?_, ?_⟩
                · have hx := stH.1
                  (try dsimp only at hx)
                  (try dsimp only)
                  omega
                · dsimp only
                  rw [hJH2]
                  simp
                · intro e he
                  rcases List.mem_append.mp he with he | he
                  · exact mem_addsOf_left stB st4 (mem_addsOf_right stA stH (hJHmem e he))
                  · simp at he
                    subst he
                    exact mem_addsOf_left st1 (steps_trans st2 (steps_trans stH st4))
                      (by rw [haddsG]; simp)
                · intro hnone
                  dsimp only
                  rw [(hcfH hcf1).2]
                  (try dsimp only)
                  rw [hroA]
                  exact hrootn hnone
                · intro f hf
                  dsimp only
                  rw [(hcfH hcf1).2]
                  (try dsimp only)
                  rw [hroA]
                  exact hroots f hf
                · intro hx; simp [Value.isWrapper] at hx
                · intro a b heq; exact absurd heq (by simp)
                · intro a b c heq; exact absurd heq (by simp)
                · intro hinv
                  have h1 := RunInv_getFresh hg hinv
                  have hcurmem : s.cur ∈ typeIds s1.backend := by rw [hty1]; simp
                  have hppush : ∀ q ∈ ((s.cur, 0) :: s1.parentStack), q.1 ∈ typeIds s1.backend := by
                    intro q hq
                    rcases List.mem_cons.mp hq with rfl | hq
                    · exact hcurmem
                    · exact h1.2.2.1 q hq
                  have h2 : RunInv mode ({ s1 with parentStack := (s.cur, 0) :: s1.parentStack, backend := b2 } : ExtState) :=
                    RunInv_update h1 (BInv_addStructType h1.1 hcurmem ha) (typeIds_addStructType ha) h1.2.1 hppush
                  have h3 := hinvH h2
                  refine RunInv_update h3 h3.1 rfl h3.2.1 ?_
                  intro q hq
                  exact h3.2.2.1 q (by rw [hp3]; exact List.mem_cons_of_mem _ hq)
      | tupleVariant name variant vs =>
        have hlt : sizeOf vs < n := by simp at hsz; omega
        rw [ser.eq_def] at h
        dsimp only at h
        rcases hg : getFresh s ElemType.TupleVariant with ⟨s1, r1⟩
        rw [hg] at h
        cases r1 with
        | error e => dsimp only at h; cases h
        | ok id =>
          dsimp only at h
          rcases ha : addVariantType s1.backend id name variant with e | b2 <;> rw [ha] at h <;>
            dsimp only at h
          · cases h
          · -- typed container body
            rcases hl : serElems mode ElemType.TupleVariant vs
                { s1 with parentStack := (id, 0) :: s1.parentStack, backend := b2 } with ⟨s3, r3⟩
            rw [hl] at h
            cases r3 with
            | error e => dsimp only at h; cases h
            | ok u =>
              dsimp only at h
              rcases hp : endParent s3 with ⟨s4, r4⟩
              rw [hp] at h
              cases r4 with
              | error e => dsimp only at h; cases h
              | ok pid =>
                dsimp only at h
                cases h
                obtain ⟨hid, hcur1, htr1, hst1, hps1, hcf1, hty1, -, -, -, -, -, -, -, -, -,
                  hrootn, hroots⟩ := getFresh_ok hg
                subst hid
                obtain ⟨⟨⟨junkH, hJH, hJHmem⟩, hcfH, hinvH⟩, hpar⟩ := ihL ElemType.TupleVariant vs hlt _ _ _ hl
                obtain ⟨m, hp3⟩ := hpar.2 s.cur 0 s1.parentStack rfl
                obtain ⟨pos, rest, hpeq, hs4⟩ := endParent_ok hp
                subst hs4
                rw [hp3] at hpeq
                injection hpeq with hh1 hh2
                subst hh2
                have st1 : Steps s s1 := steps_getFresh hg
                have st2 : Steps s1 ({ s1 with parentStack := (s.cur, 0) :: s1.parentStack, backend := b2 } : ExtState) :=
                  steps_update (typeIds_addVariantType ha) s1.elemStack ((s.cur, 0) :: s1.parentStack)
                have stH : Steps ({ s1 with parentStack := (s.cur, 0) :: s1.parentStack, backend := b2 } : ExtState) s3 :=
                  steps_serElems hl
                have st4 : Steps s3 ({ s3 with parentStack := s1.parentStack } : ExtState) :=
                  steps_parent _
                have stA : Steps s ({ s1 with parentStack := (s.cur, 0) :: s1.parentStack, backend := b2 } : ExtState) :=
                  steps_trans st1 st2
                have stB : Steps s s3 := steps_trans stA stH
                have haddsG : addsOf s s1 = [s.cur] := addsOf_of_trace htr1
                have hJH2 : s3.elemStack = junkH ++ (s.cur :: s.elemStack) := by
                  rw [← hst1]; exact hJH
                have hroA : b2.data.rootElemTable = s1.backend.data.rootElemTable :=
                  (addVariantType_ok ha).2.2.2.2.2.2.2.2.2.2.2
                refine ⟨le_refl _, ?_, by dsimp only; rw [hps1],
                  ⟨junkH ++ [s.cur], ?_, by simp, ?_⟩,
                  by dsimp only; exact (hcfH hcf1).1, ?_, ?_, fun hx => rfl, ?_, ?_, ?_, ?_⟩
                · have hx := stH.1
                  (try dsimp only at hx)
                  (try dsimp only)
                  omega
                · dsimp only
                  rw [hJH2]
                  simp
                · intro e he
                  rcases List.mem_append.mp he with he | he
                  · exact mem_addsOf_left stB st4 (mem_addsOf_right stA stH (hJHmem e he))
                  · simp at he
                    subst he
                    exact mem_addsOf_left st1 (steps_trans st2 (steps_trans stH st4))
                      (by rw [haddsG]; simp)
                · intro hnone
                  dsimp only
                  rw [(hcfH hcf1).2]
                  (try dsimp only)
                  rw [hroA]
                  exact hrootn hnone
                · intro f hf
                  dsimp only
                  rw [(hcfH hcf1).2]
                  (try dsimp only)
                  rw [hroA]
                  exact hroots f hf
                · intro hx; simp [Value.isWrapper] at hx
                · intro a b heq; exact absurd heq (by simp)
                · intro a b c heq; exact absurd heq (by simp)
                · intro hinv
                  have h1 := RunInv_getFresh hg hinv
                  have hcurmem : s.cur ∈ typeIds s1.backend := by rw [hty1]; simp
                  have hppush : ∀ q ∈ ((s.cur, 0) :: s1.parentStack), q.1 ∈ typeIds s1.backend := by
                    intro q hq
                    rcases List.mem_cons.mp hq with rfl | hq
                    · exact hcurmem
                    · exact h1.2.2.1 q hq
                  have h2 : RunInv mode ({ s1 with parentStack := (s.cur, 0) :: s1.parentStack, backend := b2 } : ExtState) :=
                    RunInv_update h1 (BInv_addVariantType h1.1 hcurmem ha) (typeIds_addVariantType ha) h1.2.1 hppush
                  have h3 := hinvH h2
                  refine RunInv_update h3 h3.1 rfl h3.2.1 ?_
                  intro q hq
                  exact h3.2.2.1 q (by rw [hp3]; exact List.mem_cons_of_mem _ hq)
      | map entries =>
        have hlt : sizeOf entries < n := by simp at hsz; omega
        rw [ser.eq_def] at h
        dsimp only at h
        rcases hg : getFresh s ElemType.Map with ⟨s1, r1⟩
        rw [hg] at h
        cases r1 with
        | error e => dsimp only at h; cases h
        | ok id =>
          dsimp only at h
          rcases hl : serMapEntries mode entries
              { s1 with parentStack := (id, 0) :: s1.parentStack } with ⟨s3, r3⟩
          rw [hl] at h
          cases r3 with
          | error e => dsimp only at h; cases h
          | ok u =>
            dsimp only at h
            rcases hp : endParent s3 with ⟨s4, r4⟩
            rw [hp] at h
            cases r4 with
            | error e => dsimp only at h; cases h
            | ok pid =>
              dsimp only at h
              cases h
              obtain ⟨hid, hcur1, htr1, hst1, hps1, hcf1, hty1, -, -, -, -, -, -, -, -, -,
                hrootn, hroots⟩ := getFresh_ok hg
              subst hid
              obtain ⟨⟨⟨junkH, hJH, hJHmem⟩, hcfH, hinvH⟩, hparEq⟩ := ihE entries hlt _ _ _ hl
              have hp3 : s3.parentStack = (s.cur, 0) :: s1.parentStack := hparEq
              obtain ⟨pos, rest, hpeq, hs4⟩ := endParent_ok hp
              subst hs4
              rw [hp3] at hpeq
              injection hpeq with hh1 hh2
              subst hh2
              have st1 : Steps s s1 := steps_getFresh hg
              have st2 : Steps s1 ({ s1 with parentStack := (s.cur, 0) :: s1.parentStack } : ExtState) :=
                steps_parent _
              have stH : Steps ({ s1 with parentStack := (s.cur, 0) :: s1.parentStack } : ExtState) s3 :=
                steps_serMapEntries hl
              have st4 : Steps s3 ({ s3 with parentStack := s1.parentStack } : ExtState) :=
                steps_parent _
              have stA : Steps s ({ s1 with parentStack := (s.cur, 0) :: s1.parentStack } : ExtState) :=
                steps_trans st1 st2
              have stB : Steps s s3 := steps_trans stA stH
              have haddsG : addsOf s s1 = [s.cur] := addsOf_of_trace htr1
              have hJH2 : s3.elemStack = junkH ++ (s.cur :: s.elemStack) := by
                rw [← hst1]; exact hJH
              refine ⟨le_refl _, ?_, by dsimp only; rw [hps1],
                ⟨junkH ++ [s.cur], ?_, by simp, ?_⟩,
                by dsimp only; exact (hcfH hcf1).1, ?_, ?_, fun hx => rfl, ?_, ?_, ?_, ?_⟩
              · have hx := stH.1
                (try dsimp only at hx)
                (try dsimp only)
                omega
              · dsimp only
                rw [hJH2]
                simp
              · intro e he
                rcases List.mem_append.mp he with he | he
                · exact mem_addsOf_left stB st4 (mem_addsOf_right stA stH (hJHmem e he))
                · simp at he
                  subst he
                  exact mem_addsOf_left st1 (steps_trans st2 (steps_trans stH st4))
                    (by rw [haddsG]; simp)
              · intro hnone
                dsimp only
                rw [(hcfH hcf1).2]
                (try dsimp only)
                exact hrootn hnone
              · intro f hf
                dsimp only
                rw [(hcfH hcf1).2]
                (try dsimp only)
                exact hroots f hf
              · intro hx; simp [Value.isWrapper] at hx
              · intro a b heq; exact absurd heq (by simp)
              · intro a b c heq; exact absurd heq (by simp)
              · intro hinv
                have h1 := RunInv_getFresh hg hinv
                have hcurmem : s.cur ∈ typeIds s1.backend := by rw [hty1]; simp
                have hppush : ∀ q ∈ ((s.cur, 0) :: s1.parentStack), q.1 ∈ typeIds s1.backend := by
                  intro q hq
                  rcases List.mem_cons.mp hq with rfl | hq
                  · exact hcurmem
                  · exact h1.2.2.1 q hq
                have h2 : RunInv mode ({ s1 with parentStack := (s.cur, 0) :: s1.parentStack } : ExtState) :=
                  RunInv_update h1 h1.1 rfl h1.2.1 hppush
                have h3 := hinvH h2
                refine RunInv_update h3 h3.1 rfl h3.2.1 ?_
                intro q hq
                exact h3.2.2.1 q (by rw [hp3]; exact List.mem_cons_of_mem _ hq)
      | struct name fields =>
        have hlt : sizeOf fields < n := by simp at hsz; omega
        rw [ser.eq_def] at h
        dsimp only at h
        rcases hg : getFresh s ElemType.Struct with ⟨s1, r1⟩
        rw [hg] at h
        cases r1 with
        | error e => dsimp only at h; cases h
        | ok id =>
          dsimp only at h
          rcases ha : addStructType s1.backend id name with e | b2 <;> rw [ha] at h <;>
            dsimp only at h
          · cases h
          · -- typed container body
            rcases hl : serFields mode fields
                { s1 with parentStack := (id, 0) :: s1.parentStack, backend := b2 } with ⟨s3, r3⟩
            rw [hl] at h
            cases r3 with
            | error e => dsimp only at h; cases h
            | ok u =>
              dsimp only at h
              rcases hp : endParent s3 with ⟨s4, r4⟩
              rw [hp] at h
              cases r4 with
              | error e => dsimp only at h; cases h
              | ok pid =>
                dsimp only at h
                cases h
                obtain ⟨hid, hcur1, htr1, hst1, hps1, hcf1, hty1, -, -, -, -, -, -, -, -, -,
                  hrootn, hroots⟩ := getFresh_ok hg
                subst hid
                obtain ⟨⟨⟨junkH, hJH, hJHmem⟩, hcfH, hinvH⟩, hparEq⟩ := ihF fields hlt _ _ _ hl
                have hp3 : s3.parentStack = (s.cur, 0) :: s1.parentStack := hparEq
                obtain ⟨pos, rest, hpeq, hs4⟩ := endParent_ok hp
                subst hs4
                rw [hp3] at hpeq
                injection hpeq with hh1 hh2
                subst hh2
                have st1 : Steps s s1 := steps_getFresh hg
                have st2 : Steps s1 ({ s1 with parentStack := (s.cur, 0) :: s1.parentStack, backend := b2 } : ExtState) :=
                  steps_update (typeIds_addStructType ha) s1.elemStack ((s.cur, 0) :: s1.parentStack)
                have stH : Steps ({ s1 with parentStack := (s.cur, 0) :: s1.parentStack, backend := b2 } : ExtState) s3 :=
                  steps_serFields hl
                have st4 : Steps s3 ({ s3 with parentStack := s1.parentStack } : ExtState) :=
                  steps_parent _
                have stA : Steps s ({ s1 with parentStack := (s.cur, 0) :: s1.parentStack, backend := b2 } : ExtState) :=
                  steps_trans st1 st2
                have stB : Steps s s3 := steps_trans stA stH
                have haddsG : addsOf s s1 = [s.cur] := addsOf_of_trace htr1
                have hJH2 : s3.elemStack = junkH ++ (s.cur :: s.elemStack) := by
                  rw [← hst1]; exact hJH
                have hroA : b2.data.rootElemTable = s1.backend.data.rootElemTable :=
                  (addStructType_ok ha).2.2.2.2.2.2.2.2.2.2.2.2
                refine ⟨le_refl _, ?_, by dsimp only; rw [hps1],
                  ⟨junkH ++ [s.cur], ?_, by simp, ?_⟩,
                  by dsimp only; exact (hcfH hcf1).1, ?_, ?_, fun hx => rfl, ?_, ?_, ?_, ?_⟩
                · have hx := stH.1
                  (try dsimp only at hx)
                  (try dsimp only)
                  omega
                · dsimp only
                  rw [hJH2]
                  simp
                · intro e he
                  rcases List.mem_append.mp he with he | he
                  · exact mem_addsOf_left stB st4 (mem_addsOf_right stA stH (hJHmem e he))
                  · simp at he
                    subst he
                    exact mem_addsOf_left st1 (steps_trans st2 (steps_trans stH st4))
                      (by rw [haddsG]; simp)
                · intro hnone
                  dsimp only
                  rw [(hcfH hcf1).2]
                  (try dsimp only)
                  rw [hroA]
                  exact hrootn hnone
                · intro f hf
                  dsimp only
                  rw [(hcfH hcf1).2]
                  (try dsimp only)
                  rw [hroA]
                  exact hroots f hf
                · intro hx; simp [Value.isWrapper] at hx
                · intro a b heq; exact absurd heq (by simp)
                · intro a b c heq; exact absurd heq (by simp)
                · intro hinv
                  have h1 := RunInv_getFresh hg hinv
                  have hcurmem : s.cur ∈ typeIds s1.backend := by rw [hty1]; simp
                  have hppush : ∀ q ∈ ((s.cur, 0) :: s1.parentStack), q.1 ∈ typeIds s1.backend := by
                    intro q hq
                    rcases List.mem_cons.mp hq with rfl | hq
                    · exact hcurmem
                    · exact h1.2.2.1 q hq
                  have h2 : RunInv mode ({ s1 with parentStack := (s.cur, 0) :: s1.parentStack, backend := b2 } : ExtState) :=
                    RunInv_update h1 (BInv_addStructType h1.1 hcurmem ha) (typeIds_addStructType ha) h1.2.1 hppush
                  have h3 := hinvH h2
                  refine RunInv_update h3 h3.1 rfl h3.2.1 ?_
                  intro q hq
                  exact h3.2.2.1 q (by rw [hp3]; exact List.mem_cons_of_mem _ hq)
      | structVariant name variant fields =>
        have hlt : sizeOf fields < n := by simp at hsz; omega
        rw [ser.eq_def] at h
        dsimp only at h
        rcases hg : getFresh s ElemType.StructVariant with ⟨s1, r1⟩
        rw [hg] at h
        cases r1 with
        | error e => dsimp only at h; cases h
        | ok id =>
          dsimp only at h
          rcases ha : addVariantType s1.backend id name variant with e | b2 <;> rw [ha] at h <;>
            dsimp only at h
          · cases h
          · -- typed container body
            rcases hl : serFields mode fields
                { s1 with parentStack := (id, 0) :: s1.parentStack, backend := b2 } with ⟨s3, r3⟩
            rw [hl] at h
            cases r3 with
            | error e => dsimp only at h; cases h
            | ok u =>
              dsimp only at h
              rcases hp : endParent s3 with ⟨s4, r4⟩
              rw [hp] at h
              cases r4 with
              | error e => dsimp only at h; cases h
              | ok pid =>
                dsimp only at h
                cases h
                obtain ⟨hid, hcur1, htr1, hst1, hps1, hcf1, hty1, -, -, -, -, -, -, -, -, -,
                  hrootn, hroots⟩ := getFresh_ok hg
                subst hid
                obtain ⟨⟨⟨junkH, hJH, hJHmem⟩, hcfH, hinvH⟩, hparEq⟩ := ihF fields hlt _ _ _ hl
                have hp3 : s3.parentStack = (s.cur, 0) :: s1.parentStack := hparEq
                obtain ⟨pos, rest, hpeq, hs4⟩ := endParent_ok hp
                subst hs4
                rw [hp3] at hpeq
                injection hpeq with hh1 hh2
                subst hh2
                have st1 : Steps s s1 := steps_getFresh hg
                have st2 : Steps s1 ({ s1 with parentStack := (s.cur, 0) :: s1.parentStack, backend := b2 } : ExtState) :=
                  steps_update (typeIds_addVariantType ha) s1.elemStack ((s.cur, 0) :: s1.parentStack)
                have stH : Steps ({ s1 with parentStack := (s.cur, 0) :: s1.parentStack, backend := b2 } : ExtState) s3 :=
                  steps_serFields hl
                have st4 : Steps s3 ({ s3 with parentStack := s1.parentStack } : ExtState) :=
                  steps_parent _
                have stA : Steps s ({ s1 with parentStack := (s.cur, 0) :: s1.parentStack, backend := b2 } : ExtState) :=
                  steps_trans st1 st2
                have stB : Steps s s3 := steps_trans stA stH
                have haddsG : addsOf s s1 = [s.cur] := addsOf_of_trace htr1
                have hJH2 : s3.elemStack = junkH ++ (s.cur :: s.elemStack) := by
                  rw [← hst1]; exact hJH
                have hroA : b2.data.rootElemTable = s1.backend.data.rootElemTable :=
                  (addVariantType_ok ha).2.2.2.2.2.2.2.2.2.2.2
                refine ⟨le_refl _, ?_, by dsimp only; rw [hps1],
                  ⟨junkH ++ [s.cur], ?_, by simp, ?_⟩,
                  by dsimp only; exact (hcfH hcf1).1, ?_, ?_, fun hx => rfl, ?_, ?_, ?_, ?_⟩
                · have hx := stH.1
                  (try dsimp only at hx)
                  (try dsimp only)
                  omega
                · dsimp only
                  rw [hJH2]
                  simp
                · intro e he
                  rcases List.mem_append.mp he with he | he
                  · exact mem_addsOf_left stB st4 (mem_addsOf_right stA stH (hJHmem e he))
                  · simp at he
                    subst he
                    exact mem_addsOf_left st1 (steps_trans st2 (steps_trans stH st4))
                      (by rw [haddsG]; simp)
                · intro hnone
                  dsimp only
                  rw [(hcfH hcf1).2]
                  (try dsimp only)
                  rw [hroA]
                  exact hrootn hnone
                · intro f hf
                  dsimp only
                  rw [(hcfH hcf1).2]
                  (try dsimp only)
                  rw [hroA]
                  exact hroots f hf
                · intro hx; simp [Value.isWrapper] at hx
                · intro a b heq; exact absurd heq (by simp)
                · intro a b c heq; exact absurd heq (by simp)
                · intro hinv
                  have h1 := RunInv_getFresh hg hinv
                  have hcurmem : s.cur ∈ typeIds s1.backend := by rw [hty1]; simp
                  have hppush : ∀ q ∈ ((s.cur, 0) :: s1.parentStack), q.1 ∈ typeIds s1.backend := by
                    intro q hq
                    rcases List.mem_cons.mp hq with rfl | hq
                    · exact hcurmem
                    · exact h1.2.2.1 q hq
                  have h2 : RunInv mode ({ s1 with parentStack := (s.cur, 0) :: s1.parentStack, backend := b2 } : ExtState) :=
                    RunInv_update h1 (BInv_addVariantType h1.1 hcurmem ha) (typeIds_addVariantType ha) h1.2.1 hppush
                  have h3 := hinvH h2
                  refine RunInv_update h3 h3.1 rfl h3.2.1 ?_
                  intro q hq
                  exact h3.2.2.1 q (by rw [hp3]; exact List.mem_cons_of_mem _ hq)
    · -- serFields
      intro fs s s' u hsz h
      cases fs with
      | nil =>
        rw [serFields.eq_def] at h
        dsimp only at h
        cases h
        exact ⟨⟨⟨[], by simp, by simp⟩, fun hc => ⟨hc, rfl⟩, fun hi => hi⟩, rfl⟩
      | cons key v rest =>
        have hvlt : sizeOf v < n := by simp at hsz; omega
        have hrlt : sizeOf rest < n := by simp at hsz; omega
        rw [serFields.eq_def] at h
        dsimp only at h
        rcases hv : ser mode v s with ⟨s1, r1⟩
        rw [hv] at h
        cases r1 with
        | error e => dsimp only at h; cases h
        | ok id =>
          dsimp only at h
          cases hp : s1.parentStack with
          | nil => rw [hp] at h; dsimp only at h; cases h
          | cons pr restParents =>
            obtain ⟨parentId, pos⟩ := pr
            rw [hp] at h
            dsimp only at h
            cases hst : s1.elemStack with
            | nil => rw [hst] at h; dsimp only at h; cases h
            | cons valId restStack =>
              rw [hst] at h
              dsimp only at h
              rcases ha : addStructEntry s1.backend parentId key valId with e | b2 <;>
                rw [ha] at h <;> dsimp only at h
              · cases h
              · obtain ⟨hc1, hc2, hcps, ⟨Jv, hJv, hJvne, hJvmem⟩, hccf, hcrn, hcrs,
                  -, -, -, -, hcinv⟩ := ihV v hvlt _ _ _ hv
                obtain ⟨⟨⟨J2, hJ2, hJ2mem⟩, hcf2, hinv2⟩, hps2⟩ := ihF rest hrlt _ _ _ h
                obtain ⟨Tv, hTv, hrestT⟩ := junk_pop hJvne (by rw [← hJv, hst])
                have st1 : Steps s s1 := steps_ser hv
                have st2 : Steps s1 ({ s1 with elemStack := restStack, parentStack := (parentId, pos) :: restParents, backend := b2 } : ExtState) :=
                  steps_update (typeIds_addStructEntry ha) restStack ((parentId, pos) :: restParents)
                have stH : Steps ({ s1 with elemStack := restStack, parentStack := (parentId, pos) :: restParents, backend := b2 } : ExtState) s' :=
                  steps_serFields h
                have stA : Steps s ({ s1 with elemStack := restStack, parentStack := (parentId, pos) :: restParents, backend := b2 } : ExtState) :=
                  steps_trans st1 st2
                have hroA : b2.data.rootElemTable = s1.backend.data.rootElemTable :=
                  (addStructEntry_ok ha).2.2.2.2.2.2.2.2.2.2.2
                refine ⟨⟨⟨J2 ++ Tv, ?_, ?_⟩, ?_, ?_⟩, ?_⟩
                · have hJ2x : s'.elemStack = J2 ++ restStack := hJ2
                  rw [hJ2x, hrestT]
                  simp
                · intro e he
                  rcases List.mem_append.mp he with he | he
                  · exact mem_addsOf_right stA stH (hJ2mem e he)
                  · refine mem_addsOf_left st1 (steps_trans st2 stH) (hJvmem e ?_)
                    rw [hTv]
                    exact List.mem_cons_of_mem _ he
                · intro hc
                  obtain ⟨hcf2a, hro2⟩ := hcf2 hccf
                  refine ⟨hcf2a, ?_⟩
                  rw [hro2]
                  (try dsimp only)
                  rw [hroA]
                  exact hcrn hc
                · intro hinv
                  have h1 := hcinv hinv
                  have hpm : parentId ∈ typeIds s1.backend :=
                    h1.2.2.1 (parentId, pos) (by rw [hp]; simp)
                  have hvm : valId ∈ typeIds s1.backend :=
                    h1.2.1 valId (by rw [hst]; simp)
                  have hrs : ∀ e ∈ restStack, e ∈ typeIds s1.backend := by
                    intro e he
                    exact h1.2.1 e (by rw [hst]; exact List.mem_cons_of_mem _ he)
                  have hpp : ∀ q ∈ ((parentId, pos) :: restParents),
                      q.1 ∈ typeIds s1.backend := by
                    intro q hq
                    exact h1.2.2.1 q (by rw [hp]; exact hq)
                  have h2 : RunInv mode
                      ({ s1 with elemStack := restStack, parentStack := (parentId, pos) :: restParents, backend := b2 } : ExtState) :=
                    RunInv_update h1 (BInv_addStructEntry h1.1 hpm hvm ha)
                      (typeIds_addStructEntry ha) hrs hpp
                  exact hinv2 h2
                · have hps2x : s'.parentStack = (parentId, pos) :: restParents := hps2
                  rw [hps2x, ← hp]
                  exact hcps
    · -- serMapEntries
      intro es s s' u hsz h
      cases es with
      | nil =>
        rw [serMapEntries.eq_def] at h
        dsimp only at h
        cases h
        exact ⟨⟨⟨[], by simp, by simp⟩, fun hc => ⟨hc, rfl⟩, fun hi => hi⟩, rfl⟩
      | cons k v rest =>
        have hklt : sizeOf k + sizeOf v < n := by simp at hsz; omega
        have hrlt : sizeOf rest < n := by simp at hsz; omega
        rw [serMapEntries.eq_def] at h
        dsimp only at h
        rcases hme : serMapEntry mode k v s with ⟨s1, r1⟩
        rw [hme] at h
        cases r1 with
        | error e => dsimp only at h; cases h
        | ok u1 =>
          dsimp only at h
          obtain ⟨⟨⟨J1, hJ1, hJ1mem⟩, hcf1, hinv1⟩, hps1⟩ := ihME k v hklt _ _ _ hme
          obtain ⟨⟨⟨J2, hJ2, hJ2mem⟩, hcf2, hinv2⟩, hps2⟩ := ihE rest hrlt _ _ _ h
          have st1 : Steps s s1 := steps_serMapEntry hme
          have st2 : Steps s1 s' := steps_serMapEntries h
          refine ⟨⟨⟨J2 ++ J1, ?_, ?_⟩, ?_, ?_⟩, ?_⟩
          · rw [hJ2, hJ1]; simp
          · intro e he
            rcases List.mem_append.mp he with he | he
            · exact mem_addsOf_right st1 st2 (hJ2mem e he)
            · exact mem_addsOf_left st1 st2 (hJ1mem e he)
          · intro hc
            obtain ⟨ha1, hr1⟩ := hcf1 hc
            obtain ⟨ha2, hr2⟩ := hcf2 ha1
            exact ⟨ha2, hr2.trans hr1⟩
          · exact fun hi => hinv2 (hinv1 hi)
          · rw [hps2]; exact hps1
    · -- serMapEntry
      intro k v s s' u hsz h
      have hklt : sizeOf k < n := by have := valueSizeOf_pos v; omega
      have hvlt : sizeOf v < n := by have := valueSizeOf_pos k; omega
      rw [serMapEntry.eq_def] at h
      dsimp only at h
      rcases hk : ser mode k s with ⟨s1, r1⟩
      rw [hk] at h
      cases r1 with
      | error e => dsimp only at h; cases h
      | ok idk =>
        dsimp only at h
        rcases hv : ser mode v s1 with ⟨s2, r2⟩
        rw [hv] at h
        cases r2 with
        | error e => dsimp only at h; cases h
        | ok idv =>
          dsimp only at h
          cases hp : s2.parentStack with
          | nil => rw [hp] at h; dsimp only at h; cases h
          | cons pr restParents =>
            obtain ⟨parentId, pos⟩ := pr
            rw [hp] at h
            dsimp only at h
            cases hst : s2.elemStack with
            | nil => rw [hst] at h; dsimp only at h; cases h
            | cons valId afterVal =>
              rw [hst] at h
              dsimp only at h
              cases hav : afterVal with
              | nil => rw [hav] at h; dsimp only at h; cases h
              | cons keyId restStack =>
                rw [hav] at h
                dsimp only at h
                subst hav
                rcases hm : addMapEntry mode s2.backend parentId keyId valId with e | b2 <;>
                  rw [hm] at h <;> dsimp only at h <;> cases h
                obtain ⟨hkc1, hkc2, hkcps, ⟨Jk, hJk, hJkne, hJkmem⟩, hkcf, hkcrn, hkcrs,
                  -, -, -, -, hkinv⟩ := ihV k hklt _ _ _ hk
                obtain ⟨hvc1, hvc2, hvcps, ⟨Jv, hJv, hJvne, hJvmem⟩, hvcf, hvcrn, hvcrs,
                  -, -, -, -, hvinv⟩ := ihV v hvlt _ _ _ hv
                obtain ⟨T, hrestT, hTmem⟩ := junk_pop2 hJvne hJkne
                  (by rw [← hJk, ← hJv, hst])
                have st1 : Steps s s1 := steps_ser hk
                have st2 : Steps s1 s2 := steps_ser hv
                have st3 : Steps s2 ({ s2 with elemStack := restStack, parentStack := (parentId, pos) :: restParents, backend := b2 } : ExtState) :=
                  steps_update (typeIds_addMapEntry hm) restStack ((parentId, pos) :: restParents)
                have hroM : b2.data.rootElemTable = s2.backend.data.rootElemTable :=
                  addMapEntry_rootElem hm
                have stA : Steps s s2 := steps_trans st1 st2
                refine ⟨⟨⟨T, ?_, ?_⟩, ?_, ?_⟩, ?_⟩
                · dsimp only
                  exact hrestT
                · intro e he
                  rcases hTmem e he with he | he
                  · exact mem_addsOf_left stA st3 (mem_addsOf_right st1 st2 (hJvmem e he))
                  · exact mem_addsOf_left st1 (steps_trans st2 st3) (hJkmem e he)
                · intro hc
                  refine ⟨hvcf, ?_⟩
                  dsimp only
                  rw [hroM, hvcrn hkcf]
                  exact hkcrn hc
                · intro hinv
                  have h1 := hkinv hinv
                  have h2 := hvinv h1
                  have hpm : parentId ∈ typeIds s2.backend :=
                    h2.2.2.1 (parentId, pos) (by rw [hp]; simp)
                  have hvm : valId ∈ typeIds s2.backend :=
                    h2.2.1 valId (by rw [hst]; simp)
                  have hkm : mode = MapMode.elemKey → keyId ∈ typeIds s2.backend :=
                    fun _ => h2.2.1 keyId (by rw [hst]; simp)
                  have hrs : ∀ e ∈ restStack, e ∈ typeIds s2.backend := by
                    intro e he
                    refine h2.2.1 e ?_
                    rw [hst]
                    exact List.mem_cons_of_mem _ (List.mem_cons_of_mem _ he)
                  have hpp : ∀ q ∈ ((parentId, pos) :: restParents),
                      q.1 ∈ typeIds s2.backend := by
                    intro q hq
                    exact h2.2.2.1 q (by rw [hp]; exact hq)
                  exact RunInv_update h2 (BInv_addMapEntry h2.1 hpm hvm hkm hm)
                    (typeIds_addMapEntry hm) hrs hpp
                · dsimp only
                  rw [← hp, hvcps]
                  exact hkcps
    · -- serElems
      intro et vs s s' u hsz h
      cases vs with
      | nil =>
        rw [serElems.eq_def] at h
        dsimp only at h
        cases h
        exact ⟨⟨⟨[], by simp, by simp⟩, fun hc => ⟨hc, rfl⟩, fun hi => hi⟩,
          fun hnil => hnil, fun p q ps hq => ⟨0, hq⟩⟩
      | cons v rest =>
        have hvlt : sizeOf v < n := by simp at hsz; omega
        have hrlt : sizeOf rest < n := by simp at hsz; omega
        rw [serElems.eq_def] at h
        dsimp only at h
        rcases hv : ser mode v s with ⟨s1, r1⟩
        rw [hv] at h
        cases r1 with
        | error e => dsimp only at h; cases h
        | ok id =>
          dsimp only at h
          cases hst : s1.elemStack with
          | nil => rw [hst] at h; dsimp only at h; cases h
          | cons childId restStack =>
            rw [hst] at h
            dsimp only at h
            cases hp : s1.parentStack with
            | nil => rw [hp] at h; dsimp only at h; cases h
            | cons pr restParents =>
              obtain ⟨parentId, pos⟩ := pr
              rw [hp] at h
              dsimp only at h
              rcases hent : entryFor et s1.backend parentId pos childId with e | b2 <;>
                rw [hent] at h <;> dsimp only at h
              · cases h
              · obtain ⟨hc1, hc2, hcps, ⟨Jv, hJv, hJvne, hJvmem⟩, hccf, hcrn, hcrs,
                  -, -, -, -, hcinv⟩ := ihV v hvlt _ _ _ hv
                obtain ⟨⟨⟨J2, hJ2, hJ2mem⟩, hcf2, hinv2⟩, hePar⟩ := ihL et rest hrlt _ _ _ h
                obtain ⟨Tv, hTv, hrestT⟩ := junk_pop hJvne (by rw [← hJv, hst])
                have st1 : Steps s s1 := steps_ser hv
                have st2 : Steps s1 ({ s1 with elemStack := restStack, parentStack := (parentId, pos + 1) :: restParents, backend := b2 } : ExtState) :=
                  steps_update (typeIds_entryFor hent) restStack ((parentId, pos + 1) :: restParents)
                have stH : Steps ({ s1 with elemStack := restStack, parentStack := (parentId, pos + 1) :: restParents, backend := b2 } : ExtState) s' :=
                  steps_serElems h
                have stA : Steps s ({ s1 with elemStack := restStack, parentStack := (parentId, pos + 1) :: restParents, backend := b2 } : ExtState) :=
                  steps_trans st1 st2
                have hroE : b2.data.rootElemTable = s1.backend.data.rootElemTable :=
                  entryFor_rootElem hent
                refine ⟨⟨⟨J2 ++ Tv, ?_, ?_⟩, ?_, ?_⟩, ?_, ?_⟩
                · have hJ2x : s'.elemStack = J2 ++ restStack := hJ2
                  rw [hJ2x, hrestT]
                  simp
                · intro e he
                  rcases List.mem_append.mp he with he | he
                  · exact mem_addsOf_right stA stH (hJ2mem e he)
                  · refine mem_addsOf_left st1 (steps_trans st2 stH) (hJvmem e ?_)
                    rw [hTv]
                    exact List.mem_cons_of_mem _ he
                · intro hc
                  obtain ⟨ha2, hr2⟩ := hcf2 hccf
                  refine ⟨ha2, ?_⟩
                  rw [hr2]
                  (try dsimp only)
                  rw [hroE]
                  exact hcrn hc
                · intro hinv
                  have h1 := hcinv hinv
                  have hpm : parentId ∈ typeIds s1.backend :=
                    h1.2.2.1 (parentId, pos) (by rw [hp]; simp)
                  have hcm : childId ∈ typeIds s1.backend :=
                    h1.2.1 childId (by rw [hst]; simp)
                  have hrs : ∀ e ∈ restStack, e ∈ typeIds s1.backend := by
                    intro e he
                    exact h1.2.1 e (by rw [hst]; exact List.mem_cons_of_mem _ he)
                  have hpp : ∀ q ∈ ((parentId, pos + 1) :: restParents),
                      q.1 ∈ typeIds s1.backend := by
                    intro q hq
                    rcases List.mem_cons.mp hq with rfl | hq
                    · exact hpm
                    · exact h1.2.2.1 q (by rw [hp]; exact List.mem_cons_of_mem _ hq)
                  have h2 : RunInv mode ({ s1 with elemStack := restStack, parentStack := (parentId, pos + 1) :: restParents, backend := b2 } : ExtState) :=
                    RunInv_update h1 (BInv_entryFor h1.1 hpm hcm hent)
                      (typeIds_entryFor hent) hrs hpp
                  exact hinv2 h2
                · intro hnil
                  rw [hcps, hnil] at hp
                  exact absurd hp (by simp)
                · intro p q ps hq
                  rw [hcps, hq] at hp
                  injection hp with hh1 hh2
                  injection hh1 with hpe hqe
                  obtain ⟨m2, hm2⟩ := hePar.2 parentId (pos + 1) restParents rfl
                  refine ⟨m2 + 1, ?_⟩
                  rw [hpe, hqe, hh2, show pos + (m2 + 1) = pos + 1 + m2 from by omega]
                  exact hm2

/-! ## Claim-level results -/

/-- Success-shape of one full run, packaged from the master lemma. -/
theorem serOk_run {mode : MapMode} {v : Value} {s s' : ExtState} {top : Nat}
    (h : ser mode v s = (s', .ok top)) : SerOk mode v s s' top :=
  (serOkOfSer mode (sizeOf v)).1 v s s' top (le_refl _) h

/-- A freshly constructed extractor satisfies the run invariant. -/
theorem RunInv_init (mode : MapMode) : RunInv mode initState := by
  have hty : typeIds initState.backend = [] := rfl
  refine ⟨⟨?_, ?_, ?_, ?_, ?_, ?_, ?_, ?_, ?_, ?_, ?_, ?_⟩, ?_, ?_, le_refl 1⟩
  · rw [hty]; intro e he; simp at he
  · rw [hty]; exact List.Pairwise.nil
  · intro e he
    rw [show initState.backend.data.boolTable = ([] : List (Nat × Bool)) from rfl] at he
    simp at he
  · intro e he
    rw [show initState.backend.data.numberTable = ([] : List (Nat × Int)) from rfl] at he
    simp at he
  · intro e he
    rw [show initState.backend.data.stringTable = ([] : List (Nat × Nat)) from rfl] at he
    simp at he
  · intro e he
    rw [show initState.backend.data.structTypeTable = ([] : List (Nat × Nat)) from rfl] at he
    simp at he
  · intro e he
    rw [show initState.backend.data.variantTypeTable =
          ([] : List (Nat × (Nat × Nat))) from rfl] at he
    simp at he
  · intro q hq
    rw [show initState.backend.data.structTable =
          ([] : List ((Nat × Nat) × Nat)) from rfl] at hq
    simp at hq
  · intro q hq
    rw [show initState.backend.data.seqTable = ([] : List ((Nat × Nat) × Nat)) from rfl] at hq
    simp at hq
  · intro q hq
    rw [show initState.backend.data.tupleTable = ([] : List ((Nat × Nat) × Nat)) from rfl] at hq
    simp at hq
  · intro q hq
    rw [show initState.backend.data.mapTable = ([] : List ((Nat × Nat) × Nat)) from rfl] at hq
    simp at hq
  · intro hmode q hq
    rw [show initState.backend.data.mapTable = ([] : List ((Nat × Nat) × Nat)) from rfl] at hq
    simp at hq
  · intro e he
    rw [show initState.elemStack = ([] : List Nat) from rfl] at he
    simp at he
  · intro q hq
    rw [show initState.parentStack = ([] : List (Nat × Nat)) from rfl] at hq
    simp at hq

/-- The symbol table shared by all the concrete states below: the bootstrap
vocabulary of `AbstractBackend::default`. -/
def bootSyms : List (String × Nat) :=
  [("Bool", 1), ("Number", 2), ("Str", 3), ("Map", 4), ("Seq", 5), ("Struct", 6),
   ("StructVariant", 7), ("Tuple", 8), ("TupleStruct", 9), ("TupleVariant", 10),
   ("Unit", 11), ("UnitStruct", 12), ("UnitVariant", 13)]

/-- The state after serializing `true` on a fresh extractor. -/
def c1S1 : ExtState :=
  { curFile := none, cur := 2, elemStack := [1], parentStack := [],
    backend :=
      { curSym := 14,
        data := { symbolTable := bootSyms, typeTable := [(1, 1)], boolTable := [(1, true)] } },
    allocTrace := [1] }

theorem c1_child_run : ser .elemKey (.bool true) initState = (c1S1, .ok 1) := by
  rw [ser.eq_def]
  rfl

theorem c1_wrapper_run :
    ser .elemKey (Value.someV (.bool true)) initState =
      ((ser .elemKey (Value.someV (.bool true)) initState).1, .ok 2) := by
  refine pairEq ?_
  rw [show Value.someV (.bool true) = Value.newtypeVariant "Option" "Some" (.bool true) from rfl]
  rw [ser.eq_def]
  dsimp only
  rw [c1_child_run]
  rfl

/-- C1: a container's element id is allocated before any descendant's, so it
is strictly below every other id allocated during its run; a single-child
wrapper's id is allocated last, so it is the maximum of its run's ids and in
particular strictly greater than its child's id. -/
theorem container_low_wrapper_high (mode : MapMode) (v : Value) (s s' : ExtState)
    (top : Nat) (h : ser mode v s = (s', .ok top)) :
    (v.isContainer = true → ∀ e ∈ addsOf s s', e ≠ top → top < e) ∧
    (v.isWrapper = true → ∀ e ∈ addsOf s s', e ≤ top) ∧
    (∀ name inner, v = .newtypeStruct name inner →
        ∃ s1 ctop, ser mode inner s = (s1, .ok ctop) ∧ ctop < top) ∧
    (∀ name variant inner, v = .newtypeVariant name variant inner →
        ∃ s1 ctop, ser mode inner s = (s1, .ok ctop) ∧ ctop < top) := by
  have hok := serOk_run h
  have hsteps := steps_ser h
  refine ⟨?_, hok.2.2.2.2.2.2.2.2.1, hok.2.2.2.2.2.2.2.2.2.1,
    hok.2.2.2.2.2.2.2.2.2.2.1⟩
  intro hc e he hne
  have h8 := hok.2.2.2.2.2.2.2.1 hc
  have h9 := hsteps.2.2.1 e he
  omega

theorem container_low_wrapper_high_witness :
    ser .elemKey (Value.someV (.bool true)) initState =
      ((ser .elemKey (Value.someV (.bool true)) initState).1, .ok 2) ∧
    (((Value.someV (.bool true)).isContainer = true →
        ∀ e ∈ addsOf initState (ser .elemKey (Value.someV (.bool true)) initState).1,
          e ≠ 2 → 2 < e) ∧
     ((Value.someV (.bool true)).isWrapper = true →
        ∀ e ∈ addsOf initState (ser .elemKey (Value.someV (.bool true)) initState).1,
          e ≤ 2) ∧
     (∀ name inner, Value.someV (.bool true) = .newtypeStruct name inner →
        ∃ s1 ctop, ser .elemKey inner initState = (s1, .ok ctop) ∧ ctop < 2) ∧
     (∀ name variant inner,
        Value.someV (.bool true) = .newtypeVariant name variant inner →
        ∃ s1 ctop, ser .elemKey inner initState = (s1, .ok ctop) ∧ ctop < 2)) :=
  ⟨c1_wrapper_run, container_low_wrapper_high .elemKey _ _ _ _ c1_wrapper_run⟩

/-- C2: within one run the ghost allocation trace of `get_fresh_elem_id` is
strictly increasing, all allocated ids are positive, and no id repeats —
whether or not the run succeeds. -/
theorem alloc_ids_strictly_increasing (mode : MapMode) (v : Value) (s0 s' : ExtState)
    (r : Except ExtErr Nat) (h0 : s0.allocTrace = []) (h1 : 1 ≤ s0.cur)
    (h : ser mode v s0 = (s', r)) :
    s'.allocTrace.Pairwise (· < ·) ∧ (∀ e ∈ s'.allocTrace, 1 ≤ e) ∧
    s'.allocTrace.Nodup := by
  have hs := steps_ser h
  have hadds : addsOf s0 s' = s'.allocTrace := by
    show s'.allocTrace.drop s0.allocTrace.length = _
    rw [h0]
    rfl
  refine ⟨?_, ?_, ?_⟩
  · rw [← hadds]
    exact hs.2.2.2.1
  · intro e he
    have h2 := hs.2.2.1 e (by rw [hadds]; exact he)
    omega
  · rw [← hadds]
    exact hs.2.2.2.1.imp (fun hlt => Nat.ne_of_lt hlt)

theorem alloc_ids_strictly_increasing_witness :
    initState.allocTrace = [] ∧ 1 ≤ initState.cur ∧
    ((ser .elemKey (.bool true) initState).1.allocTrace.Pairwise (· < ·) ∧
     (∀ e ∈ (ser .elemKey (.bool true) initState).1.allocTrace, 1 ≤ e) ∧
     (ser .elemKey (.bool true) initState).1.allocTrace.Nodup) :=
  ⟨rfl, le_refl 1,
    alloc_ids_strictly_increasing .elemKey (.bool true) initState _ _ rfl (le_refl 1) rfl⟩

/-- C3: after any successful run on a fresh extractor with the in-memory
backend, every element id appearing in a relation other than `type` appears
exactly once in the `type` relation. -/
theorem typed_exactly_once (v : Value) (s' : ExtState) (top : Nat)
    (h : ser .elemKey v initState = (s', .ok top)) :
    ∀ e ∈ relIds .elemKey s'.backend, (typeIds s'.backend).count e = 1 := by
  have hinv : RunInv .elemKey s' :=
    (serOk_run h).2.2.2.2.2.2.2.2.2.2.2 (RunInv_init .elemKey)
  intro e he
  have hmem : e ∈ typeIds s'.backend := TableSub.relIds_sub hinv.1.2.2 e he
  have hnd : (typeIds s'.backend).Nodup := hinv.1.2.1.imp (fun hlt => Nat.ne_of_lt hlt)
  exact List.count_eq_one_of_mem hnd hmem

theorem typed_exactly_once_witness :
    ser .elemKey (.bool true) initState = (c1S1, .ok 1) ∧
    (∀ e ∈ relIds .elemKey c1S1.backend, (typeIds c1S1.backend).count e = 1) :=
  ⟨c1_child_run, typed_exactly_once (.bool true) c1S1 1 c1_child_run⟩

/-- A backend that already holds a `bool` fact for element 5. -/
def c4Backend : Backend :=
  { defaultBackend with data := { defaultBackend.data with boolTable := [(5, true)] } }

/-- C4 counterexample: inserting a `bool` row whose element key already
exists fails the insertion assertion (modelled `panicked`, i.e. the process
aborts); it does not return the declared `NonuniqueIdentifier` error, which
no code path ever constructs. -/
theorem duplicate_key_panics :
    addBool c4Backend 5 false = .error .panicked ∧
    addBool c4Backend 5 false ≠ .error (.nonuniqueIdentifier 5) := by
  constructor
  · rfl
  · intro hc
    rw [show addBool c4Backend 5 false = Except.error ExtErr.panicked from rfl] at hc
    injection hc with hc
    exact ExtErr.noConfusion hc

/-- C4 amended: every keyed relation does reject a duplicate key — but by an
`assert!` failure (modelled `panicked`), never by returning
`NonuniqueIdentifier`; no row is appended or overwritten. -/
theorem duplicate_key_rejected (b : Backend) (elem : Nat) :
    (∀ v, elem ∈ b.data.boolTable.map Prod.fst → addBool b elem v = .error .panicked) ∧
    (∀ v, elem ∈ b.data.numberTable.map Prod.fst → addI64 b elem v = .error .panicked) ∧
    (∀ u, elem ∈ b.data.stringTable.map Prod.fst → addStr b elem u = .error .panicked) ∧
    (∀ u, elem ∈ b.data.structTypeTable.map Prod.fst →
        addStructType b elem u = .error .panicked) ∧
    (∀ t u, elem ∈ b.data.variantTypeTable.map Prod.fst →
        addVariantType b elem t u = .error .panicked) ∧
    (∀ k x, (elem, (internString b k).1) ∈ b.data.structTable.map Prod.fst →
        addStructEntry b elem k x = .error .panicked) ∧
    (∀ p x, (elem, p) ∈ b.data.seqTable.map Prod.fst →
        addSeqEntry b elem p x = .error .panicked) ∧
    (∀ p x, (elem, p) ∈ b.data.tupleTable.map Prod.fst →
        addTupleEntry b elem p x = .error .panicked) ∧
    (∀ k x, (elem, k) ∈ b.data.mapTable.map Prod.fst →
        addMapEntry .elemKey b elem k x = .error .panicked) := by
  refine ⟨?_, ?_, ?_, ?_, ?_, ?_, ?_, ?_, ?_⟩
  · intro v hm
    unfold addBool
    rw [if_pos (by simpa [List.elem_iff] using hm)]
  · intro v hm
    unfold addI64
    rw [if_pos (by simpa [List.elem_iff] using hm)]
  · intro u hm
    unfold addStr
    rcases hI : internString b u with ⟨sym, b1⟩
    dsimp only
    have hs : b1.data.stringTable = b.data.stringTable := by
      have h2 := internString_stringTable b u
      rw [hI] at h2
      exact h2
    rw [if_pos (by rw [hs]; simpa [List.elem_iff] using hm)]
  · intro u hm
    unfold addStructType
    rcases hI : internString b u with ⟨sym, b1⟩
    dsimp only
    have hs : b1.data.structTypeTable = b.data.structTypeTable := by
      have h2 := internString_structTypeTable b u
      rw [hI] at h2
      exact h2
    rw [if_pos (by rw [hs]; simpa [List.elem_iff] using hm)]
  · intro t u hm
    unfold addVariantType
    rcases hI : internString b t with ⟨tSym, b1⟩
    dsimp only
    rcases hJ : internString b1 u with ⟨vSym, b2⟩
    dsimp only
    have hs : b2.data.variantTypeTable = b.data.variantTypeTable := by
      have h2 := internString_variantTypeTable b t
      have h3 := internString_variantTypeTable b1 u
      rw [hI] at h2
      rw [hJ] at h3
      exact h3.trans h2
    rw [if_pos (by rw [hs]; simpa [List.elem_iff] using hm)]
  · intro k x hm
    unfold addStructEntry
    rcases hI : internString b k with ⟨sym, b1⟩
    dsimp only
    have hs : b1.data.structTable = b.data.structTable := by
      have h2 := internString_structTable b k
      rw [hI] at h2
      exact h2
    rw [hI] at hm
    rw [if_pos (by rw [hs]; simpa [List.elem_iff] using hm)]
  · intro p x hm
    unfold addSeqEntry
    rw [if_pos (by simpa [List.elem_iff] using hm)]
  · intro p x hm
    unfold addTupleEntry
    rw [if_pos (by simpa [List.elem_iff] using hm)]
  · intro k x hm
    unfold addMapEntry
    dsimp only
    rw [if_pos (by simpa [List.elem_iff] using hm)]

theorem duplicate_key_rejected_witness :
    (5 : Nat) ∈ c4Backend.data.boolTable.map Prod.fst ∧
    addBool c4Backend 5 false = .error .panicked :=
  ⟨by decide, (duplicate_key_rejected c4Backend 5).1 false (by decide)⟩

/-- C5: floats and byte strings are rejected by `add_elem` before any table
is touched: for either vector-backend flavour the run returns
`UnextractableData` with the extractor state exactly unchanged, so no
relation row (not even a `type` row) is committed for the rejected value and
every previously committed fact is intact. -/
theorem float_bytes_rejected_no_rows (mode : MapMode) (s : ExtState) :
    ser mode .f32 s = (s, .error .unextractableData) ∧
    ser mode .f64 s = (s, .error .unextractableData) ∧
    ser mode .bytes s = (s, .error .unextractableData) := by
  have hg : ∀ t : ElemType, elemTypeName t = none →
      getFresh s t = (s, .error .unextractableData) := by
    intro t ht
    unfold getFresh addElem
    rw [ht]
  refine ⟨?_, ?_, ?_⟩
  · rw [ser.eq_def]
    dsimp only
    rw [hg ElemType.F32 rfl]
  · rw [ser.eq_def]
    dsimp only
    rw [hg ElemType.F64 rfl]
  · rw [ser.eq_def]
    dsimp only
    rw [hg ElemType.Bytes rfl]

/-- The extractor state right after `serialize_map` has allocated the map's
element id (1) and pushed the parent frame `(1, 0)`. -/
def c6State : ExtState :=
  match getFresh initState ElemType.Map with
  | (s1, .ok id) => { s1 with parentStack := (id, 0) :: s1.parentStack }
  | (s1, _) => s1

/-- The state after serializing the key `true` inside that map. -/
def c6S1 : ExtState :=
  { curFile := none, cur := 3, elemStack := [2, 1], parentStack := [(1, 0)],
    backend :=
      { curSym := 14,
        data := { symbolTable := bootSyms, typeTable := [(1, 4), (2, 1)],
                  boolTable := [(2, true)] } },
    allocTrace := [1, 2] }

/-- The state after also serializing the value `false`. -/
def c6S2 : ExtState :=
  { curFile := none, cur := 4, elemStack := [3, 2, 1], parentStack := [(1, 0)],
    backend :=
      { curSym := 14,
        data := { symbolTable := bootSyms, typeTable := [(1, 4), (2, 1), (3, 1)],
                  boolTable := [(2, true), (3, false)] } },
    allocTrace := [1, 2, 3] }

theorem c6_key_run : ser .elemKey (.bool true) c6State = (c6S1, .ok 2) := by
  rw [ser.eq_def]
  rfl

theorem c6_value_run : ser .elemKey (.bool false) c6S1 = (c6S2, .ok 3) := by
  rw [ser.eq_def]
  rfl

theorem c6_entry_snd :
    (serMapEntry .elemKey (.bool true) (.bool false) c6State).2 = .ok () := by
  rw [serMapEntry.eq_def]
  rw [c6_key_run]
  dsimp only
  rw [c6_value_run]
  rfl

/-- C6 counterexample: one full map entry under a freshly begun map succeeds,
records exactly one `map` fact, but leaves the parent frame's position
counter at 0: `SerializeMap::serialize_value` reads `parent_stack.last()`
and never increments the position, where the claim says it is incremented. -/
theorem map_entry_position_not_incremented :
    (serMapEntry .elemKey (.bool true) (.bool false) c6State).2 = .ok () ∧
    c6State.parentStack = [(1, 0)] ∧
    (serMapEntry .elemKey (.bool true) (.bool false) c6State).1.parentStack = [(1, 0)] ∧
    (serMapEntry .elemKey (.bool true) (.bool false) c6State).1.backend.data.mapTable =
      [((1, 2), 3)] := by
  refine ⟨c6_entry_snd, rfl, ?_, ?_⟩ <;>
    (rw [serMapEntry.eq_def]
     rw [c6_key_run]
     dsimp only
     rw [c6_value_run]
     rfl)

/-- C6 amended: for every successful map entry, the key is serialized before
the value, the value id then the key id are popped off the element stack,
exactly one `map` fact is recorded against the parent frame's id via
`add_map_entry` (the string-keyed flavour re-filing a string key under its
symbol and rejecting a non-string key with `UnextractableData`), and the
parent frame — including its position counter — is left untouched. -/
theorem map_entry_step (mode : MapMode) (k v : Value) (s s' : ExtState) (u : Unit)
    (h : serMapEntry mode k v s = (s', .ok u)) :
    (∃ s1 kid s2 vid valId keyId rest parentId pos ps b2,
      ser mode k s = (s1, .ok kid) ∧
      ser mode v s1 = (s2, .ok vid) ∧
      s2.elemStack = valId :: keyId :: rest ∧
      s2.parentStack = (parentId, pos) :: ps ∧
      addMapEntry mode s2.backend parentId keyId valId = .ok b2 ∧
      s' = { s2 with elemStack := rest, backend := b2 } ∧
      (mode = .elemKey →
        b2.data.mapTable = s2.backend.data.mapTable ++ [((parentId, keyId), valId)]) ∧
      (mode = .stringKey → ∃ sym,
        ((s2.backend.data.stringTable.find? (fun q => q.1 = keyId)).map (·.2) = some sym) ∧
        b2.data.mapTable = s2.backend.data.mapTable ++ [((parentId, sym), valId)] ∧
        b2.data.stringTable = removeStringRow s2.backend.data.stringTable keyId)) ∧
    s'.parentStack = s.parentStack ∧
    (∀ b p kk vv, b.data.stringTable.find? (fun q => q.1 = kk) = none →
      addMapEntry .stringKey b p kk vv = .error .unextractableData) := by
  have hreject : ∀ b p kk vv, (b : Backend).data.stringTable.find? (fun q => q.1 = kk) = none →
      addMapEntry .stringKey b p kk vv = .error .unextractableData := by
    intro b p kk vv hnone
    unfold addMapEntry
    dsimp only
    rw [hnone]
    rfl
  rw [serMapEntry.eq_def] at h
  dsimp only at h
  rcases hk : ser mode k s with ⟨s1, r1⟩
  rw [hk] at h
  cases r1 with
  | error e => dsimp only at h; cases h
  | ok idk =>
    dsimp only at h
    rcases hv : ser mode v s1 with ⟨s2, r2⟩
    rw [hv] at h
    cases r2 with
    | error e => dsimp only at h; cases h
    | ok idv =>
      dsimp only at h
      cases hp : s2.parentStack with
      | nil => rw [hp] at h; dsimp only at h; cases h
      | cons pr restParents =>
        obtain ⟨parentId, pos⟩ := pr
        rw [hp] at h
        dsimp only at h
        cases hst : s2.elemStack with
        | nil => rw [hst] at h; dsimp only at h; cases h
        | cons valId afterVal =>
          rw [hst] at h
          dsimp only at h
          cases hav : afterVal with
          | nil => rw [hav] at h; dsimp only at h; cases h
          | cons keyId restStack =>
            rw [hav] at h
            dsimp only at h
            subst hav
            rcases hm : addMapEntry mode s2.backend parentId keyId valId with e | b2 <;>
              rw [hm] at h <;> dsimp only at h <;> cases h
            have hkps := (serOk_run hk).2.2.1
            have hvps := (serOk_run hv).2.2.1
            refine ⟨⟨s1, idk, s2, idv, valId, keyId, restStack, parentId, pos, restParents,
              b2, rfl, hv, hst, hp, hm, ?_, ?_, ?_⟩, ?_, hreject⟩
            · rw [hp]
            · intro hmode
              subst hmode
              rw [(addMapEntry_elemKey_ok hm).2]
            · intro hmode
              subst hmode
              obtain ⟨⟨sym, hfind, hmap⟩, hstr, -⟩ := addMapEntry_stringKey_ok hm
              exact ⟨sym, hfind, hmap, hstr⟩
            · dsimp only
              rw [← hp, hvps]
              exact hkps

theorem map_entry_step_witness :
    serMapEntry .elemKey (.bool true) (.bool false) c6State =
      ((serMapEntry .elemKey (.bool true) (.bool false) c6State).1, .ok ()) ∧
    (serMapEntry .elemKey (.bool true) (.bool false) c6State).1.parentStack =
      c6State.parentStack :=
  have hrun : serMapEntry .elemKey (.bool true) (.bool false) c6State =
      ((serMapEntry .elemKey (.bool true) (.bool false) c6State).1, .ok ()) :=
    pairEq c6_entry_snd
  ⟨hrun, (map_entry_step .elemKey (.bool true) (.bool false) c6State _ () hrun).2.1⟩

/-- C7 counterexample: the statement trace of `dump_to_db` (here on the
freshly constructed backend's data) is not one single transaction covering
schema creation and row insertion — it contains two `BEGIN` statements, one
per schema-only batch. -/
theorem dump_to_db_not_single_tx :
    ¬ singleTxCovering (dumpToDbEvents defaultBackend.data) := by
  intro hcov
  obtain ⟨pre, body, post, heq, hpre, hpost, hbody⟩ := hcov
  have hc : (dumpToDbEvents defaultBackend.data).count SqlEvent.beginTx = 2 := by decide
  have hp0 : pre.count SqlEvent.beginTx = 0 :=
    List.count_eq_zero.mpr (fun hin => (hpre _ hin).2.1 rfl)
  have hb0 : body.count SqlEvent.beginTx = 0 :=
    List.count_eq_zero.mpr (fun hin => (hbody _ hin).1 rfl)
  have hq0 : post.count SqlEvent.beginTx = 0 :=
    List.count_eq_zero.mpr (fun hin => (hpost _ hin).2.1 rfl)
  have h2 : ([SqlEvent.beginTx].count SqlEvent.beginTx) = 1 := rfl
  have h3 : ([SqlEvent.commitTx].count SqlEvent.beginTx) = 0 := rfl
  rw [heq, List.count_append, List.count_append, List.count_append, List.count_append,
      hp0, hb0, hq0, h2, h3] at hc
  omega

/-- C7 amended: `dump_to_db` issues exactly two transactions, both schema-only
(the shared-schema batch and the map-schema batch, each `BEGIN … COMMIT`),
and performs every row insertion outside any transaction bracket, on the
auto-committing connection, after the corresponding schema batch. -/
theorem dump_to_db_two_schema_batches (d : BackendData) :
    dumpToDbEvents d = mainSchemaBatch ++ rowInserts d ++ mapSchemaBatch ++ mapInserts d ∧
    mainSchemaBatch.count .beginTx = 1 ∧ mainSchemaBatch.count .commitTx = 1 ∧
    mapSchemaBatch.count .beginTx = 1 ∧ mapSchemaBatch.count .commitTx = 1 ∧
    mainSchemaBatch.head? = some .beginTx ∧ mainSchemaBatch.getLast? = some .commitTx ∧
    mapSchemaBatch.head? = some .beginTx ∧ mapSchemaBatch.getLast? = some .commitTx ∧
    (∀ e ∈ mainSchemaBatch, e.isInsert = false) ∧
    (∀ e ∈ mapSchemaBatch, e.isInsert = false) ∧
    (∀ e ∈ rowInserts d, e.isInsert = true ∧ e ≠ .beginTx ∧ e ≠ .commitTx) ∧
    (∀ e ∈ mapInserts d, e.isInsert = true ∧ e ≠ .beginTx ∧ e ≠ .commitTx) := by
  refine ⟨rfl, rfl, rfl, rfl, rfl, rfl, rfl, rfl, rfl, by decide, by decide, ?_, ?_⟩
  · intro e he
    have hname : ∃ nm, e = SqlEvent.insertRow nm := by
      simp only [rowInserts, List.mem_append, List.mem_map] at he
      rcases he with (((((((((⟨a, -, rfl⟩ | ⟨a, -, rfl⟩) | ⟨a, -, rfl⟩) | ⟨a, -, rfl⟩) |
        ⟨a, -, rfl⟩) | ⟨a, -, rfl⟩) | ⟨a, -, rfl⟩) | ⟨a, -, rfl⟩) | ⟨a, -, rfl⟩) |
        ⟨a, -, rfl⟩) | ⟨a, -, rfl⟩
      all_goals exact ⟨_, rfl⟩
    obtain ⟨nm, rfl⟩ := hname
    exact ⟨rfl, by simp, by simp⟩
  · intro e he
    simp only [mapInserts, List.mem_map] at he
    obtain ⟨a, -, rfl⟩ := he
    exact ⟨rfl, by simp, by simp⟩

/-- The state after serializing `true` on a fresh extractor with the pending
file marker "f": the marker is consumed at the very first allocation, which
registers element 1 (not the eventual root of a larger value) for the file's
symbol 14. -/
def c8S1 : ExtState :=
  { curFile := none, cur := 2, elemStack := [1], parentStack := [],
    backend :=
      { curSym := 15,
        data := { symbolTable := bootSyms ++ [("f", 14)], typeTable := [(1, 1)],
                  boolTable := [(1, true)], rootElemTable := [(14, 1)] } },
    allocTrace := [1] }

theorem c8_child_run :
    ser .elemKey (.bool true) (setFile initState "f") = (c8S1, .ok 1) := by
  rw [ser.eq_def]
  rfl

/-- C8 counterexample: after `set_file("f")`, serializing `Some(true)`
succeeds with root element 2, but the root-elem relation records element 1 —
the innermost child `true`, which is the FIRST allocation of the run — for
file symbol 14, not the semantic root element of the serialized value. -/
theorem set_file_binds_first_allocation :
    (ser .elemKey (Value.someV (.bool true)) (setFile initState "f")).2 = .ok 2 ∧
    (ser .elemKey (Value.someV (.bool true))
        (setFile initState "f")).1.backend.data.rootElemTable = [(14, 1)] ∧
    (1 : Nat) ≠ 2 := by
  refine ⟨?_, ?_, by decide⟩ <;>
    (rw [show Value.someV (.bool true) =
          Value.newtypeVariant "Option" "Some" (.bool true) from rfl, ser.eq_def]
     dsimp only
     rw [c8_child_run]
     rfl)

/-- C8 amended: the pending file marker set by `set_file` is consumed by the
next `get_fresh_elem_id` call: the element registered for the file is the
first freshly allocated one (the counter's value at the call), exactly one
root-elem row is appended, the marker is cleared, and registering a root for
a file that already has one fails with `NonuniqueRootElement`. -/
theorem set_file_consumed_on_first_alloc (s : ExtState) (f : String) (t : ElemType)
    (s1 : ExtState) (id : Nat) (h : getFresh (setFile s f) t = (s1, .ok id)) :
    id = s.cur ∧ s1.curFile = none ∧
    (∃ fsym, s1.backend.data.rootElemTable = s.backend.data.rootElemTable ++ [(fsym, s.cur)]) ∧
    (∀ b e2, (internString b f).1 ∈ b.data.rootElemTable.map Prod.fst →
        addRootElem b f e2 = .error (.nonuniqueRootElement f)) := by
  obtain ⟨hid, -, -, -, -, hcf, -, -, -, -, -, -, -, -, -, -, -, hroots⟩ := getFresh_ok h
  refine ⟨hid, hcf, hroots f rfl, ?_⟩
  intro b e2 hmem
  unfold addRootElem
  rcases hI : internString b f with ⟨fSym, b1⟩
  dsimp only
  have hr : b1.data.rootElemTable = b.data.rootElemTable := by
    have h2 := internString_rootElemTable b f
    rw [hI] at h2
    exact h2
  rw [hI] at hmem
  rw [if_pos (by rw [hr]; simpa [List.elem_iff] using hmem)]

theorem set_file_consumed_on_first_alloc_witness :
    getFresh (setFile initState "f") ElemType.Bool =
      ((getFresh (setFile initState "f") ElemType.Bool).1, .ok 1) ∧
    (1 : Nat) = initState.cur ∧
    (getFresh (setFile initState "f") ElemType.Bool).1.curFile = none :=
  have hrun : getFresh (setFile initState "f") ElemType.Bool =
      ((getFresh (setFile initState "f") ElemType.Bool).1, .ok 1) := pairEq rfl
  ⟨hrun, (set_file_consumed_on_first_alloc initState "f" ElemType.Bool _ 1 hrun).1,
    (set_file_consumed_on_first_alloc initState "f" ElemType.Bool _ 1 hrun).2.1⟩

/-- C9: interning is idempotent (the second interning of a string returns
the same symbol id and leaves the backend unchanged), the symbol table keeps
exactly one row per distinct string, and the fixed element-type-tag
vocabulary is interned at backend construction with symbol ids 1..13, before
any user string, so those ids are deterministic. -/
theorem intern_idempotent_bootstrap_fixed :
    (∀ b u sym b1, internString b u = (sym, b1) → internString b1 u = (sym, b1)) ∧
    (∀ b u, (b.data.symbolTable.map Prod.fst).Nodup →
      ((internString b u).2.data.symbolTable.map Prod.fst).Nodup ∧
      ((internString b u).2.data.symbolTable.map Prod.fst).count u = 1) ∧
    defaultBackend.data.symbolTable = bootSyms ∧
    defaultBackend.curSym = 14 := by
  refine ⟨?_, ?_, by decide, by decide⟩
  · intro b u sym b1 h
    unfold internString at h ⊢
    cases hL : lookupSym b.data.symbolTable u with
    | some i =>
        rw [hL] at h
        dsimp only at h
        injection h with h1 h2
        subst h1
        subst h2
        rw [hL]
    | none =>
        rw [hL] at h
        dsimp only at h
        injection h with h1 h2
        subst h1
        subst h2
        have hF : b.data.symbolTable.find? (fun p => p.1 = u) = none := by
          unfold lookupSym at hL
          rcases hx : b.data.symbolTable.find? (fun p => p.1 = u) with _ | p
          · exact hx
          · rw [hx] at hL
            simp at hL
        have hfind : lookupSym (b.data.symbolTable ++ [(u, b.curSym)]) u = some b.curSym := by
          unfold lookupSym
          rw [List.find?_append, hF]
          simp
        dsimp only
        rw [hfind]
  · intro b u hnd
    unfold internString
    cases hL : lookupSym b.data.symbolTable u with
    | some i =>
        dsimp only
        have hmem : u ∈ b.data.symbolTable.map Prod.fst := by
          unfold lookupSym at hL
          rcases hx : b.data.symbolTable.find? (fun p => p.1 = u) with _ | p
          · rw [hx] at hL
            simp at hL
          · have hp := List.find?_some hx
            have hmem2 := List.mem_of_find?_eq_some hx
            simp at hp
            exact hp ▸ List.mem_map_of_mem Prod.fst hmem2
        exact ⟨hnd, List.count_eq_one_of_mem hnd hmem⟩
    | none =>
        dsimp only
        have hF : b.data.symbolTable.find? (fun p => p.1 = u) = none := by
          unfold lookupSym at hL
          rcases hx : b.data.symbolTable.find? (fun p => p.1 = u) with _ | p
          · exact hx
          · rw [hx] at hL
            simp at hL
        have hnotmem : u ∉ b.data.symbolTable.map Prod.fst := by
          intro hmem
          obtain ⟨p, hp, hpe⟩ := List.mem_map.mp hmem
          have hnp := List.find?_eq_none.mp hF p hp
          simp [hpe] at hnp
        constructor
        · rw [List.map_append]
          refine List.Nodup.append hnd (by simp) ?_
          intro a ha hb
          simp at hb
          subst hb
          exact hnotmem ha
        · rw [List.map_append, List.count_append, List.count_eq_zero.mpr hnotmem]
          simp

/-- C10: the claim fails on unit variants: `serialize_unit_variant` pushes
the freshly allocated element id a second time (after `get_fresh_elem_id`
already pushed it), so serializing `None` on a fresh extractor succeeds with
an empty parent stack but TWO copies of the root's id on the element stack
instead of exactly one. -/
theorem unit_variant_double_push :
    (ser .elemKey Value.noneV initState).2 = .ok 1 ∧
    (ser .elemKey Value.noneV initState).1.parentStack = [] ∧
    (ser .elemKey Value.noneV initState).1.elemStack = [1, 1] ∧
    [1, 1] ≠ [(1 : Nat)] := by
  refine ⟨?_, ?_, ?_, by decide⟩ <;>
    (show _ = _
     rw [show Value.noneV = Value.unitVariant "Option" "None" from rfl, ser.eq_def]
     rfl)
